import Mathlib

/-!
# Group chat server (`src/server.c`): shallow embedding

Bytes are natural numbers below 256.  `size_t` values are natural numbers
below `SIZE_MOD = 2 ^ 64`; `size_sub` and `size_add` wrap the way unsigned
arithmetic does.  `int` and `time_t` values are integers.

An outgoing buffer is the content of its heap block, a function from offsets
to bytes, or `none` for the `NULL` pointer.  The inbound buffer of a client is
the list of its `buflen` valid bytes `buf[0 .. buflen)`; the terminating
`'\0'` stored at `buf[buflen]` is never read and is not kept.

`MAX_MSG_SIZE` comes from `include/common.h`, which is not part of the
sources; every definition that uses it takes it as a parameter.
-/

namespace ChatServer

/-! ## Machine arithmetic and memory -/

/-- The constant `OUTBUF_SIZE` of `server.c`. -/
def OUTBUF_SIZE : Nat := 10 * 1024 * 1024

/-- The constant `sizeof(clients[i].buf)`. -/
def INBUF_SIZE : Nat := 2048

/-- Number of values of a 64-bit `size_t`. -/
def SIZE_MOD : Nat := 18446744073709551616

/-- Subtraction of two `size_t` values. -/
def size_sub (a b : Nat) : Nat := (a + SIZE_MOD - b) % SIZE_MOD

/-- Addition of two `size_t` values. -/
def size_add (a b : Nat) : Nat := (a + b) % SIZE_MOD

/-- The call `memmove(m, m + src, n)` on a block `m`. -/
def mem_move (m : Nat → Nat) (src n : Nat) : Nat → Nat :=
  fun k => if k < n then m (src + k) else m k

/-- The call `memcpy(m + dst, data, n)` on a block `m`. -/
def mem_copy (m : Nat → Nat) (dst : Nat) (data : List Nat) (n : Nat) : Nat → Nat :=
  fun k => if dst ≤ k ∧ k < dst + n then data.getD (k - dst) 0 else m k

/-- The bytes `m[lo .. hi)` of a block. -/
def region (m : Nat → Nat) (lo hi : Nat) : List Nat :=
  (List.range (hi - lo)).map (fun k => m (lo + k))

/-- The macro `FD_SET(fd, &set)`. -/
def FD_SET (fd : Int) (set : Int → Bool) : Int → Bool :=
  fun x => if x = fd then true else set x

/-- The macro `FD_CLR(fd, &set)`. -/
def FD_CLR (fd : Int) (set : Int → Bool) : Int → Bool :=
  fun x => if x = fd then false else set x

/-! ## Data model -/

/-- The peer address: the four bytes of `sin_addr.s_addr` and the two bytes of
`sin_port`, in the order in which they lie in memory (network byte order). -/
structure sockaddr_in where
  a0 : Nat
  a1 : Nat
  a2 : Nat
  a3 : Nat
  p0 : Nat
  p1 : Nat

/-- The struct `client_t`. -/
structure client_t where
  fd : Int
  addr : sockaddr_in
  buf : List Nat
  alive : Bool
  got_type1 : Bool
  outbuf : Option (Nat → Nat)
  out_head : Nat
  out_tail : Nat

/-- The field `buflen`: the number of valid bytes of `buf`. -/
def client_t.buflen (c : client_t) : Nat := c.buf.length

/-- The variables of `main` that are shared by all slots. -/
structure globals where
  num_clients : Int
  type1_count : Int
  first_type1_time : Int
  master_read : Int → Bool
  master_write : Int → Bool
  fdmax : Int

/-- The state of the event loop: the table `clients` and the shared variables. -/
structure server where
  clients : List client_t
  g : globals

/-- The result of a piece of `main`: the loop goes on, or `main` has returned. -/
inductive outcome where
  | running (s : server)
  | exited (status : Int) (s : server)

/-- The unsent bytes `outbuf[out_head .. out_tail)` of a client. -/
def pending (c : client_t) : List Nat :=
  match c.outbuf with
  | some m => region m c.out_head c.out_tail
  | none => []

/-- The release sequence used by the main loop (lines 204-210, 269-275, 283-289,
334-340, 438-444): `close`, `FD_CLR` twice, `free`, `fd = -1`, `alive = 0`,
`num_clients--`.  `fd` is the descriptor passed to `close` and `FD_CLR`. -/
def release (fd : Int) (g : globals) (c : client_t) : globals × client_t :=
  ({ g with master_read := FD_CLR fd g.master_read,
            master_write := FD_CLR fd g.master_write,
            num_clients := g.num_clients - 1 },
   { c with outbuf := none, fd := -1, alive := false })

/-! ## Broadcast router (lines 304-343) -/

/-- The length `payload_len` of lines 306-307 for the frame `buf[processed .. p]`,
whose length is `msglen = p - processed + 1`.  The scan calls it with
`processed ≤ p`, so the unsigned subtraction of line 301 does not wrap. -/
def payload_len (MAX_MSG_SIZE processed p : Nat) : Nat :=
  let msglen := p - processed + 1
  if msglen - 1 > MAX_MSG_SIZE then MAX_MSG_SIZE else msglen - 1

/-- The length `out_len` of line 314. -/
def out_len (MAX_MSG_SIZE processed p : Nat) : Nat :=
  1 + 4 + 2 + payload_len MAX_MSG_SIZE processed p

/-- The bytes `out[0 .. out_len)` built by lines 308-313 for the frame
`buf[processed .. p]` of the client `c`. -/
def chat_envelope (MAX_MSG_SIZE : Nat) (c : client_t) (processed p : Nat) : List Nat :=
  [0, c.addr.a0, c.addr.a1, c.addr.a2, c.addr.a3, c.addr.p0, c.addr.p1] ++
    (c.buf.drop (processed + 1)).take (payload_len MAX_MSG_SIZE processed p)

/-- The body of the loop of lines 317-343 for one slot: compaction when the
free space is too small, then append, or release of the slot. -/
def chat_enqueue (out : List Nat) (len : Nat) (g : globals) (c : client_t) :
    globals × client_t :=
  if c.fd ≠ -1 ∧ c.alive = true then
    let avail := size_sub OUTBUF_SIZE c.out_tail
    let compact := decide (avail < len ∧ c.out_head > 0)
    let rem := size_sub c.out_tail c.out_head
    let c1 : client_t :=
      if compact then
        { c with outbuf := c.outbuf.map (fun m => mem_move m c.out_head rem),
                 out_tail := rem, out_head := 0 }
      else c
    let avail1 := if compact then size_sub OUTBUF_SIZE c1.out_tail else avail
    if avail1 ≥ len then
      ({ g with master_write := FD_SET c1.fd g.master_write,
                fdmax := if c1.fd > g.fdmax then c1.fd else g.fdmax },
       { c1 with outbuf := c1.outbuf.map (fun m => mem_copy m c1.out_tail out len),
                 out_tail := size_add c1.out_tail len })
    else release c1.fd g c1
  else (g, c)

/-- A loop `for (int j = 0; j < FD_SETSIZE; j++)` whose body reads and writes
only `clients[j]` and the shared variables `st`: the slots are visited in table
order, `k` is the index of the first slot of the list. -/
def for_slots {σ : Type} (body : Nat → σ → client_t → σ × client_t) :
    Nat → σ → List client_t → σ × List client_t
  | _, st, [] => (st, [])
  | k, st, c :: cs =>
    let r := body k st c
    let rs := for_slots body (k + 1) r.1 cs
    (rs.1, r.2 :: rs.2)

/-- The loop of lines 317-343 over the slots of the table. -/
def broadcast (out : List Nat) (len : Nat) (g : globals) (cs : List client_t) :
    globals × List client_t :=
  for_slots (fun _ => chat_enqueue out len) 0 g cs

/-! ## Shutdown coordinator (lines 111-185 and 356-423) -/

/-- The two bytes `tout` of lines 119 and 358. -/
def tout : List Nat := [1, 10]

/-- The body of the loops of lines 121-139 and 360-378 for one slot: compaction
whenever `out_head > 0`, then append when two bytes are free. -/
def shutdown_enqueue (g : globals) (c : client_t) : globals × client_t :=
  if c.fd ≠ -1 then
    let avail := size_sub OUTBUF_SIZE c.out_tail
    let compact := decide (c.out_head > 0)
    let rem := size_sub c.out_tail c.out_head
    let c1 : client_t :=
      if compact then
        { c with outbuf := c.outbuf.map (fun m => mem_move m c.out_head rem),
                 out_tail := rem, out_head := 0 }
      else c
    let avail1 := if compact then size_sub OUTBUF_SIZE c1.out_tail else avail
    if avail1 ≥ 2 then
      ({ g with master_write := FD_SET c1.fd g.master_write,
                fdmax := if c1.fd > g.fdmax then c1.fd else g.fdmax },
       { c1 with outbuf := c1.outbuf.map (fun m => mem_copy m c1.out_tail tout 2),
                 out_tail := size_add c1.out_tail 2 })
    else (g, c1)
  else (g, c)

/-- The loops of lines 121-139 and 360-378 over the slots of the table. -/
def shutdown_broadcast (g : globals) (cs : List client_t) : globals × List client_t :=
  for_slots (fun _ => shutdown_enqueue) 0 g cs

/-- The result of one `send`: the returned value `s` and, for `s < 0`, whether
`errno` is `EAGAIN` or `EWOULDBLOCK`. -/
structure send_result where
  s : Int
  again : Bool

/-- One round of a drain loop: the value returned by `select`, the descriptors
it reports writable and the result of the `send` of each slot. -/
structure drain_round where
  sel : Int
  ready : Int → Bool
  send : Nat → send_result

/-- The release sequence of the drain loops (lines 164-169 and 406-411), which
leaves `num_clients` alone. -/
def release_final (fd : Int) (g : globals) (c : client_t) : globals × client_t :=
  ({ g with master_read := FD_CLR fd g.master_read,
            master_write := FD_CLR fd g.master_write },
   { c with outbuf := none, fd := -1, alive := false })

/-- The body of the loops of lines 148-175 and 390-417 for slot `k`; the
boolean of the loop state is `finishing`. -/
def drain_slot (wfds : Int → Bool) (send : Nat → send_result) (k : Nat)
    (st : globals × Bool) (c : client_t) : (globals × Bool) × client_t :=
  if c.fd = -1 then (st, c)
  else
    let wfd := c.fd
    if wfds wfd = true then
      let tosend := size_sub c.out_tail c.out_head
      if tosend > 0 then
        let sr := send k
        if sr.s > 0 then
          let c1 : client_t := { c with out_head := size_add c.out_head sr.s.toNat }
          if c1.out_head = c1.out_tail then
            (({ st.1 with master_write := FD_CLR wfd st.1.master_write }, st.2),
             { c1 with out_head := 0, out_tail := 0 })
          else ((st.1, true), c1)
        else if sr.s < 0 ∧ sr.again = false then
          let r := release_final wfd st.1 c
          ((r.1, st.2), r.2)
        else ((st.1, true), c)
      else (st, c)
    else (st, c)

/-- The loops `while (finishing)` of lines 143-176 and 383-418.  The rounds are
the successive results of `select` and `send`; after the last round of the list
`select` returns a value `≤ 0`. -/
def drain_loop : List drain_round → server → server
  | [], s => s
  | r :: rs, s =>
    if r.sel ≤ 0 then s
    else
      let wfds : Int → Bool := fun fd => s.g.master_write fd && r.ready fd
      let res := for_slots (drain_slot wfds r.send) 0 (s.g, false) s.clients
      let s1 : server := { clients := res.2, g := res.1.1 }
      if res.1.2 = true then drain_loop rs s1 else s1

/-- Lines 358-378: the shutdown frame is offered to every open slot. -/
def shutdown_enqueue_all (s : server) : server :=
  let r := shutdown_broadcast s.g s.clients
  { clients := r.2, g := r.1 }

/-- Lines 356-422, the quorum path: shutdown enqueue, drain, close of every
descriptor (which changes no field of the table). -/
def quorum_finalize (rounds : List drain_round) (s : server) : server :=
  drain_loop rounds (shutdown_enqueue_all s)

/-- Lines 119-183, the grace path: shutdown enqueue, drain, close of every
descriptor and release of every outgoing buffer. -/
def grace_finalize (rounds : List drain_round) (s : server) : server :=
  let s1 := drain_loop rounds (shutdown_enqueue_all s)
  { s1 with clients := s1.clients.map (fun c => { c with outbuf := none }) }

/-- The values of `argv` and of the included header used by the loop. -/
structure config where
  MAX_MSG_SIZE : Nat
  expected_clients : Int
  listen_fd : Int

/-- Lines 111-185: the grace check of one loop iteration; `now` is the value of
`time(NULL)`. -/
def grace_check (cfg : config) (now : Int) (rounds : List drain_round) (s : server) :
    outcome :=
  if s.g.first_type1_time ≠ 0 then
    let elapsed := now - s.g.first_type1_time
    if s.g.type1_count < cfg.expected_clients ∧ elapsed ≥ 1 then
      outcome.exited 0 (grace_finalize rounds s)
    else outcome.running s
  else outcome.running s

/-! ## Inbound framer (lines 262-446) -/

/-- Lines 345-354: the done signal of slot `i`, whose entry is `c`, is counted
unless the connection has signalled before; the first signal of all sets the
time stamp. -/
def record_type1 (now : Int) (i : Nat) (c : client_t) (s : server) : server :=
  if c.got_type1 = false then
    { clients := s.clients.set i { c with got_type1 := true },
      g := { s.g with
        type1_count := s.g.type1_count + 1,
        first_type1_time :=
          if s.g.first_type1_time = 0 then now else s.g.first_type1_time } }
  else s

/-- Lines 301-425: the frame `buf[processed .. p]` of slot `i`, closed by the
newline at index `p`.  A chat frame is broadcast; a done signal is counted once
per connection and finalizes when the count has reached the expected number. -/
def process_frame (cfg : config) (now : Int) (rounds : List drain_round)
    (i processed p : Nat) (s : server) : outcome :=
  match s.clients[i]? with
  | none => outcome.running s
  | some c =>
    let msglen := p - processed + 1
    if msglen ≥ 1 then
      let type := c.buf.getD processed 0 % 256
      if type = 0 then
        let out := chat_envelope cfg.MAX_MSG_SIZE c processed p
        let len := out_len cfg.MAX_MSG_SIZE processed p
        let r := broadcast out len s.g s.clients
        outcome.running { clients := r.2, g := r.1 }
      else if type = 1 then
        let s1 := record_type1 now i c s
        if s1.g.type1_count ≥ cfg.expected_clients then
          outcome.exited 0 (quorum_finalize rounds s1)
        else outcome.running s1
      else outcome.running s
    else outcome.running s

/-- The loop of lines 298-428 over the positions `p` of the inbound buffer of
slot `i`.  The first list holds the bytes `buf[p .. buflen)` still to be
looked at (no frame handler writes `buf` or `buflen`); the result carries the
final value of `processed`.  When `main` returns inside a frame the scan stops. -/
def scan_frames (cfg : config) (now : Int) (rounds : List drain_round) (i : Nat) :
    List Nat → Nat → Nat → server → outcome × Nat
  | [], _, processed, s => (outcome.running s, processed)
  | b :: rest, p, processed, s =>
    if b = 10 then
      match process_frame cfg now rounds i processed p s with
      | outcome.exited st s1 => (outcome.exited st s1, processed)
      | outcome.running s1 => scan_frames cfg now rounds i rest (p + 1) (p + 1) s1
    else scan_frames cfg now rounds i rest (p + 1) processed s

/-- The result of one `recv`: an error, with whether `errno` is `EINTR`,
`EAGAIN` or `EWOULDBLOCK`, or the bytes received (none when the peer closed). -/
inductive recv_result where
  | error (retry : Bool)
  | data (bytes : List Nat)

/-- The release sequence applied to slot `i` of the table. -/
def release_slot (fd : Int) (i : Nat) (s : server) : server :=
  match s.clients[i]? with
  | none => s
  | some c =>
    let r := release fd s.g c
    { clients := s.clients.set i r.2, g := r.1 }

/-- Lines 430-435: the unconsumed bytes move to the start of the buffer. -/
def compact_inbound (i processed : Nat) (s : server) : server :=
  match s.clients[i]? with
  | none => s
  | some c =>
    if processed > 0 then
      { s with clients := s.clients.set i { c with buf := c.buf.drop processed } }
    else s

/-- Lines 291-296: the entry `c` of a slot after a `recv` that stored the bytes
`got`; nothing changes when there are none (`r == 0`). -/
def recv_client (c : client_t) (got : List Nat) : client_t :=
  if got.length = 0 then c else { c with buf := c.buf ++ got }

/-- Lines 430-445 for slot `i` with descriptor `fd`, applied to the result of
the frame scan: nothing more when `main` has returned; otherwise compaction of
the inbound buffer, and release of the slot when the peer closed. -/
def finish_read (i : Nat) (fd : Int) (peer_closed : Bool) : outcome × Nat → outcome
  | (outcome.exited st s2, _) => outcome.exited st s2
  | (outcome.running s2, processed) =>
    if peer_closed = true then
      outcome.running (release_slot fd i (compact_inbound i processed s2))
    else outcome.running (compact_inbound i processed s2)

/-- Lines 291-445 for slot `i`, whose entry is `c` and whose descriptor is
`fd`, after a `recv` that did not fail: the bytes received (at most `space`)
are appended, or the peer is noted as closed when there are none; then frame
scan, compaction, and release when the peer closed. -/
def handle_data (cfg : config) (now : Int) (rounds : List drain_round) (i : Nat)
    (fd : Int) (c : client_t) (space : Nat) (bytes : List Nat) (s : server) : outcome :=
  let got := bytes.take space
  let peer_closed := decide (got.length = 0)
  let c1 := recv_client c got
  finish_read i fd peer_closed
    (scan_frames cfg now rounds i c1.buf 0 0 { s with clients := s.clients.set i c1 })

/-- Line 267: `space = sizeof(clients[i].buf) - clients[i].buflen - 1`. -/
def inbound_space (c : client_t) : Nat :=
  size_sub (size_sub INBUF_SIZE c.buflen) 1

/-- The body of the loop of lines 262-446 for slot `i`: space check, one
`recv` of at most `space` bytes and its error cases, then `handle_data`. -/
def handle_readable (cfg : config) (readfds : Int → Bool) (recv : Nat → recv_result)
    (now : Int) (rounds : List drain_round) (i : Nat) (s : server) : outcome :=
  match s.clients[i]? with
  | none => outcome.running s
  | some c =>
    if c.fd = -1 then outcome.running s
    else
      let fd := c.fd
      if readfds fd = false then outcome.running s
      else
        let space := inbound_space c
        if space = 0 then outcome.running (release_slot fd i s)
        else
          match recv i with
          | recv_result.error true => outcome.running s
          | recv_result.error false => outcome.running (release_slot fd i s)
          | recv_result.data bytes => handle_data cfg now rounds i fd c space bytes s

/-- The loop of lines 262-446 over the slots `i`, in table order; it stops when
`main` returns. -/
def read_loop (cfg : config) (readfds : Int → Bool) (recv : Nat → recv_result)
    (now : Int) (rounds : List drain_round) : List Nat → server → outcome
  | [], s => outcome.running s
  | i :: is, s =>
    match handle_readable cfg readfds recv now rounds i s with
    | outcome.exited st s1 => outcome.exited st s1
    | outcome.running s1 => read_loop cfg readfds recv now rounds is s1

/-! ## Outbound flush (lines 190-216) and listener (lines 219-259) -/

/-- The body of the loop of lines 190-216 for slot `i`. -/
def flush_slot (writefds : Int → Bool) (send : Nat → send_result) (i : Nat)
    (g : globals) (c : client_t) : globals × client_t :=
  if c.fd = -1 then (g, c)
  else
    let wfd := c.fd
    if writefds wfd = true then
      let tosend := size_sub c.out_tail c.out_head
      if tosend > 0 then
        let sr := send i
        if sr.s > 0 then
          let c1 : client_t := { c with out_head := size_add c.out_head sr.s.toNat }
          if c1.out_head = c1.out_tail then
            ({ g with master_write := FD_CLR wfd g.master_write },
             { c1 with out_head := 0, out_tail := 0 })
          else (g, c1)
        else if sr.s < 0 ∧ sr.again = false then release wfd g c
        else (g, c)
      else ({ g with master_write := FD_CLR wfd g.master_write }, c)
    else (g, c)

/-- The loop of lines 190-216 over the slots of the table. -/
def flush_all (writefds : Int → Bool) (send : Nat → send_result) (s : server) : server :=
  let r := for_slots (flush_slot writefds send) 0 s.g s.clients
  { clients := r.2, g := r.1 }

/-- One turn of the accept loop: an interrupted call, or the value `cfd`
returned by `accept` with the peer address and the result of
`malloc(OUTBUF_SIZE)`. -/
inductive accept_event where
  | intr
  | conn (cfd : Int) (addr : sockaddr_in) (block : Option (Nat → Nat))

/-- Lines 230-257: the handling of one accepted connection.  `FD_SETSIZE` is
the number of slots of the table. -/
def accept_conn (cfd : Int) (addr : sockaddr_in) (block : Option (Nat → Nat))
    (s : server) : server :=
  match s.clients.findIdx? (fun c => decide (c.fd = -1)) with
  | none => s
  | some slot =>
    if cfd ≥ (s.clients.length : Int) then s
    else
      match block with
      | none => s
      | some m =>
        match s.clients[slot]? with
        | none => s
        | some c =>
          { clients := s.clients.set slot
              { c with outbuf := some m, fd := cfd, addr := addr, buf := [],
                       alive := true, got_type1 := false, out_head := 0, out_tail := 0 },
            g := { s.g with master_read := FD_SET cfd s.g.master_read,
                            fdmax := if cfd > s.g.fdmax then cfd else s.g.fdmax,
                            num_clients := s.g.num_clients + 1 } }

/-- The loop of lines 220-258.  A value `cfd < 0` is a failed `accept`
(lines 224-229): the interrupted call is the event `intr`, any other failure
leaves the loop, as does the `accept` that follows the events of the list. -/
def accept_loop : List accept_event → server → server
  | [], s => s
  | accept_event.intr :: es, s => accept_loop es s
  | accept_event.conn cfd addr block :: es, s =>
    if cfd < 0 then s else accept_loop es (accept_conn cfd addr block s)

/-! ## Event loop (lines 95-447) -/

/-- What the environment does during one iteration of the event loop. -/
structure iter_env where
  sel : Int
  eintr : Bool
  ready_read : Int → Bool
  ready_write : Int → Bool
  now : Int
  send : Nat → send_result
  accepts : List accept_event
  recv : Nat → recv_result
  rounds : List drain_round

/-- One iteration of the loop `while (1)` of lines 95-447.  A failing `select`
either restarts the iteration or leaves the loop, after which `main` returns 0. -/
def iteration (cfg : config) (e : iter_env) (s : server) : outcome :=
  if e.sel < 0 then
    if e.eintr = true then outcome.running s else outcome.exited 0 s
  else
    match grace_check cfg e.now e.rounds s with
    | outcome.exited st s1 => outcome.exited st s1
    | outcome.running s0 =>
      if e.sel = 0 then outcome.running s0
      else
        let readfds : Int → Bool := fun fd => s0.g.master_read fd && e.ready_read fd
        let writefds : Int → Bool := fun fd => s0.g.master_write fd && e.ready_write fd
        let s1 := flush_all writefds e.send s0
        let s2 := if readfds cfg.listen_fd = true then accept_loop e.accepts s1 else s1
        read_loop cfg readfds e.recv e.now e.rounds (List.range s2.clients.length) s2

/-- Lines 75-93: the table and the shared variables before the first iteration,
for a table of `n` slots. -/
def init (cfg : config) (n : Nat) : server :=
  { clients := List.replicate n
      { fd := -1, addr := ⟨0, 0, 0, 0, 0, 0⟩, buf := [], alive := false,
        got_type1 := false, outbuf := none, out_head := 0, out_tail := 0 },
    g := { num_clients := 0, type1_count := 0, first_type1_time := 0,
           master_read := FD_SET cfg.listen_fd (fun _ => false),
           master_write := fun _ => false, fdmax := cfg.listen_fd } }

/-- Every `send` of the flush loop of an iteration reports at most the number
of bytes it was offered, `tosend = out_tail - out_head`. -/
def sends_bounded (e : iter_env) (s : server) : Prop :=
  ∀ (i : Nat) (c : client_t), s.clients[i]? = some c →
    (e.send i).s ≤ (size_sub c.out_tail c.out_head : Int)

/-- The states the event loop can be in at the start of an iteration, when
every `send` reports at most the number of bytes it was offered. -/
inductive reachable (cfg : config) (n : Nat) : server → Prop where
  | start : reachable cfg n (init cfg n)
  | step (e : iter_env) (s t : server) :
      reachable cfg n s → sends_bounded e s → iteration cfg e s = outcome.running t →
      reachable cfg n t

/-- The state carried by a result. -/
def outcome.state : outcome → server
  | outcome.running s => s
  | outcome.exited _ s => s

/-! ## Concrete inputs -/

/-- A peer address used in the examples: 10.0.0.7, port 0x1F90. -/
def peer_a : sockaddr_in := ⟨10, 0, 0, 7, 31, 144⟩

/-- An open connection with descriptor `fd`, inbound bytes `buf` and an empty
outgoing buffer. -/
def open_client (fd : Int) (buf : List Nat) : client_t :=
  { fd := fd, addr := peer_a, buf := buf, alive := true, got_type1 := false,
    outbuf := some (fun _ => 0), out_head := 0, out_tail := 0 }

/-- The inbound frame made of the type tag 0, the five bytes of "hello" and a
newline. -/
def hello_frame : List Nat := [0, 104, 101, 108, 108, 111, 10]

/-- The shared variables of a server that has seen no done signal; the
listening descriptor is 3. -/
def idle_globals : globals :=
  { num_clients := 0, type1_count := 0, first_type1_time := 0,
    master_read := FD_SET 3 (fun _ => false), master_write := fun _ => false, fdmax := 3 }

/-- A configuration with `MAX_MSG_SIZE = 1024`, two expected clients and the
listening descriptor 3. -/
def example_cfg : config := ⟨1024, 2, 3⟩

/-! ## Predicates on states -/

/-- The bounds `out_head ≤ out_tail ≤ OUTBUF_SIZE` of an outgoing buffer. -/
def out_ok (c : client_t) : Prop :=
  c.out_head ≤ c.out_tail ∧ c.out_tail ≤ OUTBUF_SIZE

/-- The unsent bytes of `c` and `len` more bytes fit in an outgoing buffer. -/
def has_room (c : client_t) (len : Nat) : Prop :=
  c.out_tail - c.out_head + len ≤ OUTBUF_SIZE

instance (c : client_t) : Decidable (out_ok c) :=
  inferInstanceAs (Decidable (c.out_head ≤ c.out_tail ∧ c.out_tail ≤ OUTBUF_SIZE))

instance (c : client_t) (len : Nat) : Decidable (has_room c len) :=
  inferInstanceAs (Decidable (c.out_tail - c.out_head + len ≤ OUTBUF_SIZE))

/-! ## One connection seen as a byte queue -/

/-- The operations on the outgoing buffer of one connection: the enqueue step
of a chat broadcast, the enqueue step of the shutdown broadcast, and the flush
of the main loop or of a drain loop with the result of its `send`. -/
inductive buf_op where
  | chat (out : List Nat)
  | shutdown
  | flush (sr : send_result)
  | drain (sr : send_result)

/-- The bytes a `send` with result `sr` takes from the unsent bytes of `c`. -/
def transmitted (sr : send_result) (c : client_t) : List Nat :=
  if sr.s > 0 then (pending c).take sr.s.toNat else []

/-- One operation on the connection `c`: the connection afterwards, the bytes
transmitted and the bytes appended to the outgoing buffer.  The shutdown step
appends its two bytes when they fit (`avail >= 2` after compaction, lines 131
and 370) and nothing otherwise. -/
def buf_step (op : buf_op) (c : client_t) : client_t × List Nat × List Nat :=
  match op with
  | buf_op.chat out => ((chat_enqueue out out.length idle_globals c).2, [], out)
  | buf_op.shutdown =>
    ((shutdown_enqueue idle_globals c).2, [],
      if c.out_tail - c.out_head + 2 ≤ OUTBUF_SIZE then tout else [])
  | buf_op.flush sr =>
    ((flush_slot (fun _ => true) (fun _ => sr) 0 idle_globals c).2,
      transmitted sr c, [])
  | buf_op.drain sr =>
    ((drain_slot (fun _ => true) (fun _ => sr) 0 (idle_globals, false) c).2,
      transmitted sr c, [])

/-- A sequence of operations on one connection: the connection afterwards, all
bytes transmitted and all bytes appended, in order. -/
def buf_run : List buf_op → client_t → client_t × List Nat × List Nat
  | [], c => (c, [], [])
  | op :: ops, c =>
    let r := buf_step op c
    let rs := buf_run ops r.1
    (rs.1, r.2.1 ++ rs.2.1, r.2.2 ++ rs.2.2)

/-- The byte sequences enqueued by a sequence of operations, in the words of
the specification: the bytes handed to each chat enqueue and the two bytes of
each shutdown enqueue, in order. -/
def offered : List buf_op → List Nat
  | [] => []
  | buf_op.chat out :: ops => out ++ offered ops
  | buf_op.shutdown :: ops => tout ++ offered ops
  | buf_op.flush _ :: ops => offered ops
  | buf_op.drain _ :: ops => offered ops

/-- The operation transmits at most the unsent bytes and leaves the connection
open. -/
def step_ok (op : buf_op) (c : client_t) : Prop :=
  (buf_step op c).1.fd ≠ -1 ∧
  match op with
  | buf_op.flush sr => sr.s ≤ ((pending c).length : Int)
  | buf_op.drain sr => sr.s ≤ ((pending c).length : Int)
  | _ => True

/-- Every operation of the sequence transmits at most the unsent bytes, and
the connection is never dropped. -/
def run_ok : List buf_op → client_t → Prop
  | [], _ => True
  | op :: ops, c => step_ok op c ∧ run_ok ops (buf_step op c).1

/-- A table of three slots: the sender of `hello_frame` on descriptor 5, a
free slot, and an open connection on descriptor 6 with two unsent bytes. -/
def example_table : server :=
  { clients :=
      [open_client 5 hello_frame,
       { fd := -1, addr := ⟨0, 0, 0, 0, 0, 0⟩, buf := [], alive := false,
         got_type1 := false, outbuf := none, out_head := 0, out_tail := 0 },
       { fd := 6, addr := ⟨10, 0, 0, 9, 31, 145⟩, buf := [], alive := true,
         got_type1 := false, outbuf := some (fun k => k + 65), out_head := 1, out_tail := 3 }],
    g := idle_globals }

/-- A run of one connection: two enqueues, partial and complete sends, a
would-block result and the shutdown frame. -/
def example_ops : List buf_op :=
  [buf_op.chat [0, 10, 0, 0, 7, 31, 144, 104, 10], buf_op.flush ⟨4, false⟩,
   buf_op.chat [0, 10, 0, 0, 7, 31, 144, 105, 10], buf_op.flush ⟨-1, true⟩,
   buf_op.shutdown, buf_op.drain ⟨16, false⟩]

/-- An open connection on descriptor `fd` whose outgoing buffer is full:
`out_head = 0` and `out_tail = OUTBUF_SIZE`. -/
def full_client (fd : Int) : client_t :=
  { fd := fd, addr := ⟨10, 0, 0, 9, 31, 145⟩, buf := [], alive := true,
    got_type1 := false, outbuf := some (fun _ => 65), out_head := 0,
    out_tail := OUTBUF_SIZE }

/-- A table of two slots: a connection on descriptor 5 that has sent the done
signal (type tag 1, newline), and `full_client 6`. -/
def full_table : server :=
  { clients := [open_client 5 [1, 10], full_client 6], g := idle_globals }

/-- The shutdown state (done count and time stamp of the first done signal) of
`g1` is that of `g`. -/
def same_shutdown_state (g g1 : globals) : Prop :=
  g1.type1_count = g.type1_count ∧ g1.first_type1_time = g.first_type1_time

instance (g g1 : globals) : Decidable (same_shutdown_state g g1) :=
  inferInstanceAs (Decidable
    (g1.type1_count = g.type1_count ∧ g1.first_type1_time = g.first_type1_time))

/-- A table of three slots: a connection on descriptor 5 that has sent the done
signal (type tag 1, newline), a free slot, and an open connection on descriptor
6 with two unsent bytes. -/
def done_table : server :=
  { clients :=
      [open_client 5 [1, 10],
       { fd := -1, addr := ⟨0, 0, 0, 0, 0, 0⟩, buf := [], alive := false,
         got_type1 := false, outbuf := none, out_head := 0, out_tail := 0 },
       { fd := 6, addr := ⟨10, 0, 0, 9, 31, 145⟩, buf := [], alive := true,
         got_type1 := false, outbuf := some (fun k => k + 65), out_head := 1, out_tail := 3 }],
    g := idle_globals }

/-- A table in which one done signal was counted at time 1000 and the open
connection of slot 1 has a full outgoing buffer. -/
def grace_full_table : server :=
  { clients := [{ open_client 5 [] with got_type1 := true }, full_client 6],
    g := { idle_globals with type1_count := 1, first_type1_time := 1000 } }

/-- The read interest and the write interest of every descriptor other than
`fd` are the same in `g` and in `g1`. -/
def same_interest_except (fd : Int) (g g1 : globals) : Prop :=
  ∀ x : Int, x ≠ fd → g1.master_read x = g.master_read x ∧ g1.master_write x = g.master_write x

/-- An open connection on descriptor `fd` with two unsent bytes. -/
def busy_client (fd : Int) : client_t :=
  { fd := fd, addr := ⟨10, 0, 0, 9, 31, 145⟩, buf := [], alive := true,
    got_type1 := false, outbuf := some (fun k => k + 65), out_head := 1, out_tail := 3 }

/-! ## A peer seen as a byte stream -/

/-- Successive read events of slot `i`, which is reported readable each time.
`stream` holds the bytes the peer has sent and the server has not read yet;
the first list gives, for each event, how many of them are available: `recv`
is offered that many bytes and takes at most `space`; what it takes leaves the
stream.  An event listed after the slot has been released finds `fd = -1` and
does nothing. -/
def read_stream (cfg : config) (now : Int) (rounds : List drain_round) (i : Nat) :
    List Nat → List Nat → server → outcome
  | [], _, s => outcome.running s
  | n :: ns, stream, s =>
    let space := match s.clients[i]? with
      | some c => inbound_space c
      | none => 0
    match handle_readable cfg (fun _ => true) (fun _ => recv_result.data (stream.take n))
        now rounds i s with
    | outcome.exited st t => outcome.exited st t
    | outcome.running t => read_stream cfg now rounds i ns (stream.drop (min n space)) t

/-- A table whose slot 0 holds an open connection with `n` buffered bytes
`'a'` and no newline, next to `busy_client 6`. -/
def inbound_table (n : Nat) : server :=
  { clients := [open_client 5 (List.replicate n 97), busy_client 6], g := idle_globals }

/-- Every outgoing buffer of the table satisfies `out_head ≤ out_tail ≤
OUTBUF_SIZE`. -/
def table_ok (s : server) : Prop :=
  ∀ c ∈ s.clients, out_ok c

instance (s : server) : Decidable (table_ok s) :=
  inferInstanceAs (Decidable (∀ c ∈ s.clients, out_ok c))

/-- An iteration in which `select` reports the listening descriptor readable
and one connection, with descriptor 4, is accepted. -/
def accept_env : iter_env :=
  { sel := 1, eintr := false, ready_read := fun fd => decide (fd = 3),
    ready_write := fun _ => false, now := 1000, send := fun _ => ⟨0, false⟩,
    accepts := [accept_event.conn 4 peer_a (some (fun _ => 0))],
    recv := fun _ => recv_result.error true, rounds := [] }

/-! ## Frames of an inbound buffer, in the words of the specification -/

/-- Each newline closes one frame spanning all bytes since the previous frame
boundary, newline included: the complete frames of the bytes `cur ++ bs`, where
`cur` holds the bytes since the last boundary, and the trailing bytes that
follow the last newline. -/
def split_frames : List Nat → List Nat → List (List Nat) × List Nat
  | [], cur => ([], cur)
  | b :: bs, cur =>
    if b = 10 then ((cur ++ [b]) :: (split_frames bs []).1, (split_frames bs []).2)
    else split_frames bs (cur ++ [b])

/-- The frames `fs` of slot `i`, the first of which starts at offset `off` of
the inbound buffer, are handled one after the other, each over its own span
`buf[off .. off + length - 1]`; handling stops when `main` returns.  The
result carries the offset that follows the last frame handled to the end. -/
def run_frames (cfg : config) (now : Int) (rounds : List drain_round) (i : Nat) :
    List (List Nat) → Nat → server → outcome × Nat
  | [], off, s => (outcome.running s, off)
  | f :: fs, off, s =>
    match process_frame cfg now rounds i off (off + f.length - 1) s with
    | outcome.exited st t => (outcome.exited st t, off)
    | outcome.running t => run_frames cfg now rounds i fs (off + f.length) t

/-- The tables of `s` and `t` have the same length, and every slot of `s` is a
slot of `t` with the same inbound bytes. -/
def bufs_kept (s t : server) : Prop :=
  t.clients.length = s.clients.length ∧
  ∀ (j : Nat) (c : client_t), s.clients[j]? = some c →
    ∃ d : client_t, t.clients[j]? = some d ∧ d.buf = c.buf

/-- A table whose slot 0 is an open connection with the residual `"hi"` in its
inbound buffer, next to `busy_client 6`. -/
def residual_table : server :=
  { clients := [open_client 5 [104, 105], busy_client 6], g := idle_globals }

/-- A configuration with `MAX_MSG_SIZE = 1024`, one expected client and the
listening descriptor 3. -/
def solo_cfg : config := ⟨1024, 1, 3⟩

/-- A table of two open connections, descriptors 5 and 6, with nothing
buffered in either direction. -/
def pair_table : server :=
  { clients := [open_client 5 [], open_client 6 []], g := idle_globals }

/-! ## Invariants of the table -/

/-- The entry of a slot before the first iteration (lines 76-83). -/
def free_slot : client_t :=
  { fd := -1, addr := ⟨0, 0, 0, 0, 0, 0⟩, buf := [], alive := false,
    got_type1 := false, outbuf := none, out_head := 0, out_tail := 0 }

/-- A property of a slot that holds of the initial entry and is kept by every
assignment the event loop makes to a slot outside `recv`: the outgoing buffer
and its offsets, the release sequence, the flag `got_type1`, the compaction of
the inbound buffer, and the initialisation by accept with a descriptor
`cfd ≥ 0`. -/
structure client_inv (P : client_t → Prop) : Prop where
  start : P free_slot
  out : ∀ (c : client_t) (ob : Option (Nat → Nat)) (h t : Nat),
    P c → P { c with outbuf := ob, out_head := h, out_tail := t }
  rel : ∀ c : client_t, P c → P { c with outbuf := none, fd := -1, alive := false }
  got : ∀ c : client_t, P c → P { c with got_type1 := true }
  cut : ∀ (c : client_t) (n : Nat), P c → P { c with buf := c.buf.drop n }
  acc : ∀ (m : Nat → Nat) (cfd : Int) (addr : sockaddr_in), 0 ≤ cfd →
    P { outbuf := some m, fd := cfd, addr := addr, buf := [], alive := true,
        got_type1 := false, out_head := 0, out_tail := 0 }

/-- The property `P` of a slot is kept by a `recv` of at most `space` bytes
into an open slot with `space ≠ 0` (lines 267-296). -/
def recv_inv (P : client_t → Prop) : Prop :=
  ∀ (c : client_t) (bytes : List Nat), P c → c.fd ≠ -1 → inbound_space c ≠ 0 →
    bytes.length ≤ inbound_space c → P { c with buf := c.buf ++ bytes }

/-- Every slot of the table has the property `P`. -/
def table_all (P : client_t → Prop) (s : server) : Prop :=
  ∀ c ∈ s.clients, P c

/-- The property `P` of every slot is kept by the read handling of an open slot
(lines 291-445) that does not make `main` return. -/
def data_inv (cfg : config) (P : client_t → Prop) : Prop :=
  ∀ (now : Int) (rounds : List drain_round) (i : Nat) (c : client_t) (bytes : List Nat)
    (s t : server), s.clients[i]? = some c → c.fd ≠ -1 → inbound_space c ≠ 0 →
    table_all P s →
    handle_data cfg now rounds i c.fd c (inbound_space c) bytes s = outcome.running t →
    table_all P t

/-- The inbound buffer of the slot contains no newline. -/
def no_newline (c : client_t) : Prop := 10 ∉ c.buf

instance (c : client_t) : Decidable (no_newline c) :=
  inferInstanceAs (Decidable (10 ∉ c.buf))

/-- The contribution of a slot to the number of open slots. -/
def slot_open (c : client_t) : Int := if c.fd = -1 then 0 else 1

/-- The number of open slots (`fd ≠ -1`) of a table. -/
def open_count (cs : List client_t) : Int := (cs.map slot_open).sum

/-- The counter `num_clients` is the number of open slots. -/
def count_ok (s : server) : Prop := s.g.num_clients = open_count s.clients

instance (s : server) : Decidable (count_ok s) :=
  inferInstanceAs (Decidable (s.g.num_clients = open_count s.clients))

/-- An iteration in which `select` reports descriptor 4 readable and `recv`
stores the two bytes `"hi"`. -/
def read_env : iter_env :=
  { sel := 1, eintr := false, ready_read := fun fd => decide (fd = 4),
    ready_write := fun _ => false, now := 1000, send := fun _ => ⟨0, false⟩,
    accepts := [], recv := fun _ => recv_result.data [104, 105], rounds := [] }

/-- The state of a table of six slots after an iteration that accepts a
connection with descriptor 4 and an iteration that reads `"hi"` from it. -/
def two_step_state : server :=
  (iteration example_cfg read_env
    (iteration example_cfg accept_env (init example_cfg 6)).state).state

end ChatServer

/-!
# Free-list fit strategies (`src/lab-05/lab5.c`)

A free list is the list of its headers in `next` order, ending at `NULL`.
`size` is a `uint64_t`, a natural number up to `UINT64_MAX`; `id` is an `int`.
-/

namespace Lab5

/-- The constant `UINT64_MAX`. -/
def UINT64_MAX : Nat := 18446744073709551615

/-- The struct `header`, without its `next` pointer. -/
structure header where
  size : Nat
  id : Int

/-- The function `find_first_fit` (lines 18-27). -/
def find_first_fit : List header → Nat → Int
  | [], _ => -1
  | current :: next, size =>
    if current.size ≥ size then current.id else find_first_fit next size

/-- The loop of `find_best_fit` (lines 33-39) from the block `current` on, with
the values of `best_fit_id` and `best_fit_size` on entry; the result is the
final `best_fit_id`. -/
def best_fit_loop (size : Nat) : List header → Int → Nat → Int
  | [], best_fit_id, _ => best_fit_id
  | current :: next, best_fit_id, best_fit_size =>
    if current.size ≥ size ∧ current.size < best_fit_size then
      best_fit_loop size next current.id current.size
    else best_fit_loop size next best_fit_id best_fit_size

/-- The function `find_best_fit` (lines 29-41). -/
def find_best_fit (free_list : List header) (size : Nat) : Int :=
  best_fit_loop size free_list (-1) UINT64_MAX

/-- The loop of `find_worst_fit` (lines 47-53) from the block `current` on,
with the values of `worst_fit_id` and `worst_fit_size` on entry; the result is
the final `worst_fit_id`. -/
def worst_fit_loop (size : Nat) : List header → Int → Nat → Int
  | [], worst_fit_id, _ => worst_fit_id
  | current :: next, worst_fit_id, worst_fit_size =>
    if current.size ≥ size ∧ current.size > worst_fit_size then
      worst_fit_loop size next current.id current.size
    else worst_fit_loop size next worst_fit_id worst_fit_size

/-- The function `find_worst_fit` (lines 43-55). -/
def find_worst_fit (free_list : List header) (size : Nat) : Int :=
  worst_fit_loop size free_list (-1) 0

/-- The free list built by `main` (lines 65-71). -/
def main_free_list : List header :=
  [⟨6, 1⟩, ⟨12, 2⟩, ⟨24, 3⟩, ⟨8, 4⟩, ⟨4, 5⟩]

/-- The block `b` fits the request: `b.size ≥ size`. -/
def fits (size : Nat) (b : header) : Prop := size ≤ b.size

instance (size : Nat) (b : header) : Decidable (fits size b) :=
  inferInstanceAs (Decidable (size ≤ b.size))

/-- The first block of the list, in list order, that fits the request and
whose size is the minimum of the sizes of the fitting blocks. -/
def is_first_smallest_fit (l : List header) (size : Nat) (b : header) : Prop :=
  ∃ pre post : List header, l = pre ++ b :: post ∧ fits size b ∧
    (∀ x ∈ l, fits size x → b.size ≤ x.size) ∧
    (∀ x ∈ pre, fits size x → b.size < x.size)

/-- The first block of the list, in list order, that fits the request and
whose size is the maximum of the sizes of the fitting blocks. -/
def is_first_largest_fit (l : List header) (size : Nat) (b : header) : Prop :=
  ∃ pre post : List header, l = pre ++ b :: post ∧ fits size b ∧
    (∀ x ∈ l, fits size x → x.size ≤ b.size) ∧
    (∀ x ∈ pre, fits size x → x.size < b.size)

end Lab5

/-! # Theorems -/

namespace ChatServer

theorem size_sub_eq {a b : Nat} (h : b ≤ a) (ha : a < SIZE_MOD) : size_sub a b = a - b := by
  unfold size_sub
  have : a + SIZE_MOD - b = (a - b) + SIZE_MOD := by omega
  rw [this, Nat.add_mod_right]
  exact Nat.mod_eq_of_lt (by omega)

theorem size_add_eq {a b : Nat} (h : a + b < SIZE_MOD) : size_add a b = a + b := by
  unfold size_add
  exact Nat.mod_eq_of_lt h

theorem OUTBUF_lt : OUTBUF_SIZE < SIZE_MOD := by decide

theorem OUTBUF_val : OUTBUF_SIZE = 10485760 := by decide

theorem region_length (m : Nat → Nat) (lo hi : Nat) : (region m lo hi).length = hi - lo := by
  simp [region]

theorem region_mem_move (m : Nat → Nat) (h t : Nat) :
    region (mem_move m h (t - h)) 0 (t - h) = region m h t := by
  unfold region mem_move
  apply List.map_congr_left
  intro k hk
  simp at hk
  simp [hk]

theorem region_append (m : Nat → Nat) {a b c : Nat} (hab : a ≤ b) (hbc : b ≤ c) :
    region m a c = region m a b ++ region m b c := by
  apply List.ext_getElem
  · simp [region_length]; omega
  · intro i h1 h2
    simp [region_length] at h1
    by_cases hi : i < b - a
    · rw [List.getElem_append_left (by simp [region_length]; exact hi)]
      simp [region]
    · rw [List.getElem_append_right (by simp [region_length]; omega)]
      simp [region]
      congr 1
      omega

theorem region_mem_copy (m : Nat → Nat) (h t n : Nat) (data : List Nat) (hht : h ≤ t)
    (hn : n ≤ data.length) :
    region (mem_copy m t data n) h (t + n) = region m h t ++ data.take n := by
  apply List.ext_getElem
  · simp [region_length]; omega
  · intro i h1 h2
    simp [region_length] at h1
    by_cases hi : i < t - h
    · rw [List.getElem_append_left (by simp [region_length]; exact hi)]
      simp [region, mem_copy]
      intro h3
      omega
    · rw [List.getElem_append_right (by simp [region_length]; omega)]
      simp [region, mem_copy, region_length]
      have h3 : t ≤ h + i := by omega
      have h4 : h + i < t + n := by omega
      simp [h3, h4]
      have h5 : h + i - t = i - (t - h) := by omega
      rw [h5]
      have h6 : i - (t - h) < data.length := by omega
      simp [List.getElem?_eq_getElem h6]

/-! ## C1: the chat envelope -/

/-- C1, the claim as stated, fails for every value of `MAX_MSG_SIZE`: the claim
gives the empty chat frame (type tag 0, newline) a 7-byte envelope and the
frame `hello_frame` a 12-byte envelope, and no `MAX_MSG_SIZE` makes the code
produce both lengths. -/
theorem chat_envelope_excluding_newline_fails :
    ¬ ∃ M : Nat,
      (chat_envelope M (open_client 5 [0, 10]) 0 1).length = 7 + min 0 M ∧
      (chat_envelope M (open_client 5 hello_frame) 0 6).length = 12 := by
  rintro ⟨M, h1, h2⟩
  simp [chat_envelope, payload_len, open_client, hello_frame] at h1 h2
  have hM : M = 0 := by
    by_contra hne
    simp [hne] at h1
  subst hM
  simp at h2

/-- C1, as amended: for a complete frame `tag :: body ++ [10]` lying at offset
`pre.length` of the inbound buffer, the envelope is the 7-byte header followed
by the bytes after the type tag up to and including the newline, truncated to
`MAX_MSG_SIZE` bytes; its length is `out_len = 7 + min (body.length + 1)
MAX_MSG_SIZE`; and when the tag is 0 the frame handler broadcasts exactly this
envelope. -/
theorem chat_envelope_payload (cfg : config) (now : Int) (rounds : List drain_round)
    (s : server) (i : Nat) (c : client_t) (pre body post : List Nat) (tag : Nat)
    (hc : s.clients[i]? = some c)
    (hbuf : c.buf = pre ++ tag :: (body ++ 10 :: post))
    (htag : tag % 256 = 0) :
    chat_envelope cfg.MAX_MSG_SIZE c pre.length (pre.length + body.length + 1)
        = [0, c.addr.a0, c.addr.a1, c.addr.a2, c.addr.a3, c.addr.p0, c.addr.p1]
            ++ (body ++ [10]).take cfg.MAX_MSG_SIZE
    ∧ (chat_envelope cfg.MAX_MSG_SIZE c pre.length (pre.length + body.length + 1)).length
        = 7 + min (body.length + 1) cfg.MAX_MSG_SIZE
    ∧ out_len cfg.MAX_MSG_SIZE pre.length (pre.length + body.length + 1)
        = 7 + min (body.length + 1) cfg.MAX_MSG_SIZE
    ∧ process_frame cfg now rounds i pre.length (pre.length + body.length + 1) s
        = outcome.running
            { clients := (broadcast
                ([0, c.addr.a0, c.addr.a1, c.addr.a2, c.addr.a3, c.addr.p0, c.addr.p1]
                  ++ (body ++ [10]).take cfg.MAX_MSG_SIZE)
                (7 + min (body.length + 1) cfg.MAX_MSG_SIZE) s.g s.clients).2,
              g := (broadcast
                ([0, c.addr.a0, c.addr.a1, c.addr.a2, c.addr.a3, c.addr.p0, c.addr.p1]
                  ++ (body ++ [10]).take cfg.MAX_MSG_SIZE)
                (7 + min (body.length + 1) cfg.MAX_MSG_SIZE) s.g s.clients).1 } := by
  have hpl : payload_len cfg.MAX_MSG_SIZE pre.length (pre.length + body.length + 1)
      = min (body.length + 1) cfg.MAX_MSG_SIZE := by
    unfold payload_len
    simp only []
    split <;> omega
  have hdrop : c.buf.drop (pre.length + 1) = body ++ 10 :: post := by
    rw [hbuf]
    have : pre ++ tag :: (body ++ 10 :: post) = (pre ++ [tag]) ++ (body ++ 10 :: post) := by simp
    rw [this, List.drop_left' (by simp)]
  have hpay : (c.buf.drop (pre.length + 1)).take
      (payload_len cfg.MAX_MSG_SIZE pre.length (pre.length + body.length + 1))
      = (body ++ [10]).take cfg.MAX_MSG_SIZE := by
    rw [hdrop, hpl]
    have : body ++ 10 :: post = (body ++ [10]) ++ post := by simp
    rw [this, List.take_append_of_le_length (by simp)]
    by_cases hM : cfg.MAX_MSG_SIZE ≤ body.length + 1
    · rw [Nat.min_eq_right hM]
    · rw [Nat.min_eq_left (by omega), List.take_of_length_le (by simp),
        List.take_of_length_le (by simp; omega)]
  refine ⟨?_, ?_, ?_, ?_⟩
  · unfold chat_envelope
    rw [hpay]
  · unfold chat_envelope
    rw [hpay]
    simp
    rw [Nat.min_comm]
    omega
  · unfold out_len
    rw [hpl]
  · unfold process_frame
    have hty : c.buf.getD pre.length 0 % 256 = 0 := by
      have h0 : (pre ++ tag :: (body ++ 10 :: post))[pre.length]? = some tag := by
        rw [List.getElem?_append_right (Nat.le_refl _)]
        simp
      rw [hbuf, List.getD_eq_getElem?_getD, h0]
      exact htag
    have hol : out_len cfg.MAX_MSG_SIZE pre.length (pre.length + body.length + 1)
        = 7 + min (body.length + 1) cfg.MAX_MSG_SIZE := by
      unfold out_len
      rw [hpl]
    simp only [hc, hty, hol]
    unfold chat_envelope
    rw [hpay]
    simp

/-! ## The enqueue step of a chat broadcast -/

theorem chat_enqueue_skip (out : List Nat) (len : Nat) (g : globals) (c : client_t)
    (h : ¬ (c.fd ≠ -1 ∧ c.alive = true)) : chat_enqueue out len g c = (g, c) := by
  unfold chat_enqueue
  rw [if_neg h]

theorem chat_enqueue_fits (out : List Nat) (len : Nat) (g : globals) (c : client_t)
    (hfd : c.fd ≠ -1) (halive : c.alive = true) (hok : out_ok c) (hroom : has_room c len)
    (hlen : out.length = len) :
    (chat_enqueue out len g c).2.fd = c.fd ∧
    (chat_enqueue out len g c).2.alive = true ∧
    (chat_enqueue out len g c).2.addr = c.addr ∧
    (chat_enqueue out len g c).2.buf = c.buf ∧
    (chat_enqueue out len g c).2.got_type1 = c.got_type1 ∧
    ((chat_enqueue out len g c).2.outbuf.isSome = c.outbuf.isSome) ∧
    out_ok (chat_enqueue out len g c).2 ∧
    (c.outbuf.isSome = true → pending (chat_enqueue out len g c).2 = pending c ++ out) := by
  obtain ⟨h1, h2⟩ := hok
  unfold has_room at hroom
  have hcap := OUTBUF_val
  have hmod : SIZE_MOD = 18446744073709551616 := rfl
  have hav : size_sub OUTBUF_SIZE c.out_tail = OUTBUF_SIZE - c.out_tail :=
    size_sub_eq h2 OUTBUF_lt
  have hrem : size_sub c.out_tail c.out_head = c.out_tail - c.out_head :=
    size_sub_eq h1 (by omega)
  unfold chat_enqueue
  rw [if_pos ⟨hfd, halive⟩]
  simp only [hav, hrem]
  by_cases hc : OUTBUF_SIZE - c.out_tail < len ∧ c.out_head > 0
  · have hav1 : size_sub OUTBUF_SIZE (c.out_tail - c.out_head)
        = OUTBUF_SIZE - (c.out_tail - c.out_head) := size_sub_eq (by omega) OUTBUF_lt
    have hge : OUTBUF_SIZE - (c.out_tail - c.out_head) ≥ len := by omega
    have hadd : size_add (c.out_tail - c.out_head) len = c.out_tail - c.out_head + len :=
      size_add_eq (by omega)
    simp only [hc, and_self, decide_True, if_true, hav1, hge, hadd]
    refine ⟨trivial, halive, trivial, trivial, trivial, ?_, ?_, ?_⟩
    · cases c.outbuf <;> rfl
    · exact ⟨Nat.zero_le _, by simp only []; omega⟩
    · intro hsome
      obtain ⟨m, hm⟩ := Option.isSome_iff_exists.mp hsome
      simp only [pending, hm, Option.map_some']
      rw [← hlen, region_mem_copy _ _ _ _ _ (Nat.zero_le _) (Nat.le_refl _), List.take_length,
        region_mem_move]
  · have hge : OUTBUF_SIZE - c.out_tail ≥ len := by omega
    have hadd : size_add c.out_tail len = c.out_tail + len := size_add_eq (by omega)
    simp only [hc, decide_False, Bool.false_eq_true, if_false, hge, if_true, hadd]
    refine ⟨trivial, halive, trivial, trivial, trivial, ?_, ?_, ?_⟩
    · cases c.outbuf <;> rfl
    · exact ⟨by simp only []; omega, by simp only []; omega⟩
    · intro hsome
      obtain ⟨m, hm⟩ := Option.isSome_iff_exists.mp hsome
      simp only [pending, hm, Option.map_some']
      rw [← hlen, region_mem_copy _ _ _ _ _ h1 (Nat.le_refl _), List.take_length]

theorem chat_enqueue_overflow (out : List Nat) (len : Nat) (g : globals) (c : client_t)
    (hfd : c.fd ≠ -1) (halive : c.alive = true) (hok : out_ok c) (hroom : ¬ has_room c len) :
    chat_enqueue out len g c =
      release c.fd g
        (if c.out_head > 0 then
          { c with outbuf := c.outbuf.map (fun m => mem_move m c.out_head (c.out_tail - c.out_head)),
                   out_tail := c.out_tail - c.out_head, out_head := 0 }
         else c) := by
  obtain ⟨h1, h2⟩ := hok
  unfold has_room at hroom
  have hcap := OUTBUF_val
  have hmod : SIZE_MOD = 18446744073709551616 := rfl
  have hav : size_sub OUTBUF_SIZE c.out_tail = OUTBUF_SIZE - c.out_tail :=
    size_sub_eq h2 OUTBUF_lt
  have hrem : size_sub c.out_tail c.out_head = c.out_tail - c.out_head :=
    size_sub_eq h1 (by omega)
  unfold chat_enqueue
  rw [if_pos ⟨hfd, halive⟩]
  simp only [hav, hrem]
  by_cases hh : c.out_head > 0
  · have hlt : OUTBUF_SIZE - c.out_tail < len := by omega
    have hav1 : size_sub OUTBUF_SIZE (c.out_tail - c.out_head)
        = OUTBUF_SIZE - (c.out_tail - c.out_head) := size_sub_eq (by omega) OUTBUF_lt
    have hnge : ¬ OUTBUF_SIZE - (c.out_tail - c.out_head) ≥ len := by omega
    simp only [hh, hlt, and_self, decide_True, if_true, hav1, hnge, if_false]
  · have hnge : ¬ OUTBUF_SIZE - c.out_tail ≥ len := by omega
    simp only [hh, and_false, decide_False, hnge, if_false, Bool.false_eq_true]
/-! ## Loops over the table -/

theorem for_slots_length {σ : Type} (body : Nat → σ → client_t → σ × client_t)
    (k : Nat) (st : σ) (cs : List client_t) :
    (for_slots body k st cs).2.length = cs.length := by
  induction cs generalizing k st with
  | nil => rfl
  | cons c cs ih => simp [for_slots, ih]

theorem for_slots_const_snd {σ : Type} (f : σ → client_t → σ × client_t)
    (hind : ∀ st st1 c, (f st c).2 = (f st1 c).2) (k : Nat) (st : σ) (cs : List client_t) :
    (for_slots (fun _ => f) k st cs).2 = cs.map (fun c => (f st c).2) := by
  induction cs generalizing k st with
  | nil => rfl
  | cons c cs ih =>
    simp only [for_slots, List.map_cons]
    rw [ih]
    congr 1
    apply List.map_congr_left
    intro a _
    exact hind _ _ _

theorem for_slots_append {σ : Type} (body : Nat → σ → client_t → σ × client_t)
    (k : Nat) (st : σ) (xs ys : List client_t) :
    for_slots body k st (xs ++ ys) =
      ((for_slots body (k + xs.length) (for_slots body k st xs).1 ys).1,
       (for_slots body k st xs).2 ++
         (for_slots body (k + xs.length) (for_slots body k st xs).1 ys).2) := by
  induction xs generalizing k st with
  | nil => simp [for_slots]
  | cons c cs ih =>
    have e : k + 1 + cs.length = k + (cs.length + 1) := by omega
    show for_slots body k st (c :: (cs ++ ys)) = _
    simp only [for_slots, List.length_cons, List.cons_append]
    rw [ih, e]

/-- An invariant `I` of the loop state and a property `Q` of the visited slots
are established by a loop whose body establishes them slot by slot, the slot at
index `j` satisfying `P j` beforehand. -/
theorem for_slots_inv {σ : Type} (body : Nat → σ → client_t → σ × client_t)
    (I : σ → Prop) (P : Nat → client_t → Prop) (Q : client_t → Prop)
    (hbody : ∀ k st c, I st → P k c → I (body k st c).1 ∧ Q (body k st c).2)
    (k : Nat) (st : σ) (cs : List client_t) (hI : I st)
    (hP : ∀ j c, cs[j]? = some c → P (k + j) c) :
    I (for_slots body k st cs).1 ∧ ∀ c ∈ (for_slots body k st cs).2, Q c := by
  induction cs generalizing k st with
  | nil => exact ⟨hI, by simp [for_slots]⟩
  | cons c cs ih =>
    have h0 := hbody k st c hI (by simpa using hP 0 c (by simp))
    have h1 := ih (k + 1) (body k st c).1 h0.1 (by
      intro j d hd
      have := hP (j + 1) d (by simpa using hd)
      have e : k + 1 + j = k + (j + 1) := by omega
      rw [e]
      exact this)
    refine ⟨h1.1, ?_⟩
    intro d hd
    simp only [for_slots, List.mem_cons] at hd
    rcases hd with hd | hd
    · rw [hd]; exact h0.2
    · exact h1.2 d hd

theorem chat_enqueue_snd_indep (out : List Nat) (len : Nat) (g g1 : globals) (c : client_t) :
    (chat_enqueue out len g c).2 = (chat_enqueue out len g1 c).2 := by
  unfold chat_enqueue release
  simp only []
  split_ifs <;> rfl

theorem broadcast_snd (out : List Nat) (len : Nat) (g : globals) (cs : List client_t) :
    (broadcast out len g cs).2 = cs.map (fun c => (chat_enqueue out len g c).2) :=
  for_slots_const_snd (chat_enqueue out len) (chat_enqueue_snd_indep out len) 0 g cs

theorem chat_envelope_length (M : Nat) (c : client_t) (processed p : Nat)
    (hp : processed ≤ p) (hlt : p < c.buf.length) :
    (chat_envelope M c processed p).length = out_len M processed p := by
  unfold chat_envelope out_len payload_len
  simp only [List.length_append, List.length_take, List.length_drop, List.length_cons,
    List.length_nil]
  split <;> omega

theorem process_frame_chat (cfg : config) (now : Int) (rounds : List drain_round)
    (i processed p : Nat) (s : server) (c : client_t)
    (hc : s.clients[i]? = some c) (hty : c.buf.getD processed 0 % 256 = 0) :
    process_frame cfg now rounds i processed p s =
      outcome.running
        { clients := (broadcast (chat_envelope cfg.MAX_MSG_SIZE c processed p)
            (out_len cfg.MAX_MSG_SIZE processed p) s.g s.clients).2,
          g := (broadcast (chat_envelope cfg.MAX_MSG_SIZE c processed p)
            (out_len cfg.MAX_MSG_SIZE processed p) s.g s.clients).1 } := by
  unfold process_frame
  simp only [hc, hty]
  simp

/-! ## C2: the broadcast router -/

/-- C2: when slot `i` holds the sender and the frame `buf[processed .. p]` of
its inbound buffer has type tag 0, the frame handler keeps the loop running and,
for every slot `j`: a connection that is alive at routing time (`fd ≠ -1` and
`alive`) and whose outgoing buffer has room for the envelope gets the envelope
appended to its unsent bytes (the sender included, as `j = i` is allowed) and
stays open; a slot that is not alive is left exactly as it was.  The envelope
starts with the byte 0, the four address bytes and the two port bytes of the
sender, copied unchanged. -/
theorem broadcast_delivers (cfg : config) (now : Int) (rounds : List drain_round)
    (s : server) (i processed p : Nat) (sender : client_t)
    (hs : s.clients[i]? = some sender)
    (htype : sender.buf.getD processed 0 % 256 = 0)
    (hp : processed ≤ p) (hlt : p < sender.buf.length) :
    ∃ t : server,
      process_frame cfg now rounds i processed p s = outcome.running t ∧
      t.clients.length = s.clients.length ∧
      (chat_envelope cfg.MAX_MSG_SIZE sender processed p).take 7 =
        [0, sender.addr.a0, sender.addr.a1, sender.addr.a2, sender.addr.a3,
         sender.addr.p0, sender.addr.p1] ∧
      ∀ (j : Nat) (c : client_t), s.clients[j]? = some c →
        ∃ d : client_t, t.clients[j]? = some d ∧
          (c.fd ≠ -1 ∧ c.alive = true → c.outbuf.isSome = true → out_ok c →
            has_room c (out_len cfg.MAX_MSG_SIZE processed p) →
            pending d = pending c ++ chat_envelope cfg.MAX_MSG_SIZE sender processed p ∧
            d.fd = c.fd ∧ d.alive = true) ∧
          (¬ (c.fd ≠ -1 ∧ c.alive = true) → d = c) := by
  refine ⟨_, process_frame_chat cfg now rounds i processed p s sender hs htype, ?_, ?_, ?_⟩
  · simp [broadcast, for_slots_length]
  · simp [chat_envelope]
  · intro j c hj
    simp only [broadcast_snd, List.getElem?_map, hj, Option.map_some']
    refine ⟨_, rfl, ?_, ?_⟩
    · intro hal hsome hok hroom
      have h := chat_enqueue_fits (chat_envelope cfg.MAX_MSG_SIZE sender processed p)
        (out_len cfg.MAX_MSG_SIZE processed p) s.g c hal.1 hal.2 hok hroom
        (chat_envelope_length _ _ _ _ hp hlt)
      exact ⟨h.2.2.2.2.2.2.2 hsome, h.1, h.2.1⟩
    · intro hna
      rw [chat_enqueue_skip _ _ _ _ hna]

/-! ## The enqueue step of the shutdown broadcast and the flush step -/

theorem shutdown_enqueue_closed (g : globals) (c : client_t) (h : c.fd = -1) :
    shutdown_enqueue g c = (g, c) := by
  unfold shutdown_enqueue
  simp [h]

theorem shutdown_enqueue_fits (g : globals) (c : client_t)
    (hfd : c.fd ≠ -1) (hok : out_ok c) (hroom : has_room c 2) :
    (shutdown_enqueue g c).2.fd = c.fd ∧
    (shutdown_enqueue g c).2.alive = c.alive ∧
    (shutdown_enqueue g c).2.addr = c.addr ∧
    (shutdown_enqueue g c).2.buf = c.buf ∧
    (shutdown_enqueue g c).2.got_type1 = c.got_type1 ∧
    ((shutdown_enqueue g c).2.outbuf.isSome = c.outbuf.isSome) ∧
    out_ok (shutdown_enqueue g c).2 ∧
    (c.outbuf.isSome = true → pending (shutdown_enqueue g c).2 = pending c ++ tout) := by
  obtain ⟨h1, h2⟩ := hok
  unfold has_room at hroom
  have hcap := OUTBUF_val
  have hmod : SIZE_MOD = 18446744073709551616 := rfl
  have hav : size_sub OUTBUF_SIZE c.out_tail = OUTBUF_SIZE - c.out_tail :=
    size_sub_eq h2 OUTBUF_lt
  have hrem : size_sub c.out_tail c.out_head = c.out_tail - c.out_head :=
    size_sub_eq h1 (by omega)
  unfold shutdown_enqueue
  rw [if_pos hfd]
  simp only [hav, hrem]
  by_cases hc : c.out_head > 0
  · have hav1 : size_sub OUTBUF_SIZE (c.out_tail - c.out_head)
        = OUTBUF_SIZE - (c.out_tail - c.out_head) := size_sub_eq (by omega) OUTBUF_lt
    have hge : OUTBUF_SIZE - (c.out_tail - c.out_head) ≥ 2 := by omega
    have hadd : size_add (c.out_tail - c.out_head) 2 = c.out_tail - c.out_head + 2 :=
      size_add_eq (by omega)
    simp only [hc, decide_True, if_true, hav1, hge, hadd]
    refine ⟨trivial, trivial, trivial, trivial, trivial, ?_, ?_, ?_⟩
    · cases c.outbuf <;> rfl
    · exact ⟨Nat.zero_le _, by simp only []; omega⟩
    · intro hsome
      obtain ⟨m, hm⟩ := Option.isSome_iff_exists.mp hsome
      simp only [pending, hm, Option.map_some']
      rw [region_mem_copy _ _ _ _ _ (Nat.zero_le _) (by simp [tout]), region_mem_move]
      rfl
  · have hge : OUTBUF_SIZE - c.out_tail ≥ 2 := by omega
    have hadd : size_add c.out_tail 2 = c.out_tail + 2 := size_add_eq (by omega)
    simp only [hc, decide_False, Bool.false_eq_true, if_false, hge, if_true, hadd]
    refine ⟨trivial, trivial, trivial, trivial, trivial, ?_, ?_, ?_⟩
    · cases c.outbuf <;> rfl
    · exact ⟨by simp only []; omega, by simp only []; omega⟩
    · intro hsome
      obtain ⟨m, hm⟩ := Option.isSome_iff_exists.mp hsome
      simp only [pending, hm, Option.map_some']
      rw [region_mem_copy _ _ _ _ _ h1 (by simp [tout])]
      rfl

theorem shutdown_enqueue_full (g : globals) (c : client_t)
    (hfd : c.fd ≠ -1) (hok : out_ok c) (hroom : ¬ has_room c 2) :
    (shutdown_enqueue g c).1 = g ∧
    (shutdown_enqueue g c).2.fd = c.fd ∧
    (shutdown_enqueue g c).2.alive = c.alive ∧
    (shutdown_enqueue g c).2.addr = c.addr ∧
    (shutdown_enqueue g c).2.buf = c.buf ∧
    (shutdown_enqueue g c).2.got_type1 = c.got_type1 ∧
    ((shutdown_enqueue g c).2.outbuf.isSome = c.outbuf.isSome) ∧
    out_ok (shutdown_enqueue g c).2 ∧
    pending (shutdown_enqueue g c).2 = pending c := by
  obtain ⟨h1, h2⟩ := hok
  unfold has_room at hroom
  have hcap := OUTBUF_val
  have hmod : SIZE_MOD = 18446744073709551616 := rfl
  have hav : size_sub OUTBUF_SIZE c.out_tail = OUTBUF_SIZE - c.out_tail :=
    size_sub_eq h2 OUTBUF_lt
  have hrem : size_sub c.out_tail c.out_head = c.out_tail - c.out_head :=
    size_sub_eq h1 (by omega)
  unfold shutdown_enqueue
  rw [if_pos hfd]
  simp only [hav, hrem]
  by_cases hc : c.out_head > 0
  · have hav1 : size_sub OUTBUF_SIZE (c.out_tail - c.out_head)
        = OUTBUF_SIZE - (c.out_tail - c.out_head) := size_sub_eq (by omega) OUTBUF_lt
    have hge : ¬ OUTBUF_SIZE - (c.out_tail - c.out_head) ≥ 2 := by omega
    simp only [hc, decide_True, if_true, hav1, hge, if_false]
    refine ⟨trivial, trivial, trivial, trivial, trivial, trivial, ?_, ?_, ?_⟩
    · cases c.outbuf <;> rfl
    · exact ⟨Nat.zero_le _, by simp only []; omega⟩
    · cases hm : c.outbuf with
      | none => simp [pending, hm]
      | some m =>
        simp only [pending, hm, Option.map_some']
        rw [region_mem_move]
  · have hge : ¬ OUTBUF_SIZE - c.out_tail ≥ 2 := by omega
    simp only [hc, decide_False, Bool.false_eq_true, if_false, hge]
    exact ⟨trivial, trivial, trivial, trivial, trivial, trivial, trivial, ⟨h1, h2⟩, trivial⟩

theorem region_take (m : Nat → Nat) {h t n : Nat} (hn : h + n ≤ t) :
    (region m h t).take n = region m h (h + n) := by
  rw [region_append m (Nat.le_add_right h n) hn, List.take_left' (by simp [region_length])]

theorem region_drop (m : Nat → Nat) {h t n : Nat} (hn : h + n ≤ t) :
    (region m h t).drop n = region m (h + n) t := by
  rw [region_append m (Nat.le_add_right h n) hn, List.drop_left' (by simp [region_length])]

theorem pending_length (c : client_t) (h : c.outbuf.isSome = true) :
    (pending c).length = c.out_tail - c.out_head := by
  obtain ⟨m, hm⟩ := Option.isSome_iff_exists.mp h
  simp [pending, hm, region_length]

/-- The client part of a flush step: with a `send` that reports at most the
bytes offered, the bytes taken by the `send` followed by the unsent bytes
afterwards are the unsent bytes before, unless the slot is released. -/
theorem flush_slot_client (w : Int → Bool) (send : Nat → send_result) (i : Nat)
    (g : globals) (c : client_t) (hok : out_ok c)
    (hs : (send i).s ≤ (size_sub c.out_tail c.out_head : Int)) :
    out_ok (flush_slot w send i g c).2 ∧
    ((flush_slot w send i g c).2.fd = c.fd ∨ (flush_slot w send i g c).2.fd = -1) ∧
    ((flush_slot w send i g c).2.fd ≠ -1 →
      (flush_slot w send i g c).2.alive = c.alive ∧
      (flush_slot w send i g c).2.outbuf = c.outbuf ∧
      (c.fd ≠ -1 → w c.fd = true →
        transmitted (send i) c ++ pending (flush_slot w send i g c).2 = pending c)) := by
  obtain ⟨h1, h2⟩ := hok
  have hcap := OUTBUF_val
  have hmod : SIZE_MOD = 18446744073709551616 := rfl
  have hrem : size_sub c.out_tail c.out_head = c.out_tail - c.out_head :=
    size_sub_eq h1 (by omega)
  rw [hrem] at hs
  unfold flush_slot
  simp only [hrem]
  by_cases hfd : c.fd = -1
  · simp [hfd, out_ok, h1, h2]
  by_cases hw : w c.fd = true
  swap
  · simp [hfd, hw, out_ok, h1, h2]
  by_cases hts : c.out_tail - c.out_head > 0
  swap
  · simp only [hfd, hw, hts, if_false, if_true]
    refine ⟨⟨h1, h2⟩, Or.inl trivial, fun _ => ⟨trivial, trivial, fun _ _ => ?_⟩⟩
    have : c.out_tail = c.out_head := by omega
    unfold transmitted pending
    cases c.outbuf <;> simp [region, this]
  simp only [hfd, hw, hts, if_false, if_true]
  by_cases hpos : (send i).s > 0
  · have hn : (send i).s.toNat ≤ c.out_tail - c.out_head := by omega
    have hadd : size_add c.out_head (send i).s.toNat = c.out_head + (send i).s.toNat :=
      size_add_eq (by omega)
    simp only [hpos, if_true, hadd]
    by_cases heq : c.out_head + (send i).s.toNat = c.out_tail
    · simp only [heq, if_true]
      refine ⟨⟨Nat.le_refl _, Nat.zero_le _⟩, Or.inl trivial, fun _ => ⟨trivial, trivial, fun _ _ => ?_⟩⟩
      unfold transmitted pending
      cases hm : c.outbuf with
      | none => simp
      | some m =>
        simp only [hpos, if_true]
        rw [region_take m (Nat.le_of_eq heq), heq]
        simp [region]
    · simp only [heq, if_false]
      refine ⟨⟨by simp only []; omega, h2⟩, Or.inl trivial, fun _ => ⟨trivial, trivial, fun _ _ => ?_⟩⟩
      unfold transmitted pending
      cases hm : c.outbuf with
      | none => simp
      | some m =>
        simp only [hpos, if_true]
        rw [region_take m (by omega : c.out_head + (send i).s.toNat ≤ c.out_tail)]
        exact (region_append m (Nat.le_add_right _ _) (by omega)).symm
  · simp only [hpos, if_false]
    by_cases herr : (send i).s < 0 ∧ (send i).again = false
    · simp only [herr, and_self, if_true]
      refine ⟨⟨h1, h2⟩, Or.inr rfl, fun h => absurd rfl h⟩
    · simp only [herr, if_false]
      refine ⟨⟨h1, h2⟩, Or.inl trivial, fun _ => ⟨trivial, trivial, fun _ _ => ?_⟩⟩
      unfold transmitted
      simp [hpos]

theorem drain_slot_client (w : Int → Bool) (send : Nat → send_result) (k : Nat)
    (st : globals × Bool) (g : globals) (c : client_t) :
    (drain_slot w send k st c).2 = (flush_slot w send k g c).2 := by
  unfold drain_slot flush_slot release release_final
  simp only []
  split_ifs <;> rfl

/-- C1, witness: with `MAX_MSG_SIZE = 1024` the frame `hello_frame` of the
sender 10.0.0.7:0x1F90 yields the 13-byte envelope that ends in "hello" and
the newline. -/
theorem chat_envelope_payload_witness :
    chat_envelope 1024 (open_client 5 hello_frame) 0 6
        = [0, 10, 0, 0, 7, 31, 144, 104, 101, 108, 108, 111, 10]
    ∧ (chat_envelope 1024 (open_client 5 hello_frame) 0 6).length = 13
    ∧ out_len 1024 0 6 = 13 :=
  have h := chat_envelope_payload example_cfg 0 [] example_table 0
    (open_client 5 hello_frame) [] [104, 101, 108, 108, 111] [] 0 rfl rfl rfl
  ⟨h.1, h.2.1, h.2.2.1⟩

/-- C2, witness: the frame `hello_frame` of slot 0 of `example_table` is
broadcast; the sender itself and the connection of slot 2 get the envelope
appended, the free slot 1 is untouched. -/
theorem broadcast_delivers_witness :
    ∃ t : server,
      process_frame example_cfg 0 [] 0 0 6 example_table = outcome.running t ∧
      t.clients.map pending =
        [[0, 10, 0, 0, 7, 31, 144, 104, 101, 108, 108, 111, 10], [],
         [66, 67, 0, 10, 0, 0, 7, 31, 144, 104, 101, 108, 108, 111, 10]] := by
  obtain ⟨t, ht, hlen, _, hall⟩ := broadcast_delivers example_cfg 0 [] example_table 0 0 6
    (open_client 5 hello_frame) rfl (by decide) (by decide) (by decide)
  refine ⟨t, ht, ?_⟩
  obtain ⟨d0, hd0, h0, _⟩ := hall 0 (open_client 5 hello_frame) rfl
  obtain ⟨d1, hd1, _, h1⟩ := hall 1 _ rfl
  obtain ⟨d2, hd2, h2, _⟩ := hall 2 _ rfl
  have e0 := (h0 ⟨by decide, rfl⟩ rfl ⟨by decide, by decide⟩ (by unfold has_room; decide)).1
  have e1 := h1 (by decide)
  have e2 := (h2 ⟨by decide, rfl⟩ rfl ⟨by decide, by decide⟩ (by unfold has_room; decide)).1
  have hl : t.clients.length = 3 := hlen
  match hc : t.clients, hl with
  | [a, b, c], _ =>
    rw [hc] at hd0 hd1 hd2
    simp only [List.getElem?_cons_zero, List.getElem?_cons_succ, Option.some.injEq] at hd0 hd1 hd2
    subst hd0 hd1 hd2
    simp only [List.map_cons, List.map_nil, e0, e1, e2]
    rfl

/-! ## C3: the outgoing buffer is a FIFO byte queue -/

theorem buf_step_spec (op : buf_op) (c : client_t) (hfd : c.fd ≠ -1) (halive : c.alive = true)
    (hbuf : c.outbuf.isSome = true) (hok : out_ok c) (hstep : step_ok op c) :
    ((buf_step op c).1.fd ≠ -1 ∧ (buf_step op c).1.alive = true ∧
      (buf_step op c).1.outbuf.isSome = true ∧ out_ok (buf_step op c).1) ∧
    (buf_step op c).2.1 ++ pending (buf_step op c).1 = pending c ++ (buf_step op c).2.2 := by
  have hcap := OUTBUF_val
  have hmod : SIZE_MOD = 18446744073709551616 := rfl
  have hrem : size_sub c.out_tail c.out_head = c.out_tail - c.out_head :=
    size_sub_eq hok.1 (by have := hok.2; omega)
  cases op with
  | chat out =>
    obtain ⟨hopen, -⟩ := hstep
    simp only [buf_step] at hopen ⊢
    by_cases hroom : has_room c out.length
    · have h := chat_enqueue_fits out out.length idle_globals c hfd halive hok hroom rfl
      refine ⟨⟨hopen, h.2.1, ?_, h.2.2.2.2.2.2.1⟩, ?_⟩
      · rw [h.2.2.2.2.2.1]; exact hbuf
      · rw [h.2.2.2.2.2.2.2 hbuf]; rfl
    · rw [chat_enqueue_overflow out out.length idle_globals c hfd halive hok hroom] at hopen
      exact absurd rfl hopen
  | shutdown =>
    obtain ⟨hopen, -⟩ := hstep
    simp only [buf_step] at hopen ⊢
    by_cases hroom : has_room c 2
    · have h := shutdown_enqueue_fits idle_globals c hfd hok hroom
      refine ⟨⟨hopen, ?_, ?_, h.2.2.2.2.2.2.1⟩, ?_⟩
      · rw [h.2.1]; exact halive
      · rw [h.2.2.2.2.2.1]; exact hbuf
      · rw [h.2.2.2.2.2.2.2 hbuf, if_pos (show c.out_tail - c.out_head + 2 ≤ OUTBUF_SIZE from hroom)]
        rfl
    · have h := shutdown_enqueue_full idle_globals c hfd hok hroom
      refine ⟨⟨hopen, ?_, ?_, h.2.2.2.2.2.2.2.1⟩, ?_⟩
      · rw [h.2.2.1]; exact halive
      · rw [h.2.2.2.2.2.2.1]; exact hbuf
      · rw [h.2.2.2.2.2.2.2.2, if_neg (show ¬ c.out_tail - c.out_head + 2 ≤ OUTBUF_SIZE from hroom)]
        simp
  | flush sr =>
    obtain ⟨hopen, hs⟩ := hstep
    simp only [buf_step] at hopen ⊢
    simp only [pending_length c hbuf] at hs
    have h := flush_slot_client (fun _ => true) (fun _ => sr) 0 idle_globals c hok
      (by rw [hrem]; exact hs)
    obtain ⟨ha, hb, hc⟩ := h.2.2 hopen
    refine ⟨⟨hopen, ?_, ?_, h.1⟩, ?_⟩
    · rw [ha]; exact halive
    · rw [hb]; exact hbuf
    · rw [hc hfd rfl]; simp
  | drain sr =>
    obtain ⟨hopen, hs⟩ := hstep
    simp only [buf_step] at hopen ⊢
    rw [drain_slot_client _ _ _ _ idle_globals] at hopen ⊢
    simp only [pending_length c hbuf] at hs
    have h := flush_slot_client (fun _ => true) (fun _ => sr) 0 idle_globals c hok
      (by rw [hrem]; exact hs)
    obtain ⟨ha, hb, hc⟩ := h.2.2 hopen
    refine ⟨⟨hopen, ?_, ?_, h.1⟩, ?_⟩
    · rw [ha]; exact halive
    · rw [hb]; exact hbuf
    · rw [hc hfd rfl]; simp

/-- C3, the claim as stated, fails on `full_client 6`, an open connection
whose `OUTBUF_SIZE` unsent bytes fill the outgoing buffer: the shutdown enqueue
leaves it open and transmits nothing, so the run is one in which the
connection is never dropped, but the two bytes 0x01 0x0A enqueued for it are
not appended.  The bytes transmitted followed by the unsent bytes are then
`OUTBUF_SIZE` bytes, two fewer than the bytes unsent at the start followed by
the bytes enqueued. -/
theorem shutdown_frame_missing_from_queue :
    run_ok [buf_op.shutdown] (full_client 6) ∧
    (buf_run [buf_op.shutdown] (full_client 6)).1.fd = 6 ∧
    (buf_run [buf_op.shutdown] (full_client 6)).2.1 = [] ∧
    offered [buf_op.shutdown] = [1, 10] ∧
    (pending (buf_run [buf_op.shutdown] (full_client 6)).1).length = OUTBUF_SIZE ∧
    (buf_run [buf_op.shutdown] (full_client 6)).2.1
        ++ pending (buf_run [buf_op.shutdown] (full_client 6)).1 ≠
      pending (full_client 6) ++ offered [buf_op.shutdown] := by
  have hlen : (pending (buf_run [buf_op.shutdown] (full_client 6)).1).length = OUTBUF_SIZE := by
    rw [pending_length _ (by decide)]
    decide
  refine ⟨⟨⟨by decide, trivial⟩, trivial⟩, by decide, by decide, by decide, hlen, ?_⟩
  intro h
  have hl := congrArg List.length h
  rw [List.length_append, List.length_append, hlen, pending_length _ (by decide)] at hl
  revert hl
  decide

/-- C3, as amended: for one open connection with a well-formed outgoing buffer
and every finite sequence of chat enqueues, shutdown enqueues and flushes (of
the main loop or of a drain loop) in which each `send` reports at most the
number of unsent bytes and the connection is never dropped, the bytes
transmitted so far followed by the unsent bytes `outbuf[out_head .. out_tail)`
are, in order, the bytes that were unsent at the start followed by all byte
sequences appended: the bytes of every chat enqueue, and the two bytes of
every shutdown enqueue that found room for them after compaction (unsent bytes
+ 2 ≤ `OUTBUF_SIZE`); a shutdown enqueue that finds no room appends nothing.
For a freshly accepted connection nothing is unsent at the start. -/
theorem outbound_fifo (ops : List buf_op) (c : client_t) (hfd : c.fd ≠ -1)
    (halive : c.alive = true) (hbuf : c.outbuf.isSome = true) (hok : out_ok c)
    (hrun : run_ok ops c) :
    (buf_run ops c).2.1 ++ pending (buf_run ops c).1 = pending c ++ (buf_run ops c).2.2 := by
  induction ops generalizing c with
  | nil => simp [buf_run]
  | cons op ops ih =>
    obtain ⟨hstep, hrest⟩ := hrun
    obtain ⟨⟨h1, h2, h3, h4⟩, h5⟩ := buf_step_spec op c hfd halive hbuf hok hstep
    have h6 := ih (buf_step op c).1 h1 h2 h3 h4 hrest
    simp only [buf_run, List.append_assoc]
    rw [h6, ← List.append_assoc, h5, List.append_assoc]

/-- C3, witness: the run `example_ops` on a fresh connection transmits 4 and
then all 16 remaining bytes of the two envelopes and the shutdown frame. -/
theorem outbound_fifo_witness :
    (buf_run example_ops (open_client 5 [])).2.1
        ++ pending (buf_run example_ops (open_client 5 [])).1
      = [0, 10, 0, 0, 7, 31, 144, 104, 10, 0, 10, 0, 0, 7, 31, 144, 105, 10, 1, 10] :=
  (outbound_fifo example_ops (open_client 5 []) (by decide) rfl rfl
    ⟨by decide, by decide⟩
    ⟨⟨by decide, trivial⟩, ⟨by decide, by decide⟩, ⟨by decide, trivial⟩,
     ⟨by decide, by decide⟩, ⟨by decide, trivial⟩, ⟨by decide, by decide⟩, trivial⟩).trans
    (by decide)

/-! ## C4: quorum finalization -/

theorem shutdown_enqueue_snd_indep (g g1 : globals) (c : client_t) :
    (shutdown_enqueue g c).2 = (shutdown_enqueue g1 c).2 := by
  unfold shutdown_enqueue
  simp only []
  split_ifs <;> rfl

theorem shutdown_broadcast_snd (g : globals) (cs : List client_t) :
    (shutdown_broadcast g cs).2 = cs.map (fun c => (shutdown_enqueue g c).2) :=
  for_slots_const_snd shutdown_enqueue shutdown_enqueue_snd_indep 0 g cs

theorem process_frame_done (cfg : config) (now : Int) (rounds : List drain_round)
    (i processed p : Nat) (s : server) (c : client_t)
    (hc : s.clients[i]? = some c) (hty : c.buf.getD processed 0 % 256 = 1) :
    process_frame cfg now rounds i processed p s =
      if (record_type1 now i c s).g.type1_count ≥ cfg.expected_clients then
        outcome.exited 0 (quorum_finalize rounds (record_type1 now i c s))
      else outcome.running (record_type1 now i c s) := by
  unfold process_frame
  simp only [hc, hty]
  simp

/-- What the shutdown enqueue does to the slot `d`: a free slot is untouched;
an open connection stays open and gets the frame `tout` exactly once when its
unsent bytes leave room for two more bytes, and nothing otherwise. -/
theorem shutdown_enqueue_slot (g : globals) (d : client_t) :
    (shutdown_enqueue g d).2.fd = d.fd ∧
    (d.fd = -1 → (shutdown_enqueue g d).2 = d) ∧
    (d.fd ≠ -1 → out_ok d → d.outbuf.isSome = true → has_room d 2 →
      pending (shutdown_enqueue g d).2 = pending d ++ [1, 10]) ∧
    (d.fd ≠ -1 → out_ok d → ¬ has_room d 2 →
      pending (shutdown_enqueue g d).2 = pending d) := by
  refine ⟨?_, ?_, ?_, ?_⟩
  · unfold shutdown_enqueue
    simp only []
    split_ifs <;> rfl
  · intro h
    rw [shutdown_enqueue_closed g d h]
  · intro h1 h2 h3 h4
    exact (shutdown_enqueue_fits g d h1 h2 h4).2.2.2.2.2.2.2 h3
  · intro h1 h2 h4
    exact (shutdown_enqueue_full g d h1 h2 h4).2.2.2.2.2.2.2.2

/-- C4, the claim as stated, fails on `full_table` with one expected client:
the done signal of slot 0 reaches the quorum and `main` returns 0, but the open
connection of slot 1, whose outgoing buffer is full, still holds exactly its
`OUTBUF_SIZE` unsent bytes: no shutdown frame was appended to it. -/
theorem quorum_skips_full_connection :
    ∃ t : server,
      process_frame ⟨1024, 1, 3⟩ 0 [] 0 0 1 full_table = outcome.exited 0 t ∧
      t.clients.map (fun c => (c.fd, c.out_head, c.out_tail)) = [(5, 0, 2), (6, 0, OUTBUF_SIZE)] ∧
      t.clients.map (fun c => (pending c).length) = [2, OUTBUF_SIZE] := by
  refine ⟨_, process_frame_done ⟨1024, 1, 3⟩ 0 [] 0 0 1 full_table (open_client 5 [1, 10])
    rfl (by decide), ?_, ?_⟩
  · decide
  · rw [List.map_congr_left (fun c hc => pending_length c
      ((by decide : ∀ c ∈ (quorum_finalize [] (record_type1 0 0 (open_client 5 [1, 10])
        full_table)).clients, c.outbuf.isSome = true) c hc))]
    decide

/-- C4, as amended: when the frame `buf[processed .. p]` of slot `i` is a done
signal after which the done count has reached the expected number, `main`
returns 0 after the drain; the shutdown enqueue that precedes the drain leaves
every free slot untouched, appends the frame 0x01 0x0A exactly once to every
open connection whose unsent bytes leave room for two more bytes, and leaves
an open connection without room open and without the frame; the scan stops at
the done signal whatever bytes follow it in the inbound buffer, the read
handling of the slot ends with the result of the scan, and the loop over the
readable slots stops as soon as one slot has made `main` return, so no later
frame is routed. -/
theorem quorum_finalization (cfg : config) (now : Int) (rounds : List drain_round)
    (i processed p : Nat) (s : server) (c : client_t)
    (hc : s.clients[i]? = some c) (hty : c.buf.getD processed 0 % 256 = 1)
    (hq : (record_type1 now i c s).g.type1_count ≥ cfg.expected_clients) :
    process_frame cfg now rounds i processed p s =
      outcome.exited 0 (drain_loop rounds (shutdown_enqueue_all (record_type1 now i c s))) ∧
    (∀ rest : List Nat,
      scan_frames cfg now rounds i (10 :: rest) p processed s =
        (outcome.exited 0 (drain_loop rounds (shutdown_enqueue_all (record_type1 now i c s))),
         processed)) ∧
    (∀ (fd : Int) (c0 : client_t) (space : Nat) (bytes : List Nat) (s0 t : server)
        (st : Int),
      (scan_frames cfg now rounds i (recv_client c0 (bytes.take space)).buf 0 0
        { s0 with clients := s0.clients.set i (recv_client c0 (bytes.take space)) }).1
          = outcome.exited st t →
      handle_data cfg now rounds i fd c0 space bytes s0 = outcome.exited st t) ∧
    (∀ (readfds : Int → Bool) (recv : Nat → recv_result) (is : List Nat) (s0 t : server)
        (st : Int),
      handle_readable cfg readfds recv now rounds i s0 = outcome.exited st t →
      read_loop cfg readfds recv now rounds (i :: is) s0 = outcome.exited st t) ∧
    (∀ (j : Nat) (d : client_t), (record_type1 now i c s).clients[j]? = some d →
      ∃ d1 : client_t,
        (shutdown_enqueue_all (record_type1 now i c s)).clients[j]? = some d1 ∧
        d1.fd = d.fd ∧
        (d.fd = -1 → d1 = d) ∧
        (d.fd ≠ -1 → out_ok d → d.outbuf.isSome = true → has_room d 2 →
          pending d1 = pending d ++ [1, 10]) ∧
        (d.fd ≠ -1 → out_ok d → ¬ has_room d 2 → pending d1 = pending d)) := by
  have hpf : process_frame cfg now rounds i processed p s =
      outcome.exited 0 (drain_loop rounds (shutdown_enqueue_all (record_type1 now i c s))) := by
    rw [process_frame_done cfg now rounds i processed p s c hc hty, if_pos hq]
    rfl
  refine ⟨hpf, ?_, ?_, ?_, ?_⟩
  · intro rest
    simp only [scan_frames, if_true, hpf]
  · intro fd c0 space bytes s0 t st h
    unfold handle_data
    simp only []
    rcases hsc : scan_frames cfg now rounds i (recv_client c0 (bytes.take space)).buf 0 0
      { s0 with clients := s0.clients.set i (recv_client c0 (bytes.take space)) } with ⟨o, q⟩
    rw [hsc] at h
    simp only [] at h
    rw [h]
    rfl
  · intro readfds recv is s0 t st h
    simp only [read_loop, h]
  · intro j d hd
    refine ⟨(shutdown_enqueue (record_type1 now i c s).g d).2, ?_,
      shutdown_enqueue_slot _ d⟩
    simp only [shutdown_enqueue_all, shutdown_broadcast_snd, List.getElem?_map, hd,
      Option.map_some']

/-- C4, witness: with one expected client the done signal of slot 0 of
`done_table` makes `main` return 0; the two open connections end with the
shutdown frame appended once, the free slot with nothing. -/
theorem quorum_finalization_witness :
    process_frame ⟨1024, 1, 3⟩ 0 [] 0 0 1 done_table =
      outcome.exited 0
        (drain_loop [] (shutdown_enqueue_all (record_type1 0 0 (open_client 5 [1, 10]) done_table))) ∧
    (shutdown_enqueue_all (record_type1 0 0 (open_client 5 [1, 10]) done_table)).clients.map pending
      = [[1, 10], [], [66, 67, 1, 10]] :=
  ⟨(quorum_finalization ⟨1024, 1, 3⟩ 0 [] 0 0 1 done_table (open_client 5 [1, 10])
      rfl (by decide) (by decide)).1, by decide⟩

/-! ## C5: the done count -/

/-- The three ways in which the read handling of slot `i` ends: nothing is
done, the slot is released, or a `recv` succeeded and `handle_data` runs. -/
theorem handle_readable_cases (cfg : config) (readfds : Int → Bool)
    (recv : Nat → recv_result) (now : Int) (rounds : List drain_round) (i : Nat) (s : server) :
    handle_readable cfg readfds recv now rounds i s = outcome.running s ∨
    (∃ c : client_t, s.clients[i]? = some c ∧ c.fd ≠ -1 ∧ readfds c.fd = true ∧
      handle_readable cfg readfds recv now rounds i s =
        outcome.running (release_slot c.fd i s)) ∨
    (∃ (c : client_t) (bytes : List Nat), s.clients[i]? = some c ∧ c.fd ≠ -1 ∧
      readfds c.fd = true ∧ inbound_space c ≠ 0 ∧
      recv i = recv_result.data bytes ∧
      handle_readable cfg readfds recv now rounds i s =
        handle_data cfg now rounds i c.fd c (inbound_space c)
          bytes s) := by
  unfold handle_readable
  cases hc : s.clients[i]? with
  | none => exact Or.inl rfl
  | some c =>
    simp only []
    by_cases hfd : c.fd = -1
    · rw [if_pos hfd]; exact Or.inl rfl
    rw [if_neg hfd]
    by_cases hr : readfds c.fd = false
    · rw [if_pos hr]; exact Or.inl rfl
    rw [if_neg hr]
    have hr1 : readfds c.fd = true := by simpa using hr
    by_cases hsp : inbound_space c = 0
    · rw [if_pos hsp]
      exact Or.inr (Or.inl ⟨c, rfl, hfd, hr1, rfl⟩)
    rw [if_neg hsp]
    cases hrecv : recv i with
    | error retry =>
      cases retry
      · exact Or.inr (Or.inl ⟨c, rfl, hfd, hr1, rfl⟩)
      · exact Or.inl rfl
    | data bytes =>
      exact Or.inr (Or.inr ⟨c, bytes, rfl, hfd, hr1, hsp, rfl, rfl⟩)

/-- The grace check either changes nothing or, when the time stamp is set, the
count is below the expected number and a second has elapsed, finalizes. -/
theorem grace_check_cases (cfg : config) (now : Int) (rounds : List drain_round) (s : server) :
    (grace_check cfg now rounds s = outcome.running s ∧
      ¬ (s.g.first_type1_time ≠ 0 ∧ s.g.type1_count < cfg.expected_clients ∧
          now - s.g.first_type1_time ≥ 1)) ∨
    (grace_check cfg now rounds s = outcome.exited 0 (grace_finalize rounds s) ∧
      s.g.first_type1_time ≠ 0 ∧ s.g.type1_count < cfg.expected_clients ∧
      now - s.g.first_type1_time ≥ 1) := by
  unfold grace_check
  by_cases h1 : s.g.first_type1_time ≠ 0
  · rw [if_pos h1]
    simp only []
    by_cases h2 : s.g.type1_count < cfg.expected_clients ∧ now - s.g.first_type1_time ≥ 1
    · rw [if_pos h2]
      exact Or.inr ⟨rfl, h1, h2.1, h2.2⟩
    · rw [if_neg h2]
      exact Or.inl ⟨rfl, fun h => h2 h.2⟩
  · rw [if_neg h1]
    exact Or.inl ⟨rfl, fun h => h1 h.1⟩

theorem getElem?_lt {α : Type} {l : List α} {i : Nat} {a : α} (h : l[i]? = some a) :
    i < l.length := by
  rcases Nat.lt_or_ge i l.length with h1 | h1
  · exact h1
  · rw [List.getElem?_eq_none h1] at h; cases h

theorem record_type1_clients (now : Int) (i : Nat) (c : client_t) (s : server) :
    (record_type1 now i c s).clients =
      if c.got_type1 = false then s.clients.set i { c with got_type1 := true }
      else s.clients := by
  unfold record_type1
  split_ifs <;> rfl

/-- C6, the claim as stated, fails on `grace_full_table` with two expected
clients: one second after the done signal the grace check finalizes and `main`
returns 0, but the shutdown enqueue leaves the open connection of slot 1, whose
outgoing buffer is full, with exactly its `OUTBUF_SIZE` unsent bytes. -/
theorem grace_skips_full_connection :
    grace_check example_cfg 1001 [] grace_full_table =
      outcome.exited 0 (grace_finalize [] grace_full_table) ∧
    grace_full_table.clients.map (fun c => (c.fd, (pending c).length))
      = [(5, 0), (6, OUTBUF_SIZE)] ∧
    (shutdown_enqueue_all grace_full_table).clients.map (fun c => (c.fd, (pending c).length))
      = [(5, 2), (6, OUTBUF_SIZE)] := by
  refine ⟨rfl, ?_, ?_⟩
  · rw [List.map_congr_left (fun c hc => by
      rw [pending_length c ((by decide : ∀ c ∈ grace_full_table.clients,
        c.outbuf.isSome = true) c hc)])]
    decide
  · rw [List.map_congr_left (fun c hc => by
      rw [pending_length c ((by decide : ∀ c ∈ (shutdown_enqueue_all grace_full_table).clients,
        c.outbuf.isSome = true) c hc)])]
    decide

/-- C6, as amended: at the grace check, when the time stamp of the first done
signal is set, the done count is below the expected number and at least one
second has elapsed since the time stamp, `main` finalizes and returns 0, both
in the check itself and in the iteration that contains it; the finalization
runs the shutdown enqueue of the quorum path, which appends 0x01 0x0A once to
every open connection whose unsent bytes leave room for two more bytes and
leaves the other slots as they are, then the drain.  When the time stamp is
not set, or when less than one second has elapsed, the check changes nothing. -/
theorem grace_finalization (cfg : config) (s : server) :
    (∀ (now : Int) (rounds : List drain_round),
      s.g.first_type1_time ≠ 0 → s.g.type1_count < cfg.expected_clients →
      now - s.g.first_type1_time ≥ 1 →
      grace_check cfg now rounds s = outcome.exited 0 (grace_finalize rounds s) ∧
      (grace_finalize rounds s).clients =
        (quorum_finalize rounds s).clients.map (fun c => { c with outbuf := none }) ∧
      (grace_finalize rounds s).g = (quorum_finalize rounds s).g ∧
      quorum_finalize rounds s = drain_loop rounds (shutdown_enqueue_all s)) ∧
    (∀ e : iter_env,
      0 ≤ e.sel → s.g.first_type1_time ≠ 0 → s.g.type1_count < cfg.expected_clients →
      e.now - s.g.first_type1_time ≥ 1 →
      iteration cfg e s = outcome.exited 0 (grace_finalize e.rounds s)) ∧
    (∀ (j : Nat) (d : client_t), s.clients[j]? = some d →
      ∃ d1 : client_t,
        (shutdown_enqueue_all s).clients[j]? = some d1 ∧
        d1.fd = d.fd ∧
        (d.fd = -1 → d1 = d) ∧
        (d.fd ≠ -1 → out_ok d → d.outbuf.isSome = true → has_room d 2 →
          pending d1 = pending d ++ [1, 10]) ∧
        (d.fd ≠ -1 → out_ok d → ¬ has_room d 2 → pending d1 = pending d)) ∧
    (∀ (now : Int) (rounds : List drain_round),
      s.g.first_type1_time = 0 ∨ now - s.g.first_type1_time < 1 →
      grace_check cfg now rounds s = outcome.running s) := by
  have htrig : ∀ (now : Int) (rounds : List drain_round),
      s.g.first_type1_time ≠ 0 → s.g.type1_count < cfg.expected_clients →
      now - s.g.first_type1_time ≥ 1 →
      grace_check cfg now rounds s = outcome.exited 0 (grace_finalize rounds s) := by
    intro now rounds h1 h2 h3
    rcases grace_check_cases cfg now rounds s with ⟨_, h⟩ | ⟨h, _⟩
    · exact absurd ⟨h1, h2, h3⟩ h
    · exact h
  refine ⟨fun now rounds h1 h2 h3 => ⟨htrig now rounds h1 h2 h3, rfl, rfl, rfl⟩, ?_, ?_, ?_⟩
  · intro e hsel h1 h2 h3
    unfold iteration
    rw [if_neg (by omega), htrig e.now e.rounds h1 h2 h3]
  · intro j d hd
    refine ⟨(shutdown_enqueue s.g d).2, ?_, shutdown_enqueue_slot _ d⟩
    simp only [shutdown_enqueue_all, shutdown_broadcast_snd, List.getElem?_map, hd,
      Option.map_some']
  · intro now rounds h
    rcases grace_check_cases cfg now rounds s with ⟨h1, _⟩ | ⟨_, h1, _, h3⟩
    · exact h1
    · rcases h with h | h
      · exact absurd h h1
      · omega

/-- C6, witness: with two expected clients, the done signal of slot 0 of
`done_table` is counted at time 1000 and the loop goes on; at the grace check
of time 1001 `main` returns 0 and the shutdown enqueue has appended the frame
to both open connections; at time 1000 the check changes nothing. -/
theorem grace_finalization_witness :
    process_frame example_cfg 1000 [] 0 0 1 done_table =
      outcome.running (record_type1 1000 0 (open_client 5 [1, 10]) done_table) ∧
    grace_check example_cfg 1001 [] (record_type1 1000 0 (open_client 5 [1, 10]) done_table) =
      outcome.exited 0
        (grace_finalize [] (record_type1 1000 0 (open_client 5 [1, 10]) done_table)) ∧
    (shutdown_enqueue_all
        (record_type1 1000 0 (open_client 5 [1, 10]) done_table)).clients.map pending
      = [[1, 10], [], [66, 67, 1, 10]] ∧
    grace_check example_cfg 1000 [] (record_type1 1000 0 (open_client 5 [1, 10]) done_table) =
      outcome.running (record_type1 1000 0 (open_client 5 [1, 10]) done_table) :=
  ⟨rfl,
   ((grace_finalization example_cfg (record_type1 1000 0 (open_client 5 [1, 10]) done_table)).1
      1001 [] (by decide) (by decide) (by decide)).1,
   by decide,
   (grace_finalization example_cfg
      (record_type1 1000 0 (open_client 5 [1, 10]) done_table)).2.2.2
      1000 [] (Or.inr (by decide))⟩

/-! ## C7: overflow drops only the overflowing connection -/

theorem chat_enqueue_interest (out : List Nat) (len : Nat) (g : globals) (c : client_t) :
    same_interest_except c.fd g (chat_enqueue out len g c).1 := by
  intro x hx
  unfold chat_enqueue release FD_SET FD_CLR
  simp only []
  split_ifs <;> simp [hx]

theorem chat_enqueue_interest_congr (out : List Nat) (len : Nat) (fd : Int) (g g1 : globals)
    (e : client_t) (h : same_interest_except fd g g1) :
    same_interest_except fd (chat_enqueue out len g e).1 (chat_enqueue out len g1 e).1 := by
  intro x hx
  obtain ⟨h1, h2⟩ := h x hx
  unfold chat_enqueue release FD_SET FD_CLR
  simp only []
  split_ifs <;> simp [h1, h2]

theorem for_slots_interest_congr (out : List Nat) (len : Nat) (fd : Int) (k k1 : Nat)
    (g g1 : globals) (cs : List client_t) (h : same_interest_except fd g g1) :
    same_interest_except fd (for_slots (fun _ => chat_enqueue out len) k g cs).1
      (for_slots (fun _ => chat_enqueue out len) k1 g1 cs).1 := by
  induction cs generalizing k k1 g g1 with
  | nil => exact h
  | cons e es ih =>
    exact ih (k + 1) (k1 + 1) _ _ (chat_enqueue_interest_congr out len fd g g1 e h)

theorem same_interest_except_refl (fd : Int) (g : globals) : same_interest_except fd g g :=
  fun _ _ => ⟨rfl, rfl⟩

/-- C7: in a chat broadcast over the table `pre ++ c :: post`, an alive
connection `c` whose unsent bytes and the envelope exceed `OUTBUF_SIZE` is
released (`fd = -1`, not alive, buffer freed); the slots before and after it
end exactly as in the broadcast over the table `pre ++ post` without `c`, each
being the enqueue step applied to that slot alone; the read and write interest
of every descriptor other than that of `c` is the same with and without `c`;
and an alive connection with room gets the envelope appended once and stays
open. -/
theorem overflow_drops_only_that_connection (out : List Nat) (len : Nat) (g : globals)
    (pre post : List client_t) (c : client_t)
    (hfd : c.fd ≠ -1) (halive : c.alive = true) (hok : out_ok c) (hover : ¬ has_room c len) :
    (broadcast out len g (pre ++ c :: post)).2 =
      pre.map (fun e => (chat_enqueue out len g e).2) ++
        (chat_enqueue out len g c).2 :: post.map (fun e => (chat_enqueue out len g e).2) ∧
    ((chat_enqueue out len g c).2.fd = -1 ∧ (chat_enqueue out len g c).2.alive = false ∧
      (chat_enqueue out len g c).2.outbuf = none) ∧
    (broadcast out len g (pre ++ post)).2 =
      pre.map (fun e => (chat_enqueue out len g e).2) ++
        post.map (fun e => (chat_enqueue out len g e).2) ∧
    same_interest_except c.fd (broadcast out len g (pre ++ post)).1
      (broadcast out len g (pre ++ c :: post)).1 ∧
    (∀ e : client_t, e.fd ≠ -1 ∧ e.alive = true → out_ok e → e.outbuf.isSome = true →
      has_room e len → out.length = len →
      pending (chat_enqueue out len g e).2 = pending e ++ out ∧
      (chat_enqueue out len g e).2.fd = e.fd ∧ (chat_enqueue out len g e).2.alive = true) := by
  refine ⟨by simp [broadcast_snd], ?_, by simp [broadcast_snd], ?_, ?_⟩
  · rw [chat_enqueue_overflow out len g c hfd halive hok hover]
    exact ⟨rfl, rfl, rfl⟩
  · unfold broadcast
    rw [for_slots_append, for_slots_append]
    simp only [for_slots]
    apply for_slots_interest_congr
    exact chat_enqueue_interest out len _ c
  · intro e he hoke hsome hroom hlen
    have h := chat_enqueue_fits out len g e he.1 he.2 hoke hroom hlen
    exact ⟨h.2.2.2.2.2.2.2 hsome, h.1, h.2.1⟩

/-- C7, witness: a 9-byte envelope is broadcast to an idle connection, a
connection with a full outgoing buffer and a connection with two unsent bytes;
the full one is released, the two others get the envelope. -/
theorem overflow_drops_only_that_connection_witness :
    (broadcast [0, 10, 0, 0, 7, 31, 144, 104, 10] 9 idle_globals
        ([open_client 5 []] ++ full_client 6 :: [busy_client 7])).2.map
        (fun c => (c.fd, c.alive))
      = [(5, true), (-1, false), (7, true)] ∧
    (broadcast [0, 10, 0, 0, 7, 31, 144, 104, 10] 9 idle_globals
        ([open_client 5 []] ++ [busy_client 7])).2.map pending
      = [[0, 10, 0, 0, 7, 31, 144, 104, 10], [66, 67, 0, 10, 0, 0, 7, 31, 144, 104, 10]] := by
  have h := overflow_drops_only_that_connection [0, 10, 0, 0, 7, 31, 144, 104, 10] 9
    idle_globals [open_client 5 []] [busy_client 7] (full_client 6) (by decide) rfl
    ⟨by decide, by decide⟩ (by unfold has_room; decide)
  refine ⟨?_, ?_⟩
  · rw [h.1]; decide
  · rw [h.2.2.1]; decide

/-! ## C8: an inbound buffer that is full without a newline -/

theorem scan_frames_no_newline (cfg : config) (now : Int) (rounds : List drain_round) (i : Nat)
    (bs : List Nat) (p processed : Nat) (s : server) (h : 10 ∉ bs) :
    scan_frames cfg now rounds i bs p processed s = (outcome.running s, processed) := by
  induction bs generalizing p with
  | nil => rfl
  | cons b rest ih =>
    have hb : b ≠ 10 := fun e => h (by simp [e])
    have hr : 10 ∉ rest := fun e => h (by simp [e])
    simp only [scan_frames, if_neg hb]
    exact ih _ hr

theorem compact_inbound_zero (i : Nat) (s : server) : compact_inbound i 0 s = s := by
  unfold compact_inbound
  cases s.clients[i]? <;> simp

theorem inbound_space_eq (c : client_t) (h : c.buf.length ≤ INBUF_SIZE - 1) :
    inbound_space c = INBUF_SIZE - 1 - c.buf.length := by
  have hmod : SIZE_MOD = 18446744073709551616 := rfl
  have hin : INBUF_SIZE = 2048 := rfl
  have h1 : size_sub INBUF_SIZE c.buf.length = INBUF_SIZE - c.buf.length :=
    size_sub_eq (by omega) (by omega)
  have h2 : size_sub (INBUF_SIZE - c.buf.length) 1 = INBUF_SIZE - c.buf.length - 1 :=
    size_sub_eq (by omega) (by omega)
  unfold inbound_space client_t.buflen
  rw [h1, h2]
  omega

theorem release_slot_clients (fd : Int) (i : Nat) (s : server) (c : client_t)
    (hc : s.clients[i]? = some c) :
    (release_slot fd i s).clients[i]? =
        some { c with outbuf := none, fd := -1, alive := false } ∧
    (∀ j : Nat, j ≠ i → (release_slot fd i s).clients[j]? = s.clients[j]?) ∧
    same_shutdown_state s.g (release_slot fd i s).g ∧
    same_interest_except fd s.g (release_slot fd i s).g := by
  have hlt := getElem?_lt hc
  unfold release_slot release
  simp only [hc]
  refine ⟨by simp [hlt], ?_, ⟨rfl, rfl⟩, ?_⟩
  · intro j hj
    simp [List.getElem?_set_ne (Ne.symm hj)]
  · intro x hx
    simp [FD_CLR, hx]

theorem handle_readable_full (cfg : config) (readfds : Int → Bool) (recv : Nat → recv_result)
    (now : Int) (rounds : List drain_round) (i : Nat) (s : server) (c : client_t)
    (hc : s.clients[i]? = some c) (hfd : c.fd ≠ -1) (hr : readfds c.fd = true)
    (hfull : c.buflen = INBUF_SIZE - 1) :
    handle_readable cfg readfds recv now rounds i s =
      outcome.running (release_slot c.fd i s) := by
  have hsp : inbound_space c = 0 := by
    rw [inbound_space_eq c (Nat.le_of_eq hfull)]
    unfold client_t.buflen at hfull
    omega
  unfold handle_readable
  simp only [hc, if_neg hfd, hr, hsp, if_true]
  simp

theorem handle_readable_closed (cfg : config) (readfds : Int → Bool) (recv : Nat → recv_result)
    (now : Int) (rounds : List drain_round) (i : Nat) (s : server) (c : client_t)
    (hc : s.clients[i]? = some c) (hfd : c.fd = -1) :
    handle_readable cfg readfds recv now rounds i s = outcome.running s := by
  unfold handle_readable
  simp only [hc, if_pos hfd]

/-- A read that brings no newline into a buffer without newline only appends
the bytes taken: no frame is handled and no other slot changes. -/
theorem handle_readable_append (cfg : config) (readfds : Int → Bool) (recv : Nat → recv_result)
    (now : Int) (rounds : List drain_round) (i : Nat) (s : server) (c : client_t)
    (bytes : List Nat)
    (hc : s.clients[i]? = some c) (hfd : c.fd ≠ -1) (hr : readfds c.fd = true)
    (hlen : c.buf.length < INBUF_SIZE - 1) (hrecv : recv i = recv_result.data bytes)
    (hne : bytes ≠ []) (hbuf : 10 ∉ c.buf) (hbytes : 10 ∉ bytes) :
    handle_readable cfg readfds recv now rounds i s =
      outcome.running
        { s with clients := (s.clients.set i
            { c with buf := c.buf ++ bytes.take (INBUF_SIZE - 1 - c.buf.length) }) } := by
  have hsp := inbound_space_eq c (Nat.le_of_lt hlen)
  have hsp0 : inbound_space c ≠ 0 := by rw [hsp]; omega
  have hgot : (bytes.take (INBUF_SIZE - 1 - c.buf.length)).length ≠ 0 := by
    cases bytes with
    | nil => exact absurd rfl hne
    | cons b bs =>
      simp only [List.length_take, List.length_cons]
      omega
  have hno : 10 ∉ c.buf ++ bytes.take (INBUF_SIZE - 1 - c.buf.length) := by
    intro h
    rcases List.mem_append.mp h with h | h
    · exact hbuf h
    · exact hbytes (List.mem_of_mem_take h)
  unfold handle_readable
  simp only [hc, if_neg hfd, hr, if_neg hsp0, hrecv]
  simp only [Bool.true_eq_false, if_false]
  unfold handle_data
  simp only [hsp, recv_client, if_neg hgot]
  rw [scan_frames_no_newline _ _ _ _ _ _ _ _ hno, decide_eq_false hgot]
  simp only [finish_read, compact_inbound_zero]
  simp

theorem read_stream_closed (cfg : config) (now : Int) (rounds : List drain_round) (i : Nat)
    (sizes stream : List Nat) (s : server) (c : client_t)
    (hc : s.clients[i]? = some c) (hfd : c.fd = -1) :
    read_stream cfg now rounds i sizes stream s = outcome.running s := by
  induction sizes generalizing stream with
  | nil => rfl
  | cons n ns ih =>
    unfold read_stream
    simp only [handle_readable_closed cfg _ _ now rounds i s c hc hfd]
    exact ih _

theorem read_stream_fill (cfg : config) (now : Int) (rounds : List drain_round) (i : Nat)
    (sizes stream : List Nat) (s : server) (c : client_t)
    (hc : s.clients[i]? = some c) (hfd : c.fd ≠ -1)
    (hbuf : 10 ∉ c.buf) (hstream : 10 ∉ stream)
    (hlen : c.buf.length ≤ INBUF_SIZE - 1)
    (htotal : INBUF_SIZE ≤ c.buf.length + stream.length)
    (hsizes : ∀ n ∈ sizes, 1 ≤ n)
    (hevents : INBUF_SIZE ≤ sizes.length + c.buf.length) :
    ∃ t : server,
      read_stream cfg now rounds i sizes stream s = outcome.running t ∧
      (∃ d : client_t, t.clients[i]? = some d ∧ d.fd = -1 ∧ d.alive = false) ∧
      (∀ j : Nat, j ≠ i → t.clients[j]? = s.clients[j]?) ∧
      same_shutdown_state s.g t.g := by
  have hin : INBUF_SIZE = 2048 := rfl
  induction sizes generalizing stream s c with
  | nil => simp only [List.length_nil] at hevents; omega
  | cons n ns ih =>
    have hn : 1 ≤ n := hsizes n (by simp)
    by_cases hfull : c.buf.length = INBUF_SIZE - 1
    · have hrel := release_slot_clients c.fd i s c hc
      refine ⟨release_slot c.fd i s, ?_, ⟨_, hrel.1, rfl, rfl⟩, hrel.2.1, hrel.2.2.1⟩
      unfold read_stream
      simp only [handle_readable_full cfg (fun _ => true) _ now rounds i s c hc hfd rfl hfull]
      exact read_stream_closed cfg now rounds i ns _ _ _ hrel.1 rfl
    · have hlt : c.buf.length < INBUF_SIZE - 1 := by omega
      have hsne : stream.take n ≠ [] := by
        cases stream with
        | nil => simp only [List.length_nil] at htotal; omega
        | cons b bs =>
          cases n with
          | zero => omega
          | succ m => simp
      have hst : 10 ∉ stream.take n := fun h => hstream (List.mem_of_mem_take h)
      have happ := handle_readable_append cfg (fun _ => true)
        (fun _ => recv_result.data (stream.take n)) now rounds i s c (stream.take n)
        hc hfd rfl hlt rfl hsne hbuf hst
      have hsp := inbound_space_eq c (Nat.le_of_lt hlt)
      have hilt := getElem?_lt hc
      have htk : (stream.take n).take (INBUF_SIZE - 1 - c.buf.length) =
          stream.take (min n (INBUF_SIZE - 1 - c.buf.length)) := by
        rw [List.take_take, Nat.min_comm]
      obtain ⟨t, ht, hd, hoth, hsh⟩ := ih
        (stream.drop (min n (INBUF_SIZE - 1 - c.buf.length)))
        { s with clients := (s.clients.set i
            { c with buf := c.buf ++ (stream.take n).take (INBUF_SIZE - 1 - c.buf.length) }) }
        { c with buf := c.buf ++ (stream.take n).take (INBUF_SIZE - 1 - c.buf.length) }
        (by simp [hilt]) hfd
        (by
          intro h
          rcases List.mem_append.mp h with h | h
          · exact hbuf h
          · exact hst (List.mem_of_mem_take h))
        (fun h => hstream (List.mem_of_mem_drop h))
        (by simp only [List.length_append, List.length_take]; omega)
        (by simp only [List.length_append, List.length_take, List.length_drop]; omega)
        (fun m hm => hsizes m (by simp [hm]))
        (by
          simp only [List.length_append, List.length_take, List.length_cons] at hevents ⊢
          omega)
      refine ⟨t, ?_, hd, ?_, hsh⟩
      · unfold read_stream
        simp only [hc, happ, hsp]
        exact ht
      · intro j hj
        rw [hoth j hj]
        simp [List.getElem?_set_ne (Ne.symm hj)]

/-- C8: (1) when the inbound buffer of an open connection holds
`sizeof(buf) - 1 = 2047` bytes, so that `space` is 0, a read-readiness event
releases the slot whatever `recv` would return (it is not called): the slot
gets `fd = -1`, `alive = 0` and a freed buffer, no frame is handled, every other
slot keeps its entry, the shutdown state is unchanged and so are the read and
write interest of the other descriptors.  (2) When the bytes buffered for a
connection and the bytes it has sent but the server has not read make up at
least 2048 bytes without newline, and every read event offers at least one
byte, then after `2048 - buflen` read events the slot is closed, every other
slot keeps its entry and the shutdown state is unchanged. -/
theorem inbound_overflow_closes :
    (∀ (cfg : config) (readfds : Int → Bool) (recv : Nat → recv_result) (now : Int)
        (rounds : List drain_round) (i : Nat) (s : server) (c : client_t),
      s.clients[i]? = some c → c.fd ≠ -1 → readfds c.fd = true →
      c.buflen = INBUF_SIZE - 1 →
      handle_readable cfg readfds recv now rounds i s =
        outcome.running (release_slot c.fd i s) ∧
      (release_slot c.fd i s).clients[i]? =
        some { c with outbuf := none, fd := -1, alive := false } ∧
      (∀ j : Nat, j ≠ i → (release_slot c.fd i s).clients[j]? = s.clients[j]?) ∧
      same_shutdown_state s.g (release_slot c.fd i s).g ∧
      same_interest_except c.fd s.g (release_slot c.fd i s).g) ∧
    (∀ (cfg : config) (now : Int) (rounds : List drain_round) (i : Nat)
        (sizes stream : List Nat) (s : server) (c : client_t),
      s.clients[i]? = some c → c.fd ≠ -1 → 10 ∉ c.buf → 10 ∉ stream →
      c.buf.length ≤ INBUF_SIZE - 1 → INBUF_SIZE ≤ c.buf.length + stream.length →
      (∀ n ∈ sizes, 1 ≤ n) → INBUF_SIZE ≤ sizes.length + c.buf.length →
      ∃ t : server,
        read_stream cfg now rounds i sizes stream s = outcome.running t ∧
        (∃ d : client_t, t.clients[i]? = some d ∧ d.fd = -1 ∧ d.alive = false) ∧
        (∀ j : Nat, j ≠ i → t.clients[j]? = s.clients[j]?) ∧
        same_shutdown_state s.g t.g) :=
  ⟨fun cfg readfds recv now rounds i s c hc hfd hr hfull =>
      ⟨handle_readable_full cfg readfds recv now rounds i s c hc hfd hr hfull,
       release_slot_clients c.fd i s c hc⟩,
   fun cfg now rounds i sizes stream s c hc hfd hbuf hstream hlen htotal hsizes hevents =>
      read_stream_fill cfg now rounds i sizes stream s c hc hfd hbuf hstream hlen htotal
        hsizes hevents⟩

/-- C8, witness: with 2047 bytes `'a'` buffered, the next read event releases
slot 0 of `inbound_table 2047`; and a peer that sends 2048 bytes `'a'`, read one
byte at a time, is closed after 2048 read events while slot 1 keeps its entry. -/
theorem inbound_overflow_closes_witness :
    handle_readable example_cfg (fun _ => true) (fun _ => recv_result.error true) 0 [] 0
        (inbound_table 2047) =
      outcome.running (release_slot 5 0 (inbound_table 2047)) ∧
    ∃ t : server,
      read_stream example_cfg 0 [] 0 (List.replicate 2048 1) (List.replicate 2048 97)
        (inbound_table 0) = outcome.running t ∧
      (∃ d : client_t, t.clients[0]? = some d ∧ d.fd = -1 ∧ d.alive = false) ∧
      t.clients[1]? = some (busy_client 6) := by
  refine ⟨?_, ?_⟩
  · exact (inbound_overflow_closes.1 example_cfg (fun _ => true)
      (fun _ => recv_result.error true) 0 [] 0 (inbound_table 2047)
      (open_client 5 (List.replicate 2047 97)) rfl (by decide) rfl
      (List.length_replicate 2047 97)).1
  · obtain ⟨t, ht, hd, hoth, _⟩ := inbound_overflow_closes.2 example_cfg 0 [] 0
      (List.replicate 2048 1) (List.replicate 2048 97) (inbound_table 0)
      (open_client 5 (List.replicate 0 97)) rfl (by decide)
      (fun h => absurd (List.eq_of_mem_replicate h) (by decide))
      (fun h => absurd (List.eq_of_mem_replicate h) (by decide))
      (Nat.zero_le _)
      (Nat.le_trans (Nat.le_of_eq (List.length_replicate 2048 97).symm) (Nat.le_add_left _ _))
      (by intro n hn; rw [List.eq_of_mem_replicate hn])
      (Nat.le_trans (Nat.le_of_eq (List.length_replicate 2048 1).symm) (Nat.le_add_right _ _))
    exact ⟨t, ht, hd, by rw [hoth 1 (by decide)]; rfl⟩

/-! ## C9: the shutdown enqueue against the chat enqueue -/

/-- C9, the claim as stated, fails on `full_client 6`, an open connection with
`OUTBUF_SIZE` unsent bytes: the chat enqueue step given the two bytes 0x01 0x0A
releases the connection, the shutdown enqueue step leaves it open. -/
theorem shutdown_enqueue_keeps_full_connection :
    (chat_enqueue tout 2 idle_globals (full_client 6)).2.fd = -1 ∧
    (chat_enqueue tout 2 idle_globals (full_client 6)).2.alive = false ∧
    (shutdown_enqueue idle_globals (full_client 6)).2.fd = 6 ∧
    (shutdown_enqueue idle_globals (full_client 6)).2.alive = true := by
  decide

/-- C9, as amended: for an open, alive connection with a well-formed outgoing
buffer, when the two bytes fit after compaction (unsent bytes + 2 ≤
`OUTBUF_SIZE`) the shutdown enqueue and the chat enqueue given the same two
bytes both leave the connection open with the frame 0x01 0x0A appended to its
unsent bytes; when they do not fit, the chat enqueue releases the connection
while the shutdown enqueue leaves it open with its unsent bytes unchanged. -/
theorem shutdown_enqueue_vs_chat_enqueue (g : globals) (c : client_t)
    (hfd : c.fd ≠ -1) (halive : c.alive = true) (hok : out_ok c)
    (hsome : c.outbuf.isSome = true) :
    (has_room c 2 →
      (shutdown_enqueue g c).2.fd = c.fd ∧ (chat_enqueue tout 2 g c).2.fd = c.fd ∧
      pending (shutdown_enqueue g c).2 = pending c ++ [1, 10] ∧
      pending (chat_enqueue tout 2 g c).2 = pending c ++ [1, 10]) ∧
    (¬ has_room c 2 →
      (chat_enqueue tout 2 g c).2.fd = -1 ∧ (chat_enqueue tout 2 g c).2.alive = false ∧
      (shutdown_enqueue g c).2.fd = c.fd ∧ (shutdown_enqueue g c).2.alive = c.alive ∧
      pending (shutdown_enqueue g c).2 = pending c) := by
  refine ⟨fun hroom => ?_, fun hroom => ?_⟩
  · have h1 := shutdown_enqueue_fits g c hfd hok hroom
    have h2 := chat_enqueue_fits tout 2 g c hfd halive hok hroom rfl
    exact ⟨h1.1, h2.1, h1.2.2.2.2.2.2.2 hsome, h2.2.2.2.2.2.2.2 hsome⟩
  · have h1 := shutdown_enqueue_full g c hfd hok hroom
    rw [chat_enqueue_overflow tout 2 g c hfd halive hok hroom]
    exact ⟨rfl, rfl, h1.2.1, h1.2.2.1, h1.2.2.2.2.2.2.2.2⟩

/-- C9, witness: on `busy_client 7` both steps append the frame; on
`full_client 6` only the chat enqueue closes the connection. -/
theorem shutdown_enqueue_vs_chat_enqueue_witness :
    (pending (shutdown_enqueue idle_globals (busy_client 7)).2 = [66, 67] ++ [1, 10] ∧
      pending (chat_enqueue tout 2 idle_globals (busy_client 7)).2 = [66, 67] ++ [1, 10]) ∧
    ((chat_enqueue tout 2 idle_globals (full_client 6)).2.fd = -1 ∧
      (shutdown_enqueue idle_globals (full_client 6)).2.fd = 6) := by
  have h1 := (shutdown_enqueue_vs_chat_enqueue idle_globals (busy_client 7) (by decide) rfl
    ⟨by decide, by decide⟩ rfl).1 (by unfold has_room; decide)
  have h2 := (shutdown_enqueue_vs_chat_enqueue idle_globals (full_client 6) (by decide) rfl
    ⟨by decide, by decide⟩ rfl).2 (by unfold has_room; decide)
  exact ⟨⟨h1.2.2.1, h1.2.2.2⟩, ⟨h2.1, h2.2.2.1⟩⟩

/-! ## C10: the bounds of the outgoing buffer -/

theorem chat_enqueue_out_ok (out : List Nat) (len : Nat) (g : globals) (c : client_t)
    (hok : out_ok c) : out_ok (chat_enqueue out len g c).2 := by
  by_cases hal : c.fd ≠ -1 ∧ c.alive = true
  · by_cases hroom : has_room c len
    · have hcap := OUTBUF_val
      have hmod : SIZE_MOD = 18446744073709551616 := rfl
      obtain ⟨h1, h2⟩ := hok
      unfold has_room at hroom
      have hav : size_sub OUTBUF_SIZE c.out_tail = OUTBUF_SIZE - c.out_tail :=
        size_sub_eq h2 OUTBUF_lt
      have hrem : size_sub c.out_tail c.out_head = c.out_tail - c.out_head :=
        size_sub_eq h1 (by omega)
      unfold chat_enqueue
      rw [if_pos hal]
      simp only [hav, hrem]
      by_cases hc : OUTBUF_SIZE - c.out_tail < len ∧ c.out_head > 0
      · have hav1 : size_sub OUTBUF_SIZE (c.out_tail - c.out_head)
            = OUTBUF_SIZE - (c.out_tail - c.out_head) := size_sub_eq (by omega) OUTBUF_lt
        have hge : OUTBUF_SIZE - (c.out_tail - c.out_head) ≥ len := by omega
        have hadd : size_add (c.out_tail - c.out_head) len = c.out_tail - c.out_head + len :=
          size_add_eq (by omega)
        simp only [hc, and_self, decide_True, if_true, hav1, hge, hadd]
        exact ⟨Nat.zero_le _, by simp only []; omega⟩
      · have hge : OUTBUF_SIZE - c.out_tail ≥ len := by omega
        have hadd : size_add c.out_tail len = c.out_tail + len := size_add_eq (by omega)
        simp only [hc, decide_False, Bool.false_eq_true, if_false, hge, if_true, hadd]
        exact ⟨by simp only []; omega, by simp only []; omega⟩
    · rw [chat_enqueue_overflow out len g c hal.1 hal.2 hok hroom]
      unfold release
      split_ifs
      · exact ⟨Nat.zero_le _, by have := hok.1; have := hok.2; simp only []; omega⟩
      · exact hok
  · rw [chat_enqueue_skip out len g c hal]
    exact hok

theorem shutdown_enqueue_out_ok (g : globals) (c : client_t) (hok : out_ok c) :
    out_ok (shutdown_enqueue g c).2 := by
  by_cases hfd : c.fd = -1
  · rw [shutdown_enqueue_closed g c hfd]; exact hok
  · by_cases hroom : has_room c 2
    · exact (shutdown_enqueue_fits g c hfd hok hroom).2.2.2.2.2.2.1
    · exact (shutdown_enqueue_full g c hfd hok hroom).2.2.2.2.2.2.2.1

theorem mem_set_imp {α : Type} {P : α → Prop} {l : List α} {i : Nat} {a : α}
    (hl : ∀ x ∈ l, P x) (ha : P a) : ∀ x ∈ l.set i a, P x := by
  intro x hx
  rcases List.mem_or_eq_of_mem_set hx with h | h
  · exact hl x h
  · rw [h]; exact ha

theorem mem_of_getElem? {α : Type} {l : List α} {i : Nat} {a : α} (h : l[i]? = some a) :
    a ∈ l := by
  have hlt := getElem?_lt h
  rw [List.getElem?_eq_getElem hlt] at h
  cases h
  exact List.getElem_mem hlt

theorem release_slot_table_ok (fd : Int) (i : Nat) (s : server) (h : table_ok s) :
    table_ok (release_slot fd i s) := by
  unfold release_slot release
  cases hc : s.clients[i]? with
  | none => exact h
  | some c => exact mem_set_imp h (h c (mem_of_getElem? hc))

theorem compact_inbound_table_ok (i processed : Nat) (s : server) (h : table_ok s) :
    table_ok (compact_inbound i processed s) := by
  unfold compact_inbound
  cases hc : s.clients[i]? with
  | none => exact h
  | some c =>
    simp only []
    split_ifs
    · exact mem_set_imp h (h c (mem_of_getElem? hc))
    · exact h

theorem record_type1_table_ok (now : Int) (i : Nat) (c : client_t) (s : server)
    (hc : s.clients[i]? = some c) (h : table_ok s) : table_ok (record_type1 now i c s) := by
  unfold table_ok
  rw [record_type1_clients]
  split_ifs
  · exact mem_set_imp h (h c (mem_of_getElem? hc))
  · exact h

theorem broadcast_table_ok (out : List Nat) (len : Nat) (s : server) (h : table_ok s) :
    ∀ c ∈ (broadcast out len s.g s.clients).2, out_ok c := by
  intro c hc
  rw [broadcast_snd] at hc
  obtain ⟨e, he, rfl⟩ := List.mem_map.mp hc
  exact chat_enqueue_out_ok out len s.g e (h e he)

theorem process_frame_table_ok (cfg : config) (now : Int) (rounds : List drain_round)
    (i processed p : Nat) (s t : server) (h : table_ok s)
    (ht : process_frame cfg now rounds i processed p s = outcome.running t) : table_ok t := by
  unfold process_frame at ht
  cases hc : s.clients[i]? with
  | none =>
    rw [hc] at ht
    cases ht
    exact h
  | some c =>
    rw [hc] at ht
    simp only [] at ht
    split_ifs at ht
    · cases ht
      exact broadcast_table_ok _ _ s h
    · cases ht
      exact record_type1_table_ok now i c s hc h
    · cases ht; exact h
    · cases ht; exact h

theorem scan_frames_table_ok (cfg : config) (now : Int) (rounds : List drain_round) (i : Nat)
    (bs : List Nat) (p processed : Nat) (s t : server) (q : Nat) (h : table_ok s)
    (ht : scan_frames cfg now rounds i bs p processed s = (outcome.running t, q)) :
    table_ok t := by
  induction bs generalizing p processed s with
  | nil =>
    simp only [scan_frames, Prod.mk.injEq, outcome.running.injEq] at ht
    rw [← ht.1]; exact h
  | cons b rest ih =>
    unfold scan_frames at ht
    split_ifs at ht
    · cases hpf : process_frame cfg now rounds i processed p s with
      | exited st s1 =>
        rw [hpf] at ht
        simp at ht
      | running s1 =>
        rw [hpf] at ht
        exact ih _ _ _ (process_frame_table_ok cfg now rounds i processed p s s1 h hpf) ht
    · exact ih _ _ _ h ht

theorem handle_data_table_ok (cfg : config) (now : Int) (rounds : List drain_round) (i : Nat)
    (fd : Int) (c : client_t) (space : Nat) (bytes : List Nat) (s t : server)
    (hc : s.clients[i]? = some c) (h : table_ok s)
    (ht : handle_data cfg now rounds i fd c space bytes s = outcome.running t) :
    table_ok t := by
  unfold handle_data at ht
  simp only [] at ht
  have h1 : table_ok { s with clients := s.clients.set i (recv_client c (bytes.take space)) } := by
    apply mem_set_imp h
    have := h c (mem_of_getElem? hc)
    unfold recv_client
    split_ifs
    · exact this
    · exact this
  rcases hsc : scan_frames cfg now rounds i (recv_client c (bytes.take space)).buf 0 0
      { s with clients := s.clients.set i (recv_client c (bytes.take space)) } with ⟨o, q⟩
  rw [hsc] at ht
  cases o with
  | exited st s2 => simp [finish_read] at ht
  | running s2 =>
    have h2 := scan_frames_table_ok cfg now rounds i _ 0 0 _ s2 q h1 hsc
    unfold finish_read at ht
    split_ifs at ht
    · cases ht
      exact release_slot_table_ok _ _ _ (compact_inbound_table_ok _ _ _ h2)
    · cases ht
      exact compact_inbound_table_ok _ _ _ h2

theorem handle_readable_table_ok (cfg : config) (readfds : Int → Bool)
    (recv : Nat → recv_result) (now : Int) (rounds : List drain_round) (i : Nat) (s t : server)
    (h : table_ok s)
    (ht : handle_readable cfg readfds recv now rounds i s = outcome.running t) :
    table_ok t := by
  rcases handle_readable_cases cfg readfds recv now rounds i s with
    h1 | ⟨c, _, _, _, h1⟩ | ⟨c, bytes, hc, _, _, _, _, h1⟩
  · rw [h1] at ht; cases ht; exact h
  · rw [h1] at ht; cases ht; exact release_slot_table_ok _ _ _ h
  · rw [h1] at ht
    exact handle_data_table_ok cfg now rounds i c.fd c _ bytes s t hc h ht

theorem read_loop_table_ok (cfg : config) (readfds : Int → Bool)
    (recv : Nat → recv_result) (now : Int) (rounds : List drain_round) (is : List Nat)
    (s t : server) (h : table_ok s)
    (ht : read_loop cfg readfds recv now rounds is s = outcome.running t) : table_ok t := by
  induction is generalizing s with
  | nil =>
    simp only [read_loop, outcome.running.injEq] at ht
    rw [← ht]; exact h
  | cons i is ih =>
    unfold read_loop at ht
    cases hh : handle_readable cfg readfds recv now rounds i s with
    | exited st s1 => rw [hh] at ht; simp at ht
    | running s1 =>
      rw [hh] at ht
      exact ih _ (handle_readable_table_ok cfg readfds recv now rounds i s s1 h hh) ht

theorem accept_conn_table_ok (cfd : Int) (addr : sockaddr_in) (block : Option (Nat → Nat))
    (s : server) (h : table_ok s) : table_ok (accept_conn cfd addr block s) := by
  unfold accept_conn
  split
  · exact h
  · split
    · exact h
    · split
      · exact h
      · split
        · exact h
        · exact mem_set_imp h ⟨Nat.le_refl _, Nat.zero_le _⟩

theorem accept_loop_table_ok (es : List accept_event) (s : server) (h : table_ok s) :
    table_ok (accept_loop es s) := by
  induction es generalizing s with
  | nil => exact h
  | cons e es ih =>
    cases e with
    | intr => exact ih s h
    | conn cfd addr block =>
      unfold accept_loop
      split_ifs
      · exact h
      · exact ih _ (accept_conn_table_ok cfd addr block s h)

theorem flush_all_table_ok (w : Int → Bool) (send : Nat → send_result) (s : server)
    (h : table_ok s)
    (hs : ∀ (i : Nat) (c : client_t), s.clients[i]? = some c →
      (send i).s ≤ (size_sub c.out_tail c.out_head : Int)) :
    table_ok (flush_all w send s) := by
  exact (for_slots_inv (flush_slot w send) (fun _ => True)
    (fun k c => out_ok c ∧ (send k).s ≤ (size_sub c.out_tail c.out_head : Int)) out_ok
    (fun k st c _ hP => ⟨trivial, (flush_slot_client w send k st c hP.1 hP.2).1⟩)
    0 s.g s.clients trivial
    (fun j c hj => ⟨h c (mem_of_getElem? hj), by rw [Nat.zero_add]; exact hs j c hj⟩)).2

theorem iteration_table_ok (cfg : config) (e : iter_env) (s t : server) (h : table_ok s)
    (hs : sends_bounded e s) (ht : iteration cfg e s = outcome.running t) : table_ok t := by
  unfold iteration at ht
  by_cases hsel : e.sel < 0
  · rw [if_pos hsel] at ht
    split_ifs at ht
    cases ht
    exact h
  rw [if_neg hsel] at ht
  rcases grace_check_cases cfg e.now e.rounds s with ⟨hg, _⟩ | ⟨hg, _⟩
  · rw [hg] at ht
    simp only [] at ht
    by_cases h0 : e.sel = 0
    · rw [if_pos h0] at ht
      cases ht
      exact h
    rw [if_neg h0] at ht
    have hf := flush_all_table_ok (fun fd => s.g.master_write fd && e.ready_write fd) e.send s h hs
    refine read_loop_table_ok _ _ _ _ _ _ _ t ?_ ht
    split_ifs
    · exact accept_loop_table_ok _ _ hf
    · exact hf
  · rw [hg] at ht
    simp at ht

theorem init_table_ok (cfg : config) (n : Nat) : table_ok (init cfg n) := by
  intro c hc
  simp only [init] at hc
  rw [List.eq_of_mem_replicate hc]
  exact ⟨Nat.le_refl _, Nat.zero_le _⟩

theorem reachable_table_ok (cfg : config) (n : Nat) (s : server) (h : reachable cfg n s) :
    table_ok s := by
  induction h with
  | start => exact init_table_ok cfg n
  | step e s t _ hs ht ih => exact iteration_table_ok cfg e s t ih hs ht

/-- C10: in every state the event loop can reach when each `send` reports at
most the number of bytes offered, every open connection has `out_head ≤
out_tail ≤ OUTBUF_SIZE`, so the unsigned differences `out_tail - out_head` and
`OUTBUF_SIZE - out_tail` computed by the code are the mathematical ones (no
wrap-around) and the number of unsent bytes is at most `OUTBUF_SIZE`; and the
bounds are preserved by accept, by the chat enqueue and the shutdown enqueue
with their compaction, and by the flush of the main loop and of the drain
loops under the same assumption on `send`. -/
theorem out_bounds_invariant :
    (∀ (cfg : config) (n : Nat) (s : server), reachable cfg n s →
      ∀ (i : Nat) (c : client_t), s.clients[i]? = some c → c.fd ≠ -1 →
        c.out_head ≤ c.out_tail ∧ c.out_tail ≤ OUTBUF_SIZE ∧
        (size_sub c.out_tail c.out_head : Int) = (c.out_tail : Int) - (c.out_head : Int) ∧
        (size_sub OUTBUF_SIZE c.out_tail : Int) = (OUTBUF_SIZE : Int) - (c.out_tail : Int) ∧
        c.out_tail - c.out_head ≤ OUTBUF_SIZE) ∧
    (∀ (cfd : Int) (addr : sockaddr_in) (block : Option (Nat → Nat)) (s : server),
      table_ok s → table_ok (accept_conn cfd addr block s)) ∧
    (∀ (out : List Nat) (len : Nat) (g : globals) (c : client_t),
      out_ok c → out_ok (chat_enqueue out len g c).2) ∧
    (∀ (g : globals) (c : client_t), out_ok c → out_ok (shutdown_enqueue g c).2) ∧
    (∀ (w : Int → Bool) (send : Nat → send_result) (i : Nat) (g : globals) (c : client_t),
      out_ok c → (send i).s ≤ (size_sub c.out_tail c.out_head : Int) →
      out_ok (flush_slot w send i g c).2) ∧
    (∀ (w : Int → Bool) (send : Nat → send_result) (k : Nat) (st : globals × Bool)
        (c : client_t),
      out_ok c → (send k).s ≤ (size_sub c.out_tail c.out_head : Int) →
      out_ok (drain_slot w send k st c).2) := by
  refine ⟨?_, accept_conn_table_ok, chat_enqueue_out_ok, shutdown_enqueue_out_ok, ?_, ?_⟩
  · intro cfg n s hr i c hc _
    obtain ⟨h1, h2⟩ := reachable_table_ok cfg n s hr c (mem_of_getElem? hc)
    have hcap := OUTBUF_val
    have hmod : SIZE_MOD = 18446744073709551616 := rfl
    refine ⟨h1, h2, ?_, ?_, by omega⟩
    · rw [size_sub_eq h1 (by omega)]; omega
    · rw [size_sub_eq h2 OUTBUF_lt]; omega
  · intro w send i g c hok hs
    exact (flush_slot_client w send i g c hok hs).1
  · intro w send k st c hok hs
    rw [drain_slot_client w send k st st.1 c]
    exact (flush_slot_client w send k st.1 c hok hs).1

/-- C10, witness: after an iteration that accepts one connection the table is
reachable, and the accepted connection of slot 0 satisfies the bounds. -/
theorem out_bounds_invariant_witness :
    (iteration example_cfg accept_env (init example_cfg 6)).state.clients.map
        (fun c => (c.fd, c.out_head, c.out_tail)) = [(4, 0, 0), (-1, 0, 0), (-1, 0, 0), (-1, 0, 0), (-1, 0, 0), (-1, 0, 0)] ∧
    ∀ c : client_t,
      (iteration example_cfg accept_env (init example_cfg 6)).state.clients[0]? = some c →
      c.out_head ≤ c.out_tail ∧ c.out_tail ≤ OUTBUF_SIZE := by
  have hr : reachable example_cfg 6
      (iteration example_cfg accept_env (init example_cfg 6)).state :=
    reachable.step accept_env (init example_cfg 6) _ reachable.start
      (fun i c _ => Int.ofNat_nonneg _) rfl
  refine ⟨by decide, fun c hc => ?_⟩
  have hfd : c.fd ≠ -1 := by
    have h0 : (iteration example_cfg accept_env (init example_cfg 6)).state.clients[0]?.map
        (fun c => c.fd) = some 4 := by decide
    rw [hc] at h0
    simp only [Option.map_some', Option.some.injEq] at h0
    rw [h0]; decide
  have h := out_bounds_invariant.1 example_cfg 6 _ hr 0 c hc hfd
  exact ⟨h.1, h.2.1⟩

/-! ## C14: one flush of a write-ready connection -/

/-- C14: for an open connection `c` that is write-ready and has unsent bytes
(`out_head < out_tail`), one flush of the main loop does the following, `s`
being the value returned by `send`.  With `0 < s < out_tail - out_head` it
adds `s` to `out_head` and changes nothing else: `out_tail`, the buffer and
all shared variables, write interest included, stay as they are.  With
`s = out_tail - out_head` it sets `out_head` and `out_tail` to 0 and clears
the descriptor in the write-interest set.  With `s < 0` and `errno` equal to
`EAGAIN` or `EWOULDBLOCK` it changes nothing.  With `s < 0` and any other
`errno` it releases the connection: `fd = -1`, `alive = 0`, buffer freed. -/
theorem flush_cases (w : Int → Bool) (send : Nat → send_result) (i : Nat)
    (g : globals) (c : client_t)
    (hfd : c.fd ≠ -1) (hw : w c.fd = true) (hn : c.out_head < c.out_tail)
    (ht : c.out_tail < SIZE_MOD) :
    (0 < (send i).s → (send i).s < ((c.out_tail - c.out_head : Nat) : Int) →
      flush_slot w send i g c = (g, { c with out_head := c.out_head + (send i).s.toNat })) ∧
    ((send i).s = ((c.out_tail - c.out_head : Nat) : Int) →
      flush_slot w send i g c =
        ({ g with master_write := FD_CLR c.fd g.master_write },
         { c with out_head := 0, out_tail := 0 }) ∧
      (flush_slot w send i g c).1.master_write c.fd = false) ∧
    ((send i).s < 0 → (send i).again = true → flush_slot w send i g c = (g, c)) ∧
    ((send i).s < 0 → (send i).again = false →
      flush_slot w send i g c = release c.fd g c ∧
      (flush_slot w send i g c).2.fd = -1 ∧ (flush_slot w send i g c).2.alive = false ∧
      (flush_slot w send i g c).2.outbuf = none) := by
  have hmod : SIZE_MOD = 18446744073709551616 := rfl
  have hrem : size_sub c.out_tail c.out_head = c.out_tail - c.out_head :=
    size_sub_eq (Nat.le_of_lt hn) ht
  have hts : c.out_tail - c.out_head > 0 := by omega
  have hstart : flush_slot w send i g c =
      if (send i).s > 0 then
        if size_add c.out_head (send i).s.toNat = c.out_tail then
          ({ g with master_write := FD_CLR c.fd g.master_write },
           { c with out_head := 0, out_tail := 0 })
        else (g, { c with out_head := size_add c.out_head (send i).s.toNat })
      else if (send i).s < 0 ∧ (send i).again = false then release c.fd g c
      else (g, c) := by
    unfold flush_slot
    simp only [if_neg hfd, hw, hrem, hts, if_true]
  refine ⟨?_, ?_, ?_, ?_⟩
  · intro h1 h2
    have hadd : size_add c.out_head (send i).s.toNat = c.out_head + (send i).s.toNat :=
      size_add_eq (by omega)
    have hne : ¬ c.out_head + (send i).s.toNat = c.out_tail := by omega
    rw [hstart, if_pos h1, hadd, if_neg hne]
  · intro h1
    have hpos : (send i).s > 0 := by omega
    have hadd : size_add c.out_head (send i).s.toNat = c.out_head + (send i).s.toNat :=
      size_add_eq (by omega)
    have heq : c.out_head + (send i).s.toNat = c.out_tail := by omega
    rw [hstart, if_pos hpos, hadd, if_pos heq]
    exact ⟨rfl, by simp [FD_CLR]⟩
  · intro h1 h2
    rw [hstart, if_neg (by omega), if_neg (by simp [h2])]
  · intro h1 h2
    rw [hstart, if_neg (by omega), if_pos ⟨h1, h2⟩]
    exact ⟨rfl, rfl, rfl, rfl⟩

/-- C14, witness: `busy_client 7` has two unsent bytes at offsets 1 and 2; a
`send` of one byte moves `out_head` to 2, a `send` of both bytes empties the
buffer, a would-block result changes nothing and another error releases the
connection. -/
theorem flush_cases_witness :
    (flush_slot (fun _ => true) (fun _ => ⟨1, false⟩) 0 idle_globals (busy_client 7)).2.out_head
      = 1 + 1 ∧
    (flush_slot (fun _ => true) (fun _ => ⟨2, false⟩) 0 idle_globals (busy_client 7)).2.out_tail
      = 0 ∧
    (flush_slot (fun _ => true) (fun _ => ⟨-1, true⟩) 0 idle_globals (busy_client 7)).2.out_head
      = 1 ∧
    (flush_slot (fun _ => true) (fun _ => ⟨-1, false⟩) 0 idle_globals (busy_client 7)).2.fd
      = -1 := by
  have h1 := (flush_cases (fun _ => true) (fun _ => ⟨1, false⟩) 0 idle_globals (busy_client 7)
    (by decide) rfl (by decide) (by decide)).1 (by decide) (by decide)
  have h2 := ((flush_cases (fun _ => true) (fun _ => ⟨2, false⟩) 0 idle_globals (busy_client 7)
    (by decide) rfl (by decide) (by decide)).2.1 (by decide)).1
  have h3 := (flush_cases (fun _ => true) (fun _ => ⟨-1, true⟩) 0 idle_globals (busy_client 7)
    (by decide) rfl (by decide) (by decide)).2.2.1 (by decide) rfl
  have h4 := ((flush_cases (fun _ => true) (fun _ => ⟨-1, false⟩) 0 idle_globals
    (busy_client 7) (by decide) rfl (by decide) (by decide)).2.2.2 (by decide) rfl).2.1
  rw [h1, h2, h3]
  exact ⟨rfl, rfl, rfl, h4⟩

/-! ## C13: the frames handled by one read -/

theorem split_frames_join (bs cur : List Nat) :
    (split_frames bs cur).1.flatten ++ (split_frames bs cur).2 = cur ++ bs := by
  induction bs generalizing cur with
  | nil => simp [split_frames]
  | cons b bs ih =>
    unfold split_frames
    split_ifs with hb
    · simp only [List.flatten_cons, List.append_assoc]
      rw [ih []]
      simp
    · rw [ih (cur ++ [b])]
      simp

theorem split_frames_rest (bs cur : List Nat) (hcur : 10 ∉ cur) :
    10 ∉ (split_frames bs cur).2 := by
  induction bs generalizing cur with
  | nil => simpa [split_frames] using hcur
  | cons b bs ih =>
    unfold split_frames
    split_ifs with hb
    · exact ih [] (by simp)
    · exact ih (cur ++ [b]) (by
        intro h
        rcases List.mem_append.mp h with h | h
        · exact hcur h
        · simp at h
          exact hb h.symm)

theorem split_frames_frames (bs cur : List Nat) (hcur : 10 ∉ cur) :
    ∀ f ∈ (split_frames bs cur).1, ∃ body : List Nat, f = body ++ [10] ∧ 10 ∉ body := by
  induction bs generalizing cur with
  | nil => simp [split_frames]
  | cons b bs ih =>
    unfold split_frames
    split_ifs with hb
    · intro f hf
      rcases List.mem_cons.mp hf with e | e
      · exact ⟨cur, by rw [e, hb], hcur⟩
      · exact ih [] (by simp) f e
    · exact ih (cur ++ [b]) (by
        intro h
        rcases List.mem_append.mp h with h | h
        · exact hcur h
        · simp at h
          exact hb h.symm)

theorem split_frames_no_newline (bs cur : List Nat) (h : 10 ∉ bs) :
    split_frames bs cur = ([], cur ++ bs) := by
  induction bs generalizing cur with
  | nil => simp [split_frames]
  | cons b bs ih =>
    have hb : b ≠ 10 := fun e => h (by simp [e])
    have hr : 10 ∉ bs := fun e => h (by simp [e])
    unfold split_frames
    rw [if_neg hb, ih (cur ++ [b]) hr]
    simp

/-- The scan of the source and the frame-by-frame description agree. -/
theorem scan_frames_eq_run_frames (cfg : config) (now : Int) (rounds : List drain_round)
    (i : Nat) (bs cur : List Nat) (p processed : Nat) (s : server)
    (hp : p = processed + cur.length) :
    scan_frames cfg now rounds i bs p processed s =
      run_frames cfg now rounds i (split_frames bs cur).1 processed s := by
  induction bs generalizing cur p processed s with
  | nil => simp [scan_frames, split_frames, run_frames]
  | cons b bs ih =>
    unfold scan_frames split_frames
    split_ifs with hb
    · have hnext : processed + (cur ++ [b]).length = p + 1 := by
        simp only [List.length_append, List.length_singleton]; omega
      simp only [run_frames, hnext, Nat.add_sub_cancel]
      cases hpf : process_frame cfg now rounds i processed p s with
      | exited st t => rfl
      | running t =>
        simp only []
        exact ih [] (p + 1) (p + 1) t (by simp)
    · exact ih (cur ++ [b]) (p + 1) processed s (by
        simp only [List.length_append, List.length_singleton]; omega)

theorem run_frames_offset (cfg : config) (now : Int) (rounds : List drain_round) (i : Nat)
    (fs : List (List Nat)) (off : Nat) (s t : server) (q : Nat)
    (h : run_frames cfg now rounds i fs off s = (outcome.running t, q)) :
    q = off + fs.flatten.length := by
  induction fs generalizing off s with
  | nil =>
    simp only [run_frames, Prod.mk.injEq] at h
    simp [h.2]
  | cons f fs ih =>
    unfold run_frames at h
    cases hpf : process_frame cfg now rounds i off (off + f.length - 1) s with
    | exited st t1 => rw [hpf] at h; simp at h
    | running t1 =>
      rw [hpf] at h
      simp only [] at h
      rw [ih _ _ h]
      simp only [List.flatten_cons, List.length_append]
      omega

theorem bufs_kept_refl (s : server) : bufs_kept s s := ⟨rfl, fun _ c h => ⟨c, h, rfl⟩⟩

theorem bufs_kept_trans {s t u : server} (h1 : bufs_kept s t) (h2 : bufs_kept t u) :
    bufs_kept s u := by
  refine ⟨h2.1.trans h1.1, ?_⟩
  intro j c hc
  obtain ⟨d, hd, hdb⟩ := h1.2 j c hc
  obtain ⟨e, he, heb⟩ := h2.2 j d hd
  exact ⟨e, he, heb.trans hdb⟩

theorem chat_enqueue_buf (out : List Nat) (len : Nat) (g : globals) (c : client_t) :
    (chat_enqueue out len g c).2.buf = c.buf := by
  unfold chat_enqueue release
  simp only []
  split_ifs <;> rfl

theorem record_type1_bufs_kept (now : Int) (i : Nat) (c : client_t) (s : server)
    (hc : s.clients[i]? = some c) : bufs_kept s (record_type1 now i c s) := by
  refine ⟨by rw [record_type1_clients]; split_ifs <;> simp, ?_⟩
  intro j d hd
  have hlt := getElem?_lt hc
  rw [record_type1_clients]
  split_ifs
  · by_cases hij : i = j
    · subst hij
      rw [hc] at hd
      cases hd
      exact ⟨{ c with got_type1 := true }, by simp [hlt], rfl⟩
    · exact ⟨d, by simp [List.getElem?_set_ne hij, hd], rfl⟩
  · exact ⟨d, hd, rfl⟩

theorem process_frame_bufs_kept (cfg : config) (now : Int) (rounds : List drain_round)
    (i processed p : Nat) (s t : server)
    (ht : process_frame cfg now rounds i processed p s = outcome.running t) :
    bufs_kept s t := by
  unfold process_frame at ht
  cases hc : s.clients[i]? with
  | none =>
    rw [hc] at ht
    cases ht
    exact bufs_kept_refl s
  | some c =>
    rw [hc] at ht
    simp only [] at ht
    split_ifs at ht
    · cases ht
      refine ⟨by simp [broadcast_snd], ?_⟩
      intro j d hd
      exact ⟨(chat_enqueue (chat_envelope cfg.MAX_MSG_SIZE c processed p)
          (out_len cfg.MAX_MSG_SIZE processed p) s.g d).2,
        by simp only [broadcast_snd, List.getElem?_map, hd, Option.map_some'],
        chat_enqueue_buf _ _ _ _⟩
    · cases ht
      exact record_type1_bufs_kept now i c s hc
    · cases ht; exact bufs_kept_refl s
    · cases ht; exact bufs_kept_refl s

theorem run_frames_bufs_kept (cfg : config) (now : Int) (rounds : List drain_round) (i : Nat)
    (fs : List (List Nat)) (off : Nat) (s t : server) (q : Nat)
    (h : run_frames cfg now rounds i fs off s = (outcome.running t, q)) : bufs_kept s t := by
  induction fs generalizing off s with
  | nil =>
    simp only [run_frames, Prod.mk.injEq, outcome.running.injEq] at h
    rw [← h.1]
    exact bufs_kept_refl s
  | cons f fs ih =>
    unfold run_frames at h
    cases hpf : process_frame cfg now rounds i off (off + f.length - 1) s with
    | exited st t1 => rw [hpf] at h; simp at h
    | running t1 =>
      rw [hpf] at h
      exact bufs_kept_trans (process_frame_bufs_kept cfg now rounds i _ _ s t1 hpf) (ih _ _ h)

theorem recv_client_buf (c : client_t) (got : List Nat) :
    (recv_client c got).buf = c.buf ++ got := by
  unfold recv_client
  split_ifs with h
  · rw [List.length_eq_zero.mp h, List.append_nil]
  · rfl

theorem handle_data_eq_run_frames (cfg : config) (now : Int) (rounds : List drain_round)
    (i : Nat) (fd : Int) (c : client_t) (space : Nat) (bytes : List Nat) (s : server) :
    handle_data cfg now rounds i fd c space bytes s =
      finish_read i fd (decide ((bytes.take space).length = 0))
        (run_frames cfg now rounds i (split_frames (c.buf ++ bytes.take space) []).1 0
          { s with clients := (s.clients.set i (recv_client c (bytes.take space))) }) := by
  unfold handle_data
  simp only []
  rw [scan_frames_eq_run_frames cfg now rounds i _ [] 0 0 _ rfl, recv_client_buf]

/-- After a read that did not make `main` return, the inbound buffer of the
slot holds the bytes that follow the last newline. -/
theorem handle_data_residual (cfg : config) (now : Int) (rounds : List drain_round)
    (i : Nat) (fd : Int) (c : client_t) (space : Nat) (bytes : List Nat) (s t : server)
    (hc : s.clients[i]? = some c)
    (ht : handle_data cfg now rounds i fd c space bytes s = outcome.running t) :
    ∃ d : client_t, t.clients[i]? = some d ∧
      d.buf = (split_frames (c.buf ++ bytes.take space) []).2 := by
  have hlt := getElem?_lt hc
  rw [handle_data_eq_run_frames] at ht
  have hjoin : (split_frames (c.buf ++ bytes.take space) []).1.flatten
      ++ (split_frames (c.buf ++ bytes.take space) []).2 = c.buf ++ bytes.take space := by
    simpa using split_frames_join (c.buf ++ bytes.take space) []
  rcases hrun : run_frames cfg now rounds i (split_frames (c.buf ++ bytes.take space) []).1 0
      { s with clients := (s.clients.set i (recv_client c (bytes.take space))) } with ⟨o, q⟩
  rw [hrun] at ht
  cases o with
  | exited st s2 => simp [finish_read] at ht
  | running s2 =>
    have hq := run_frames_offset cfg now rounds i _ 0 _ s2 q hrun
    obtain ⟨d2, hd2, hbuf2⟩ := (run_frames_bufs_kept cfg now rounds i _ 0 _ s2 q hrun).2 i
      (recv_client c (bytes.take space)) (by simp [hlt])
    rw [recv_client_buf] at hbuf2
    have hlt2 := getElem?_lt hd2
    have hcomp : ∃ d : client_t, (compact_inbound i q s2).clients[i]? = some d ∧
        d.buf = (split_frames (c.buf ++ bytes.take space) []).2 := by
      unfold compact_inbound
      simp only [hd2]
      split_ifs with hpos
      · refine ⟨{ d2 with buf := d2.buf.drop q }, by simp [hlt2], ?_⟩
        show d2.buf.drop q = _
        rw [hbuf2, hq, Nat.zero_add]
        have hdrop := congrArg
          (List.drop (split_frames (c.buf ++ bytes.take space) []).1.flatten.length) hjoin
        rw [List.drop_left] at hdrop
        exact hdrop.symm
      · refine ⟨d2, hd2, ?_⟩
        have hz : (split_frames (c.buf ++ bytes.take space) []).1.flatten = [] := by
          apply List.length_eq_zero.mp
          omega
        rw [hbuf2]
        rw [hz] at hjoin
        simpa using hjoin.symm
    unfold finish_read at ht
    split_ifs at ht
    · cases ht
      obtain ⟨d, hd, hdb⟩ := hcomp
      exact ⟨_, (release_slot_clients fd i _ d hd).1, hdb⟩
    · cases ht
      exact hcomp

theorem run_frames_exit (cfg : config) (now : Int) (rounds : List drain_round) (i : Nat)
    (pre : List (List Nat)) (f : List Nat) (post : List (List Nat)) (off : Nat) (s s1 : server)
    (off1 : Nat) (st : Int) (t : server)
    (hpre : run_frames cfg now rounds i pre off s = (outcome.running s1, off1))
    (hf : process_frame cfg now rounds i off1 (off1 + f.length - 1) s1 = outcome.exited st t) :
    run_frames cfg now rounds i (pre ++ f :: post) off s = (outcome.exited st t, off1) := by
  induction pre generalizing off s with
  | nil =>
    simp only [run_frames, Prod.mk.injEq, outcome.running.injEq] at hpre
    obtain ⟨h1, h2⟩ := hpre
    subst h1
    subst h2
    simp only [List.nil_append, run_frames, hf]
  | cons g pre ih =>
    unfold run_frames at hpre
    cases hpf : process_frame cfg now rounds i off (off + g.length - 1) s with
    | exited st1 t1 =>
      rw [hpf] at hpre
      simp at hpre
    | running t1 =>
      rw [hpf] at hpre
      simp only [List.cons_append, run_frames, hpf]
      exact ih _ _ hpre

/-- C13, the claim as stated, fails on `pair_table` with one expected client:
a read of the bytes `1, "\n", 0, "x", "\n", "y"` into the empty buffer of
slot 0 holds the two frames `1, "\n"` and `0, "x", "\n"`, but the done signal
of the first frame reaches the quorum and `main` returns 0.  The second frame
is never handled (the outgoing buffers hold the shutdown frame and no
envelope) and the inbound buffer still holds all six bytes instead of the
trailing `"y"`. -/
theorem read_stops_at_quorum :
    split_frames ([] ++ [1, 10, 0, 120, 10, 121]) [] = ([[1, 10], [0, 120, 10]], [121]) ∧
    ∃ t : server,
      handle_data solo_cfg 1000 [] 0 5 (open_client 5 []) 2047 [1, 10, 0, 120, 10, 121]
        pair_table = outcome.exited 0 t ∧
      t.clients.map (fun c => c.buf) = [[1, 10, 0, 120, 10, 121], []] ∧
      t.clients.map (fun c => pending c) = [[1, 10], [1, 10]] :=
  ⟨by decide,
   (handle_data solo_cfg 1000 [] 0 5 (open_client 5 []) 2047 [1, 10, 0, 120, 10, 121]
      pair_table).state,
   rfl, by decide, by decide⟩

/-- C13, as amended: for slot `i` with residual `c.buf` and the bytes
`bytes.take space` stored by `recv`, read handling is the frame-by-frame
handling, in order, of the frames into which the newlines cut `c.buf ++
bytes.take space`, up to and including the first frame whose handling makes
`main` return (a done signal that completes the quorum) and of all of them
when there is none, followed in that case by compaction and, when the peer
closed, release.  The frames followed by the trailing bytes are the buffer;
each frame is a run of bytes without newline followed by one newline; the
trailing bytes contain no newline.  When `main` has not returned, the inbound
buffer of the slot then holds exactly the trailing bytes; when the buffer has
no newline there is no frame and the trailing bytes are the whole buffer; and
when the frames before some frame are handled without `main` returning and
that frame makes `main` return, read handling ends there with the result of
that frame. -/
theorem read_handling_frames (cfg : config) (now : Int) (rounds : List drain_round)
    (i : Nat) (fd : Int) (c : client_t) (space : Nat) (bytes : List Nat) (s : server)
    (hc : s.clients[i]? = some c) :
    handle_data cfg now rounds i fd c space bytes s =
      finish_read i fd (decide ((bytes.take space).length = 0))
        (run_frames cfg now rounds i (split_frames (c.buf ++ bytes.take space) []).1 0
          { s with clients := (s.clients.set i (recv_client c (bytes.take space))) }) ∧
    (recv_client c (bytes.take space)).buf = c.buf ++ bytes.take space ∧
    (split_frames (c.buf ++ bytes.take space) []).1.flatten
        ++ (split_frames (c.buf ++ bytes.take space) []).2 = c.buf ++ bytes.take space ∧
    (∀ f ∈ (split_frames (c.buf ++ bytes.take space) []).1,
      ∃ body : List Nat, f = body ++ [10] ∧ 10 ∉ body) ∧
    10 ∉ (split_frames (c.buf ++ bytes.take space) []).2 ∧
    (∀ t : server, handle_data cfg now rounds i fd c space bytes s = outcome.running t →
      ∃ d : client_t, t.clients[i]? = some d ∧
        d.buf = (split_frames (c.buf ++ bytes.take space) []).2) ∧
    (10 ∉ c.buf ++ bytes.take space →
      split_frames (c.buf ++ bytes.take space) [] = ([], c.buf ++ bytes.take space)) ∧
    (∀ (pre : List (List Nat)) (f : List Nat) (post : List (List Nat)) (s1 : server)
        (off : Nat) (st : Int) (t : server),
      (split_frames (c.buf ++ bytes.take space) []).1 = pre ++ f :: post →
      run_frames cfg now rounds i pre 0
          { s with clients := (s.clients.set i (recv_client c (bytes.take space))) } =
        (outcome.running s1, off) →
      process_frame cfg now rounds i off (off + f.length - 1) s1 = outcome.exited st t →
      handle_data cfg now rounds i fd c space bytes s = outcome.exited st t) :=
  ⟨handle_data_eq_run_frames cfg now rounds i fd c space bytes s,
   recv_client_buf c _,
   by simpa using split_frames_join (c.buf ++ bytes.take space) [],
   split_frames_frames _ [] (by simp),
   split_frames_rest _ [] (by simp),
   fun t ht => handle_data_residual cfg now rounds i fd c space bytes s t hc ht,
   fun h => by simpa using split_frames_no_newline (c.buf ++ bytes.take space) [] h,
   fun pre f post s1 off st t hsplit hpre hf => by
     rw [handle_data_eq_run_frames, hsplit,
       run_frames_exit cfg now rounds i pre f post 0 _ s1 off st t hpre hf]
     rfl⟩

/-- C13 as amended, witness: with two expected clients, slot 0 of
`residual_table` holds the residual `"hi"`; a read
of the bytes `"\n", 0, "x", "\n", "y"` makes the frames `"hi\n"` and
`0, "x", "\n"`, and leaves `"y"` in the inbound buffer. -/
theorem read_handling_frames_witness :
    split_frames ([104, 105] ++ [10, 0, 120, 10, 121]) [] =
      ([[104, 105, 10], [0, 120, 10]], [121]) ∧
    ∃ d : client_t,
      (handle_data example_cfg 0 [] 0 5 (open_client 5 [104, 105]) 2045
        [10, 0, 120, 10, 121] residual_table).state.clients[0]? = some d ∧
      d.buf = [121] := by
  refine ⟨by decide, ?_⟩
  obtain ⟨d, hd, hb⟩ := (read_handling_frames example_cfg 0 [] 0 5 (open_client 5 [104, 105])
    2045 [10, 0, 120, 10, 121] residual_table rfl).2.2.2.2.2.1 _ rfl
  exact ⟨d, hd, hb.trans (by decide)⟩
/-! ## Properties of a slot kept by the event loop -/

theorem init_eq_free (cfg : config) (n : Nat) :
    (init cfg n).clients = List.replicate n free_slot := rfl

theorem chat_enqueue_inv {P : client_t → Prop} (hP : client_inv P) (out : List Nat)
    (len : Nat) (g : globals) (c : client_t) (h : P c) : P (chat_enqueue out len g c).2 := by
  unfold chat_enqueue release
  simp only []
  split_ifs <;>
    first
    | exact h
    | exact hP.out _ _ _ _ h
    | exact hP.rel _ h
    | exact hP.out _ _ _ _ (hP.out _ _ _ _ h)
    | exact hP.rel _ (hP.out _ _ _ _ h)

theorem flush_slot_inv {P : client_t → Prop} (hP : client_inv P) (w : Int → Bool)
    (send : Nat → send_result) (i : Nat) (g : globals) (c : client_t) (h : P c) :
    P (flush_slot w send i g c).2 := by
  unfold flush_slot release
  simp only []
  split_ifs <;>
    first
    | exact h
    | exact hP.out _ _ _ _ h
    | exact hP.rel _ h

theorem broadcast_inv {P : client_t → Prop} (hP : client_inv P) (out : List Nat) (len : Nat)
    (s : server) (h : table_all P s) : ∀ c ∈ (broadcast out len s.g s.clients).2, P c := by
  intro c hc
  rw [broadcast_snd] at hc
  obtain ⟨e, he, rfl⟩ := List.mem_map.mp hc
  exact chat_enqueue_inv hP out len s.g e (h e he)

theorem release_slot_inv {P : client_t → Prop} (hP : client_inv P) (fd : Int) (i : Nat)
    (s : server) (h : table_all P s) : table_all P (release_slot fd i s) := by
  unfold release_slot release
  cases hc : s.clients[i]? with
  | none => exact h
  | some c => exact mem_set_imp h (hP.rel c (h c (mem_of_getElem? hc)))

theorem compact_inbound_inv {P : client_t → Prop} (hP : client_inv P) (i processed : Nat)
    (s : server) (h : table_all P s) : table_all P (compact_inbound i processed s) := by
  unfold compact_inbound
  cases hc : s.clients[i]? with
  | none => exact h
  | some c =>
    simp only []
    split_ifs
    · exact mem_set_imp h (hP.cut c processed (h c (mem_of_getElem? hc)))
    · exact h

theorem record_type1_inv {P : client_t → Prop} (hP : client_inv P) (now : Int) (i : Nat)
    (c : client_t) (s : server) (hc : s.clients[i]? = some c) (h : table_all P s) :
    table_all P (record_type1 now i c s) := by
  unfold table_all
  rw [record_type1_clients]
  split_ifs
  · exact mem_set_imp h (hP.got c (h c (mem_of_getElem? hc)))
  · exact h

theorem process_frame_inv {P : client_t → Prop} (hP : client_inv P) (cfg : config)
    (now : Int) (rounds : List drain_round) (i processed p : Nat) (s t : server)
    (h : table_all P s)
    (ht : process_frame cfg now rounds i processed p s = outcome.running t) :
    table_all P t := by
  unfold process_frame at ht
  cases hc : s.clients[i]? with
  | none =>
    rw [hc] at ht
    cases ht
    exact h
  | some c =>
    rw [hc] at ht
    simp only [] at ht
    split_ifs at ht
    · cases ht
      exact broadcast_inv hP _ _ s h
    · cases ht
      exact record_type1_inv hP now i c s hc h
    · cases ht; exact h
    · cases ht; exact h

theorem scan_frames_inv {P : client_t → Prop} (hP : client_inv P) (cfg : config) (now : Int)
    (rounds : List drain_round) (i : Nat) (bs : List Nat) (p processed : Nat) (s t : server)
    (q : Nat) (h : table_all P s)
    (ht : scan_frames cfg now rounds i bs p processed s = (outcome.running t, q)) :
    table_all P t := by
  induction bs generalizing p processed s with
  | nil =>
    simp only [scan_frames, Prod.mk.injEq, outcome.running.injEq] at ht
    rw [← ht.1]; exact h
  | cons b rest ih =>
    unfold scan_frames at ht
    split_ifs at ht
    · cases hpf : process_frame cfg now rounds i processed p s with
      | exited st s1 =>
        rw [hpf] at ht
        simp at ht
      | running s1 =>
        rw [hpf] at ht
        exact ih _ _ _ (process_frame_inv hP cfg now rounds i processed p s s1 h hpf) ht
    · exact ih _ _ _ h ht

theorem handle_data_inv {P : client_t → Prop} (hP : client_inv P) (hR : recv_inv P)
    (cfg : config) : data_inv cfg P := by
  intro now rounds i c bytes s t hc hfd hsp h ht
  unfold handle_data at ht
  simp only [] at ht
  have h1 : table_all P
      { s with clients := (s.clients.set i (recv_client c (bytes.take (inbound_space c)))) } := by
    apply mem_set_imp h
    have hPc := h c (mem_of_getElem? hc)
    unfold recv_client
    split_ifs
    · exact hPc
    · exact hR c _ hPc hfd hsp (by simp only [List.length_take]; omega)
  rcases hsc : scan_frames cfg now rounds i
      (recv_client c (bytes.take (inbound_space c))).buf 0 0
      { s with clients := (s.clients.set i (recv_client c (bytes.take (inbound_space c)))) }
    with ⟨o, q⟩
  rw [hsc] at ht
  cases o with
  | exited st s2 => simp [finish_read] at ht
  | running s2 =>
    have h2 := scan_frames_inv hP cfg now rounds i _ 0 0 _ s2 q h1 hsc
    unfold finish_read at ht
    split_ifs at ht
    · cases ht
      exact release_slot_inv hP _ _ _ (compact_inbound_inv hP _ _ _ h2)
    · cases ht
      exact compact_inbound_inv hP _ _ _ h2

theorem handle_readable_inv {P : client_t → Prop} (hP : client_inv P) (cfg : config)
    (hD : data_inv cfg P)
    (readfds : Int → Bool) (recv : Nat → recv_result) (now : Int) (rounds : List drain_round)
    (i : Nat) (s t : server) (h : table_all P s)
    (ht : handle_readable cfg readfds recv now rounds i s = outcome.running t) :
    table_all P t := by
  rcases handle_readable_cases cfg readfds recv now rounds i s with
    h1 | ⟨c, _, _, _, h1⟩ | ⟨c, bytes, hc, hfd, _, hsp, _, h1⟩
  · rw [h1] at ht; cases ht; exact h
  · rw [h1] at ht; cases ht; exact release_slot_inv hP _ _ _ h
  · rw [h1] at ht
    exact hD now rounds i c bytes s t hc hfd hsp h ht

theorem read_loop_inv {P : client_t → Prop} (hP : client_inv P) (cfg : config)
    (hD : data_inv cfg P)
    (readfds : Int → Bool) (recv : Nat → recv_result) (now : Int) (rounds : List drain_round)
    (is : List Nat) (s t : server) (h : table_all P s)
    (ht : read_loop cfg readfds recv now rounds is s = outcome.running t) : table_all P t := by
  induction is generalizing s with
  | nil =>
    simp only [read_loop, outcome.running.injEq] at ht
    rw [← ht]; exact h
  | cons i is ih =>
    unfold read_loop at ht
    cases hh : handle_readable cfg readfds recv now rounds i s with
    | exited st s1 => rw [hh] at ht; simp at ht
    | running s1 =>
      rw [hh] at ht
      exact ih _ (handle_readable_inv hP cfg hD readfds recv now rounds i s s1 h hh) ht

theorem accept_conn_inv {P : client_t → Prop} (hP : client_inv P) (cfd : Int)
    (addr : sockaddr_in) (block : Option (Nat → Nat)) (s : server) (hcfd : 0 ≤ cfd)
    (h : table_all P s) : table_all P (accept_conn cfd addr block s) := by
  unfold accept_conn
  split
  · exact h
  · split
    · exact h
    · split
      · exact h
      · split
        · exact h
        · exact mem_set_imp h (hP.acc _ _ _ hcfd)

theorem accept_loop_inv {P : client_t → Prop} (hP : client_inv P) (es : List accept_event)
    (s : server) (h : table_all P s) : table_all P (accept_loop es s) := by
  induction es generalizing s with
  | nil => exact h
  | cons e es ih =>
    cases e with
    | intr => exact ih s h
    | conn cfd addr block =>
      unfold accept_loop
      split_ifs with hneg
      · exact h
      · exact ih _ (accept_conn_inv hP cfd addr block s (by omega) h)

theorem flush_all_inv {P : client_t → Prop} (hP : client_inv P) (w : Int → Bool)
    (send : Nat → send_result) (s : server) (h : table_all P s) :
    table_all P (flush_all w send s) :=
  (for_slots_inv (flush_slot w send) (fun _ => True) (fun _ c => P c) P
    (fun k st c _ hc => ⟨trivial, flush_slot_inv hP w send k st c hc⟩)
    0 s.g s.clients trivial (fun _ c hj => h c (mem_of_getElem? hj))).2

theorem iteration_inv {P : client_t → Prop} (hP : client_inv P) (cfg : config)
    (hD : data_inv cfg P) (e : iter_env)
    (s t : server) (h : table_all P s) (ht : iteration cfg e s = outcome.running t) :
    table_all P t := by
  unfold iteration at ht
  by_cases hsel : e.sel < 0
  · rw [if_pos hsel] at ht
    split_ifs at ht
    cases ht
    exact h
  rw [if_neg hsel] at ht
  rcases grace_check_cases cfg e.now e.rounds s with ⟨hg, _⟩ | ⟨hg, _⟩
  · rw [hg] at ht
    simp only [] at ht
    by_cases h0 : e.sel = 0
    · rw [if_pos h0] at ht
      cases ht
      exact h
    rw [if_neg h0] at ht
    have hf := flush_all_inv hP (fun fd => s.g.master_write fd && e.ready_write fd) e.send s h
    refine read_loop_inv hP cfg hD _ _ _ _ _ _ t ?_ ht
    split_ifs
    · exact accept_loop_inv hP _ _ hf
    · exact hf
  · rw [hg] at ht
    simp at ht

theorem reachable_inv {P : client_t → Prop} (hP : client_inv P) (cfg : config)
    (hD : data_inv cfg P) (n : Nat) (s : server) (h : reachable cfg n s) : table_all P s := by
  induction h with
  | start =>
    intro c hc
    rw [init_eq_free] at hc
    rw [List.eq_of_mem_replicate hc]
    exact hP.start
  | step e s t _ _ ht ih => exact iteration_inv hP cfg hD e s t ih ht

/-! ## Bound of the inbound cursor -/

theorem two_step_reachable : reachable example_cfg 6 two_step_state :=
  reachable.step read_env _ _
    (reachable.step accept_env (init example_cfg 6) _ reachable.start
      (fun _ _ _ => Int.ofNat_nonneg _) rfl)
    (fun _ _ _ => Int.ofNat_nonneg _) rfl

theorem inbuf_bound_inv : client_inv (fun c => c.buf.length ≤ INBUF_SIZE - 1) where
  start := Nat.zero_le _
  out := fun _ _ _ _ h => h
  rel := fun _ h => h
  got := fun _ h => h
  cut := fun c n h => by
    show (c.buf.drop n).length ≤ INBUF_SIZE - 1
    rw [List.length_drop]
    omega
  acc := fun _ _ _ _ => Nat.zero_le _

theorem inbuf_bound_recv : recv_inv (fun c => c.buf.length ≤ INBUF_SIZE - 1) := by
  intro c bytes h _ _ hb
  show (c.buf ++ bytes).length ≤ INBUF_SIZE - 1
  rw [inbound_space_eq c h] at hb
  rw [List.length_append]
  omega

/-- C11: in every state the event loop can reach, the cursor `buflen` of every
slot is at most `INBUF_SIZE - 1 = 2047`; hence the unsigned computation
`space = sizeof(buf) - buflen - 1` is the mathematical one (no wrap-around),
a `recv` of at most `space` bytes at offset `buflen` ends inside the buffer,
and after it the cursor, which is the index of the terminator byte, is still
smaller than `INBUF_SIZE`. -/
theorem inbound_cursor_bounded (cfg : config) (n : Nat) (s : server)
    (hr : reachable cfg n s) (c : client_t) (hc : c ∈ s.clients) :
    c.buflen ≤ INBUF_SIZE - 1 ∧ INBUF_SIZE - 1 = 2047 ∧
    (inbound_space c : Int) = (INBUF_SIZE : Int) - (c.buflen : Int) - 1 ∧
    c.buflen + inbound_space c < INBUF_SIZE ∧
    ∀ bytes : List Nat, (bytes.take (inbound_space c)).length ≤ inbound_space c ∧
      (recv_client c (bytes.take (inbound_space c))).buflen < INBUF_SIZE := by
  have h : c.buf.length ≤ INBUF_SIZE - 1 :=
    reachable_inv inbuf_bound_inv cfg (handle_data_inv inbuf_bound_inv inbuf_bound_recv cfg)
      n s hr c hc
  have hsp := inbound_space_eq c h
  have hin : INBUF_SIZE = 2048 := rfl
  refine ⟨h, rfl, ?_, ?_, ?_⟩
  · rw [hsp]
    unfold client_t.buflen
    omega
  · unfold client_t.buflen
    omega
  · intro bytes
    have hlen : (bytes.take (inbound_space c)).length ≤ inbound_space c := by
      rw [List.length_take]
      omega
    refine ⟨hlen, ?_⟩
    unfold client_t.buflen
    rw [recv_client_buf, List.length_append]
    omega

/-- C11, witness: the state after an accept and a read of two bytes is
reachable; its slot 0 holds the two bytes, and its cursor is at most 2047. -/
theorem inbound_cursor_bounded_witness :
    two_step_state.clients.map (fun c => (c.fd, c.buf)) =
      [(4, [104, 105]), (-1, []), (-1, []), (-1, []), (-1, []), (-1, [])] ∧
    ∀ c : client_t, two_step_state.clients[0]? = some c →
      c.buflen ≤ INBUF_SIZE - 1 ∧ (inbound_space c : Int) = (INBUF_SIZE : Int) - (c.buflen : Int) - 1 :=
  ⟨by decide, fun c hc =>
    ⟨(inbound_cursor_bounded example_cfg 6 two_step_state two_step_reachable c
        (mem_of_getElem? hc)).1,
     (inbound_cursor_bounded example_cfg 6 two_step_state two_step_reachable c
        (mem_of_getElem? hc)).2.2.1⟩⟩

/-! ## The flag `alive` and the descriptor of a slot -/

theorem alive_open_inv : client_inv (fun c => c.alive = true ↔ c.fd ≠ -1) where
  start := by simp [free_slot]
  out := fun _ _ _ _ h => h
  rel := fun _ _ => by simp
  got := fun _ h => h
  cut := fun _ _ h => h
  acc := fun _ cfd _ h => by
    have hne : cfd ≠ -1 := by omega
    simp [hne]

theorem alive_open_recv : recv_inv (fun c => c.alive = true ↔ c.fd ≠ -1) :=
  fun _ _ h _ _ _ => h

theorem record_type1_fd_alive (now : Int) (i : Nat) (d : client_t) (s : server)
    (hd : s.clients[i]? = some d) :
    (record_type1 now i d s).clients.map (fun e => (e.fd, e.alive)) =
      s.clients.map (fun e => (e.fd, e.alive)) := by
  rw [record_type1_clients]
  split_ifs
  · apply List.ext_getElem?
    intro j
    by_cases hij : i = j
    · subst hij
      have hlt := getElem?_lt hd
      rw [List.getElem?_map, List.getElem?_map, hd, List.getElem?_set_self hlt]
      rfl
    · simp [List.getElem?_map, List.getElem?_set_ne hij]
  · rfl

theorem accept_conn_slots (cfd : Int) (addr : sockaddr_in) (block : Option (Nat → Nat))
    (s : server) :
    ∀ e ∈ (accept_conn cfd addr block s).clients, e ∈ s.clients ∨ (e.fd = cfd ∧ e.alive = true) := by
  unfold accept_conn
  split
  · exact fun e he => Or.inl he
  · split
    · exact fun e he => Or.inl he
    · split
      · exact fun e he => Or.inl he
      · split
        · exact fun e he => Or.inl he
        · intro e he
          rcases List.mem_or_eq_of_mem_set he with h | h
          · exact Or.inl h
          · exact Or.inr (by rw [h]; exact ⟨rfl, rfl⟩)

/-- C15: in every state the event loop can reach (the boundaries of its
iterations), every slot has `alive` set exactly when `fd ≠ -1`.  Hence the
guard `fd ≠ -1 && alive` of the chat broadcast selects the slot exactly when
the guard `fd ≠ -1` of the shutdown broadcast does, and a slot that fails it is
left alone by both.  The release sequences clear both fields, the done signal
changes neither in any slot, and a slot written by an accept (whose descriptor
is not negative) has both set. -/
theorem alive_iff_open (cfg : config) (n : Nat) (s : server) (hr : reachable cfg n s)
    (c : client_t) (hc : c ∈ s.clients) :
    (c.alive = true ↔ c.fd ≠ -1) ∧
    ((c.fd ≠ -1 ∧ c.alive = true) ↔ c.fd ≠ -1) ∧
    (∀ (out : List Nat) (len : Nat) (g : globals), ¬ c.fd ≠ -1 →
      chat_enqueue out len g c = (g, c) ∧ shutdown_enqueue g c = (g, c)) ∧
    (∀ (fd : Int) (g : globals),
      (release fd g c).2.fd = -1 ∧ (release fd g c).2.alive = false ∧
      (release_final fd g c).2.fd = -1 ∧ (release_final fd g c).2.alive = false) ∧
    (∀ (now : Int) (i : Nat) (d : client_t), s.clients[i]? = some d →
      (record_type1 now i d s).clients.map (fun e => (e.fd, e.alive)) =
        s.clients.map (fun e => (e.fd, e.alive))) ∧
    (∀ (cfd : Int) (addr : sockaddr_in) (block : Option (Nat → Nat)), 0 ≤ cfd →
      ∀ e ∈ (accept_conn cfd addr block s).clients,
        e ∈ s.clients ∨ (e.fd = cfd ∧ e.fd ≠ -1 ∧ e.alive = true)) := by
  have h : c.alive = true ↔ c.fd ≠ -1 :=
    reachable_inv alive_open_inv cfg (handle_data_inv alive_open_inv alive_open_recv cfg)
      n s hr c hc
  refine ⟨h, ⟨fun h1 => h1.1, fun h1 => ⟨h1, h.mpr h1⟩⟩, ?_, fun _ _ => ⟨rfl, rfl, rfl, rfl⟩,
    fun now i d hd => record_type1_fd_alive now i d s hd, ?_⟩
  · intro out len g hfd
    exact ⟨chat_enqueue_skip out len g c (fun h1 => hfd h1.1),
      shutdown_enqueue_closed g c (by simpa using hfd)⟩
  · intro cfd addr block hcfd e he
    rcases accept_conn_slots cfd addr block s e he with h1 | ⟨h1, h2⟩
    · exact Or.inl h1
    · exact Or.inr ⟨h1, by omega, h2⟩

/-- C15, witness: in the state reached by an accept and a read, slot 0 is open
and alive, slot 1 is free and not alive, and the equivalence holds of slot 0. -/
theorem alive_iff_open_witness :
    two_step_state.clients.map (fun c => (c.fd, c.alive)) =
      [(4, true), (-1, false), (-1, false), (-1, false), (-1, false), (-1, false)] ∧
    ∀ c : client_t, two_step_state.clients[0]? = some c →
      ((c.alive = true ↔ c.fd ≠ -1) ∧ ((c.fd ≠ -1 ∧ c.alive = true) ↔ c.fd ≠ -1)) :=
  ⟨by decide, fun c hc =>
    ⟨(alive_iff_open example_cfg 6 two_step_state two_step_reachable c
        (mem_of_getElem? hc)).1,
     (alive_iff_open example_cfg 6 two_step_state two_step_reachable c
        (mem_of_getElem? hc)).2.1⟩⟩

/-! ## Releases and the counter `num_clients` -/

theorem set_same {α : Type} {l : List α} {i : Nat} {a : α} (h : l[i]? = some a) :
    l.set i a = l := by
  apply List.ext_getElem?
  intro j
  by_cases hij : i = j
  · subst hij
    rw [List.getElem?_set_self (getElem?_lt h), h]
  · rw [List.getElem?_set_ne hij]

theorem bufs_kept_rev {s t : server} (h : bufs_kept s t) (j : Nat) (d : client_t)
    (hd : t.clients[j]? = some d) :
    ∃ c : client_t, s.clients[j]? = some c ∧ d.buf = c.buf := by
  have hlt : j < s.clients.length := by
    have := getElem?_lt hd
    rw [h.1] at this
    exact this
  obtain ⟨e, he, heb⟩ := h.2 j _ (List.getElem?_eq_getElem hlt)
  rw [hd] at he
  cases he
  exact ⟨_, List.getElem?_eq_getElem hlt, heb⟩

theorem compact_inbound_ne (i processed : Nat) (s : server) (j : Nat) (hj : j ≠ i) :
    (compact_inbound i processed s).clients[j]? = s.clients[j]? := by
  unfold compact_inbound
  cases hc : s.clients[i]? with
  | none => rfl
  | some c =>
    simp only []
    split_ifs
    · simp [List.getElem?_set_ne (Ne.symm hj)]
    · rfl

theorem release_slot_ne (fd : Int) (i : Nat) (s : server) (j : Nat) (hj : j ≠ i) :
    (release_slot fd i s).clients[j]? = s.clients[j]? := by
  cases hc : s.clients[i]? with
  | none =>
    unfold release_slot
    rw [hc]
  | some c => exact (release_slot_clients fd i s c hc).2.1 j hj

theorem no_newline_inv : client_inv no_newline where
  start := by simp [no_newline, free_slot]
  out := fun _ _ _ _ h => h
  rel := fun _ h => h
  got := fun _ h => h
  cut := fun c n h => fun hm => h (List.mem_of_mem_drop hm)
  acc := fun _ _ _ _ => by simp [no_newline]

/-- A read that does not make `main` return leaves the inbound bytes of every
other slot as they were. -/
theorem handle_data_others (cfg : config) (now : Int) (rounds : List drain_round)
    (i : Nat) (fd : Int) (c : client_t) (space : Nat) (bytes : List Nat) (s t : server)
    (ht : handle_data cfg now rounds i fd c space bytes s = outcome.running t)
    (j : Nat) (hj : j ≠ i) (e : client_t) (he : t.clients[j]? = some e) :
    ∃ c0 : client_t, s.clients[j]? = some c0 ∧ e.buf = c0.buf := by
  rw [handle_data_eq_run_frames] at ht
  rcases hrun : run_frames cfg now rounds i (split_frames (c.buf ++ bytes.take space) []).1 0
      { s with clients := (s.clients.set i (recv_client c (bytes.take space))) } with ⟨o, q⟩
  rw [hrun] at ht
  cases o with
  | exited st s2 => simp [finish_read] at ht
  | running s2 =>
    have hk := run_frames_bufs_kept cfg now rounds i _ 0 _ s2 q hrun
    have h2 : s2.clients[j]? = some e := by
      unfold finish_read at ht
      split_ifs at ht
      · cases ht
        rw [release_slot_ne _ _ _ j hj, compact_inbound_ne _ _ _ j hj] at he
        exact he
      · cases ht
        rw [compact_inbound_ne _ _ _ j hj] at he
        exact he
    obtain ⟨c0, hc0, hb⟩ := bufs_kept_rev hk j e h2
    refine ⟨c0, ?_, hb⟩
    simpa [List.getElem?_set_ne (Ne.symm hj)] using hc0

theorem no_newline_data (cfg : config) : data_inv cfg no_newline := by
  intro now rounds i c bytes s t hc _ _ h ht
  obtain ⟨d, hd, hdb⟩ := handle_data_residual cfg now rounds i c.fd c (inbound_space c)
    bytes s t hc ht
  intro e he
  obtain ⟨j, hj⟩ := List.mem_iff_getElem?.mp he
  by_cases hji : j = i
  · subst hji
    rw [hd] at hj
    cases hj
    unfold no_newline
    rw [hdb]
    exact split_frames_rest _ [] (by simp)
  · obtain ⟨c0, hc0, hb⟩ := handle_data_others cfg now rounds i c.fd c (inbound_space c)
      bytes s t ht j hji e hj
    unfold no_newline
    rw [hb]
    exact h c0 (mem_of_getElem? hc0)

theorem reachable_no_newline (cfg : config) (n : Nat) (s : server) (h : reachable cfg n s) :
    table_all no_newline s :=
  reachable_inv no_newline_inv cfg (no_newline_data cfg) n s h

/-- When `recv` returns 0 on a slot whose residual has no newline, no frame is
handled and the release acts on the slot as it was before the read. -/
theorem handle_data_peer_closed (cfg : config) (now : Int) (rounds : List drain_round)
    (i : Nat) (fd : Int) (c : client_t) (space : Nat) (bytes : List Nat) (s : server)
    (hc : s.clients[i]? = some c) (hnl : no_newline c)
    (hgot : (bytes.take space).length = 0) :
    scan_frames cfg now rounds i (recv_client c (bytes.take space)).buf 0 0
        { s with clients := (s.clients.set i (recv_client c (bytes.take space))) } =
      (outcome.running s, 0) ∧
    handle_data cfg now rounds i fd c space bytes s =
      outcome.running (release_slot fd i s) := by
  have hrc : recv_client c (bytes.take space) = c := by
    unfold recv_client
    rw [if_pos hgot]
  have hs : ({ s with clients := (s.clients.set i c) } : server) = s := by
    rw [set_same hc]
  have hscan : scan_frames cfg now rounds i (recv_client c (bytes.take space)).buf 0 0
      { s with clients := (s.clients.set i (recv_client c (bytes.take space))) } =
      (outcome.running s, 0) := by
    rw [hrc, hs]
    exact scan_frames_no_newline cfg now rounds i c.buf 0 0 s hnl
  refine ⟨hscan, ?_⟩
  unfold handle_data
  simp only []
  rw [hscan]
  unfold finish_read
  simp only [hgot, decide_True, if_true, compact_inbound_zero]

theorem open_count_set {cs : List client_t} {i : Nat} {c : client_t} (d : client_t)
    (h : cs[i]? = some c) :
    open_count (cs.set i d) = open_count cs - slot_open c + slot_open d := by
  induction cs generalizing i with
  | nil => simp at h
  | cons a cs ih =>
    cases i with
    | zero =>
      simp only [List.getElem?_cons_zero, Option.some.injEq] at h
      subst h
      simp only [open_count, List.set_cons_zero, List.map_cons, List.sum_cons]
      omega
    | succ i =>
      simp only [List.getElem?_cons_succ] at h
      have := ih h
      simp only [open_count, List.set_cons_succ, List.map_cons, List.sum_cons] at this ⊢
      omega

theorem for_slots_balance {σ : Type} (body : Nat → σ → client_t → σ × client_t)
    (f : σ → Int)
    (hb : ∀ k st c, f (body k st c).1 - slot_open (body k st c).2 = f st - slot_open c)
    (k : Nat) (st : σ) (cs : List client_t) :
    f (for_slots body k st cs).1 - open_count (for_slots body k st cs).2 =
      f st - open_count cs := by
  induction cs generalizing k st with
  | nil => simp [for_slots, open_count]
  | cons c cs ih =>
    have h0 := hb k st c
    have h1 := ih (k + 1) (body k st c).1
    simp only [for_slots, open_count, List.map_cons, List.sum_cons] at h1 ⊢
    omega

theorem chat_enqueue_balance (out : List Nat) (len : Nat) (g : globals) (c : client_t) :
    (chat_enqueue out len g c).1.num_clients - slot_open (chat_enqueue out len g c).2 =
      g.num_clients - slot_open c := by
  by_cases hfd : c.fd = -1
  · rw [chat_enqueue_skip out len g c (fun h => h.1 hfd)]
  · unfold chat_enqueue release slot_open
    simp only []
    split_ifs <;> simp_all

theorem flush_slot_balance (w : Int → Bool) (send : Nat → send_result) (i : Nat)
    (g : globals) (c : client_t) :
    (flush_slot w send i g c).1.num_clients - slot_open (flush_slot w send i g c).2 =
      g.num_clients - slot_open c := by
  unfold flush_slot release slot_open
  simp only []
  split_ifs <;> simp_all

theorem record_type1_open_count (now : Int) (i : Nat) (c : client_t) (s : server)
    (hc : s.clients[i]? = some c) (h : count_ok s) : count_ok (record_type1 now i c s) := by
  unfold record_type1
  by_cases hg : c.got_type1 = false
  · rw [if_pos hg]
    unfold count_ok at h ⊢
    simp only []
    rw [open_count_set _ hc, h]
    have : slot_open { c with got_type1 := true } = slot_open c := rfl
    omega
  · rw [if_neg hg]
    exact h

theorem process_frame_count (cfg : config) (now : Int) (rounds : List drain_round)
    (i processed p : Nat) (s t : server) (h : count_ok s)
    (ht : process_frame cfg now rounds i processed p s = outcome.running t) : count_ok t := by
  unfold process_frame at ht
  cases hc : s.clients[i]? with
  | none =>
    rw [hc] at ht
    cases ht
    exact h
  | some c =>
    rw [hc] at ht
    simp only [] at ht
    split_ifs at ht
    · cases ht
      unfold count_ok at h ⊢
      have hb := for_slots_balance (fun _ => chat_enqueue
        (chat_envelope cfg.MAX_MSG_SIZE c processed p) (out_len cfg.MAX_MSG_SIZE processed p))
        (fun g => g.num_clients) (fun _ g d => chat_enqueue_balance _ _ g d) 0 s.g s.clients
      unfold broadcast
      simp only [] at hb ⊢
      omega
    · cases ht
      exact record_type1_open_count now i c s hc h
    · cases ht; exact h
    · cases ht; exact h

theorem scan_frames_count (cfg : config) (now : Int) (rounds : List drain_round) (i : Nat)
    (bs : List Nat) (p processed : Nat) (s t : server) (q : Nat) (h : count_ok s)
    (ht : scan_frames cfg now rounds i bs p processed s = (outcome.running t, q)) :
    count_ok t := by
  induction bs generalizing p processed s with
  | nil =>
    simp only [scan_frames, Prod.mk.injEq, outcome.running.injEq] at ht
    rw [← ht.1]; exact h
  | cons b rest ih =>
    unfold scan_frames at ht
    split_ifs at ht
    · cases hpf : process_frame cfg now rounds i processed p s with
      | exited st s1 =>
        rw [hpf] at ht
        simp at ht
      | running s1 =>
        rw [hpf] at ht
        exact ih _ _ _ (process_frame_count cfg now rounds i processed p s s1 h hpf) ht
    · exact ih _ _ _ h ht

theorem compact_inbound_count (i processed : Nat) (s : server) (h : count_ok s) :
    count_ok (compact_inbound i processed s) := by
  unfold compact_inbound
  cases hc : s.clients[i]? with
  | none => exact h
  | some c =>
    simp only []
    split_ifs
    · unfold count_ok at h ⊢
      simp only []
      rw [open_count_set _ hc, h]
      have : slot_open { c with buf := c.buf.drop processed } = slot_open c := rfl
      omega
    · exact h

/-- The release of an open slot keeps the counter equal to the number of open
slots. -/
theorem release_slot_count (fd : Int) (i : Nat) (s : server) (c : client_t)
    (hc : s.clients[i]? = some c) (hfd : c.fd ≠ -1) (h : count_ok s) :
    count_ok (release_slot fd i s) := by
  unfold release_slot release
  rw [hc]
  unfold count_ok at h ⊢
  simp only []
  rw [open_count_set _ hc, h]
  have h1 : slot_open { c with outbuf := none, fd := -1, alive := false } = 0 := rfl
  have h2 : slot_open c = 1 := by
    unfold slot_open
    rw [if_neg hfd]
  omega

theorem handle_data_count (cfg : config) (now : Int) (rounds : List drain_round)
    (i : Nat) (c : client_t) (space : Nat) (bytes : List Nat) (s t : server)
    (hc : s.clients[i]? = some c) (hfd : c.fd ≠ -1) (hnl : no_newline c) (h : count_ok s)
    (ht : handle_data cfg now rounds i c.fd c space bytes s = outcome.running t) :
    count_ok t := by
  by_cases hgot : (bytes.take space).length = 0
  · rw [(handle_data_peer_closed cfg now rounds i c.fd c space bytes s hc hnl hgot).2] at ht
    cases ht
    exact release_slot_count c.fd i s c hc hfd h
  · unfold handle_data at ht
    simp only [] at ht
    have h1 : count_ok
        { s with clients := (s.clients.set i (recv_client c (bytes.take space))) } := by
      unfold count_ok at h ⊢
      simp only []
      rw [open_count_set _ hc, h]
      have : slot_open (recv_client c (bytes.take space)) = slot_open c := by
        unfold recv_client
        rw [if_neg hgot]
        rfl
      omega
    rcases hsc : scan_frames cfg now rounds i (recv_client c (bytes.take space)).buf 0 0
        { s with clients := (s.clients.set i (recv_client c (bytes.take space))) }
      with ⟨o, q⟩
    rw [hsc] at ht
    cases o with
    | exited st s2 => simp [finish_read] at ht
    | running s2 =>
      have h2 := scan_frames_count cfg now rounds i _ 0 0 _ s2 q h1 hsc
      unfold finish_read at ht
      simp only [hgot, decide_False] at ht
      cases ht
      exact compact_inbound_count _ _ _ h2

theorem handle_readable_count (cfg : config) (readfds : Int → Bool)
    (recv : Nat → recv_result) (now : Int) (rounds : List drain_round) (i : Nat)
    (s t : server) (h : count_ok s) (hn : table_all no_newline s)
    (ht : handle_readable cfg readfds recv now rounds i s = outcome.running t) :
    count_ok t := by
  rcases handle_readable_cases cfg readfds recv now rounds i s with
    h1 | ⟨c, hc, hfd, _, h1⟩ | ⟨c, bytes, hc, hfd, _, _, _, h1⟩
  · rw [h1] at ht; cases ht; exact h
  · rw [h1] at ht; cases ht; exact release_slot_count c.fd i s c hc hfd h
  · rw [h1] at ht
    exact handle_data_count cfg now rounds i c _ bytes s t hc hfd
      (hn c (mem_of_getElem? hc)) h ht

theorem read_loop_count (cfg : config) (readfds : Int → Bool) (recv : Nat → recv_result)
    (now : Int) (rounds : List drain_round) (is : List Nat) (s t : server)
    (h : count_ok s) (hn : table_all no_newline s)
    (ht : read_loop cfg readfds recv now rounds is s = outcome.running t) : count_ok t := by
  induction is generalizing s with
  | nil =>
    simp only [read_loop, outcome.running.injEq] at ht
    rw [← ht]; exact h
  | cons i is ih =>
    unfold read_loop at ht
    cases hh : handle_readable cfg readfds recv now rounds i s with
    | exited st s1 => rw [hh] at ht; simp at ht
    | running s1 =>
      rw [hh] at ht
      exact ih _ (handle_readable_count cfg readfds recv now rounds i s s1 h hn hh)
        (handle_readable_inv no_newline_inv cfg (no_newline_data cfg) readfds recv now rounds
          i s s1 hn hh) ht

theorem flush_all_count (w : Int → Bool) (send : Nat → send_result) (s : server)
    (h : count_ok s) : count_ok (flush_all w send s) := by
  unfold count_ok flush_all at *
  have hb := for_slots_balance (flush_slot w send) (fun g => g.num_clients)
    (fun k g d => flush_slot_balance w send k g d) 0 s.g s.clients
  simp only [] at hb ⊢
  omega

theorem accept_conn_count (cfd : Int) (addr : sockaddr_in) (block : Option (Nat → Nat))
    (s : server) (hcfd : 0 ≤ cfd) (h : count_ok s) :
    count_ok (accept_conn cfd addr block s) := by
  unfold accept_conn
  split
  · exact h
  · rename_i slot hslot
    split
    · exact h
    · split
      · exact h
      · split
        · exact h
        · rename_i c hc
          have hfree : c.fd = -1 := by
            have := List.findIdx?_of_eq_some hslot
            rw [hc] at this
            simpa using this
          unfold count_ok at h ⊢
          simp only []
          rw [open_count_set _ hc, h]
          have h1 : slot_open c = 0 := by
            unfold slot_open
            rw [if_pos hfree]
          have h2 : ∀ d : client_t, d.fd = cfd → slot_open d = 1 := by
            intro d hd
            unfold slot_open
            rw [if_neg (by rw [hd]; omega)]
          rw [h1, h2 _ rfl]
          omega

theorem accept_loop_count (es : List accept_event) (s : server) (h : count_ok s) :
    count_ok (accept_loop es s) := by
  induction es generalizing s with
  | nil => exact h
  | cons e es ih =>
    cases e with
    | intr => exact ih s h
    | conn cfd addr block =>
      unfold accept_loop
      split_ifs with hneg
      · exact h
      · exact ih _ (accept_conn_count cfd addr block s (by omega) h)

theorem iteration_count (cfg : config) (e : iter_env) (s t : server) (h : count_ok s)
    (hn : table_all no_newline s) (ht : iteration cfg e s = outcome.running t) :
    count_ok t := by
  unfold iteration at ht
  by_cases hsel : e.sel < 0
  · rw [if_pos hsel] at ht
    split_ifs at ht
    cases ht
    exact h
  rw [if_neg hsel] at ht
  rcases grace_check_cases cfg e.now e.rounds s with ⟨hg, _⟩ | ⟨hg, _⟩
  · rw [hg] at ht
    simp only [] at ht
    by_cases h0 : e.sel = 0
    · rw [if_pos h0] at ht
      cases ht
      exact h
    rw [if_neg h0] at ht
    have hf := flush_all_count (fun fd => s.g.master_write fd && e.ready_write fd) e.send s h
    have hfn := flush_all_inv no_newline_inv
      (fun fd => s.g.master_write fd && e.ready_write fd) e.send s hn
    refine read_loop_count cfg _ _ _ _ _ _ t ?_ ?_ ht
    · split_ifs
      · exact accept_loop_count _ _ hf
      · exact hf
    · split_ifs
      · exact accept_loop_inv no_newline_inv _ _ hfn
      · exact hfn
  · rw [hg] at ht
    simp at ht

theorem reachable_count (cfg : config) (n : Nat) (s : server) (h : reachable cfg n s) :
    count_ok s := by
  induction h with
  | start =>
    unfold count_ok
    rw [init_eq_free]
    show (0 : Int) = open_count (List.replicate n free_slot)
    induction n with
    | zero => rfl
    | succ n ih =>
      rw [List.replicate_succ]
      simp only [open_count, List.map_cons, List.sum_cons] at ih ⊢
      rw [← ih]
      rfl
  | step e s t hs _ ht ih =>
    exact iteration_count cfg e s t ih (reachable_no_newline cfg n s hs) ht

theorem release_slot_closed_count (fd : Int) (i : Nat) (s : server) (c : client_t)
    (hc : s.clients[i]? = some c) (hfd : c.fd = -1) (h : count_ok s) :
    ¬ count_ok (release_slot fd i s) := by
  unfold release_slot release
  rw [hc]
  unfold count_ok at h ⊢
  simp only []
  rw [open_count_set _ hc, h]
  have h1 : slot_open { c with outbuf := none, fd := -1, alive := false } = 0 := rfl
  have h2 : slot_open c = 0 := by
    unfold slot_open
    rw [if_pos hfd]
  omega

/-- C12: in every state the event loop can reach, the counter `num_clients`,
which every accept increments and every release of the main loop decrements,
equals the number of open slots, and no inbound buffer holds a newline.  The
equality is lost by a release that acts on a free slot, so on the way to a
reachable state every release has acted on an open slot, once per accepted
connection.  A free slot is left alone by the read handling, by the chat
enqueue, by the flush and by the drain loops.  When `recv` returns 0 on an open
slot, the scan handles no frame and leaves the table as it is, so the
peer-closed release acts on the slot as it was before the read, which is open,
and keeps the equality. -/
theorem release_acts_on_open_slot (cfg : config) (n : Nat) (s : server)
    (hr : reachable cfg n s) :
    s.g.num_clients = open_count s.clients ∧
    (∀ c ∈ s.clients, 10 ∉ c.buf) ∧
    (∀ (fd : Int) (i : Nat) (c : client_t), s.clients[i]? = some c → c.fd = -1 →
      ¬ (release_slot fd i s).g.num_clients = open_count (release_slot fd i s).clients) ∧
    (∀ (i : Nat) (c : client_t), s.clients[i]? = some c → c.fd = -1 →
      (∀ (readfds : Int → Bool) (recv : Nat → recv_result) (now : Int)
        (rounds : List drain_round),
        handle_readable cfg readfds recv now rounds i s = outcome.running s) ∧
      (∀ (out : List Nat) (len : Nat) (g : globals), chat_enqueue out len g c = (g, c)) ∧
      (∀ (w : Int → Bool) (send : Nat → send_result) (k : Nat) (g : globals),
        flush_slot w send k g c = (g, c)) ∧
      (∀ (w : Int → Bool) (send : Nat → send_result) (k : Nat) (st : globals × Bool),
        drain_slot w send k st c = (st, c))) ∧
    (∀ (now : Int) (rounds : List drain_round) (i : Nat) (c : client_t) (bytes : List Nat),
      s.clients[i]? = some c → c.fd ≠ -1 → (bytes.take (inbound_space c)).length = 0 →
      scan_frames cfg now rounds i (recv_client c (bytes.take (inbound_space c))).buf 0 0
          { s with clients :=
              (s.clients.set i (recv_client c (bytes.take (inbound_space c)))) } =
        (outcome.running s, 0) ∧
      handle_data cfg now rounds i c.fd c (inbound_space c) bytes s =
        outcome.running (release_slot c.fd i s) ∧
      (release_slot c.fd i s).g.num_clients = open_count (release_slot c.fd i s).clients) := by
  have hcount := reachable_count cfg n s hr
  have hnl := reachable_no_newline cfg n s hr
  refine ⟨hcount, hnl, ?_, ?_, ?_⟩
  · intro fd i c hc hfd
    exact release_slot_closed_count fd i s c hc hfd hcount
  · intro i c hc hfd
    refine ⟨fun readfds recv now rounds =>
        handle_readable_closed cfg readfds recv now rounds i s c hc hfd,
      fun out len g => chat_enqueue_skip out len g c (fun h => h.1 hfd), ?_, ?_⟩
    · intro w send k g
      unfold flush_slot
      rw [if_pos hfd]
    · intro w send k st
      unfold drain_slot
      rw [if_pos hfd]
  · intro now rounds i c bytes hc hfd hgot
    obtain ⟨h1, h2⟩ := handle_data_peer_closed cfg now rounds i c.fd c (inbound_space c)
      bytes s hc (hnl c (mem_of_getElem? hc)) hgot
    exact ⟨h1, h2, release_slot_count c.fd i s c hc hfd hcount⟩

/-- C12, witness: in the state reached by an accept and a read of `"hi"` one
slot is open and `num_clients` is 1; when the peer of slot 0 then closes, the
read handling is the release of that slot, after which no slot is open and
`num_clients` is 0. -/
theorem release_acts_on_open_slot_witness :
    two_step_state.g.num_clients = 1 ∧ open_count two_step_state.clients = 1 ∧
    (release_slot 4 0 two_step_state).g.num_clients = 0 ∧
    open_count (release_slot 4 0 two_step_state).clients = 0 ∧
    ∀ c : client_t, two_step_state.clients[0]? = some c →
      handle_data example_cfg 1000 [] 0 c.fd c (inbound_space c) [] two_step_state =
        outcome.running (release_slot c.fd 0 two_step_state) := by
  refine ⟨by decide, by decide, by decide, by decide, fun c hc => ?_⟩
  have hfd : c.fd ≠ -1 := by
    have h0 : two_step_state.clients[0]?.map (fun c => c.fd) = some 4 := by decide
    rw [hc] at h0
    simp only [Option.map_some', Option.some.injEq] at h0
    rw [h0]; decide
  exact ((release_acts_on_open_slot example_cfg 6 two_step_state two_step_reachable).2.2.2.2
    1000 [] 0 c [] hc hfd (by simp)).2.1


end ChatServer

namespace Lab5

/-! ## C16: `find_best_fit` -/

theorem best_fit_loop_keep (size : Nat) (l : List header) (id : Int) (bs : Nat)
    (h : ∀ x ∈ l, fits size x → bs ≤ x.size) : best_fit_loop size l id bs = id := by
  induction l with
  | nil => rfl
  | cons c rest ih =>
    have hc : ¬ (c.size ≥ size ∧ c.size < bs) := by
      intro hh
      have := h c (by simp) hh.1
      omega
    simp only [best_fit_loop, if_neg hc]
    exact ih (fun x hx => h x (by simp [hx]))

theorem best_fit_loop_found (size : Nat) (l : List header) (id : Int) (bs : Nat) (b : header)
    (hb : is_first_smallest_fit l size b) (hlt : b.size < bs) :
    best_fit_loop size l id bs = b.id := by
  induction l generalizing id bs with
  | nil =>
    obtain ⟨pre, post, hl, _⟩ := hb
    simp at hl
  | cons c rest ih =>
    obtain ⟨pre, post, hl, hfit, hmin, hfirst⟩ := hb
    cases pre with
    | nil =>
      simp only [List.nil_append, List.cons.injEq] at hl
      obtain ⟨hcb, hrest⟩ := hl
      subst hcb
      have hc : c.size ≥ size ∧ c.size < bs := ⟨hfit, hlt⟩
      simp only [best_fit_loop, if_pos hc]
      exact best_fit_loop_keep size rest c.id c.size (fun x hx hx1 => hmin x (by simp [hx]) hx1)
    | cons p pre1 =>
      simp only [List.cons_append, List.cons.injEq] at hl
      obtain ⟨hcp, hrest⟩ := hl
      subst hcp
      have hb1 : is_first_smallest_fit rest size b :=
        ⟨pre1, post, hrest, hfit, fun x hx hx1 => hmin x (by simp [hx]) hx1,
          fun x hx hx1 => hfirst x (by simp [hx]) hx1⟩
      by_cases hc : c.size ≥ size ∧ c.size < bs
      · simp only [best_fit_loop, if_pos hc]
        exact ih c.id c.size hb1 (hfirst c (by simp) hc.1)
      · simp only [best_fit_loop, if_neg hc]
        exact ih id bs hb1 hlt

theorem exists_first_smallest_fit (size : Nat) (l : List header)
    (h : ∃ x ∈ l, fits size x) : ∃ b, is_first_smallest_fit l size b := by
  induction l with
  | nil => simp at h
  | cons c rest ih =>
    by_cases hr : ∃ x ∈ rest, fits size x
    · obtain ⟨b, pre, post, hl, hfit, hmin, hfirst⟩ := ih hr
      by_cases hc : fits size c ∧ c.size ≤ b.size
      · refine ⟨c, [], rest, rfl, hc.1, ?_, by simp⟩
        intro x hx hx1
        rcases List.mem_cons.mp hx with e | e
        · rw [e]
        · exact Nat.le_trans hc.2 (hmin x e hx1)
      · refine ⟨b, c :: pre, post, by rw [hl]; rfl, hfit, ?_, ?_⟩
        · intro x hx hx1
          rcases List.mem_cons.mp hx with e | e
          · rw [e] at hx1 ⊢
            have : ¬ c.size ≤ b.size := fun h1 => hc ⟨hx1, h1⟩
            omega
          · exact hmin x e hx1
        · intro x hx hx1
          rcases List.mem_cons.mp hx with e | e
          · rw [e] at hx1 ⊢
            have : ¬ c.size ≤ b.size := fun h1 => hc ⟨hx1, h1⟩
            omega
          · exact hfirst x e hx1
    · obtain ⟨x, hx, hx1⟩ := h
      rcases List.mem_cons.mp hx with e | e
      · subst e
        refine ⟨x, [], rest, rfl, hx1, ?_, by simp⟩
        intro y hy hy1
        rcases List.mem_cons.mp hy with e | e
        · rw [e]
        · exact absurd ⟨y, e, hy1⟩ hr
      · exact absurd ⟨x, e, hx1⟩ hr

theorem find_first_fit_eq_neg_one (size : Nat) (l : List header) (hid : ∀ x ∈ l, x.id ≠ -1) :
    find_first_fit l size = -1 ↔ ∀ x ∈ l, ¬ fits size x := by
  induction l with
  | nil => simp [find_first_fit]
  | cons c rest ih =>
    have ih1 := ih (fun x hx => hid x (by simp [hx]))
    by_cases hc : c.size ≥ size
    · simp only [find_first_fit, if_pos hc]
      constructor
      · intro h; exact absurd h (hid c (by simp))
      · intro h; exact absurd hc (h c (by simp))
    · simp only [find_first_fit, if_neg hc, ih1]
      constructor
      · intro h x hx
        rcases List.mem_cons.mp hx with e | e
        · rw [e]; exact hc
        · exact h x e
      · intro h x hx
        exact h x (by simp [hx])

/-- How far the claim C16 holds: when every block is smaller than `UINT64_MAX`,
`find_best_fit` returns the id of the first block of minimum size among the
fitting blocks, and -1 when no block fits; when moreover no id is -1, it
returns -1 exactly when no block fits, that is exactly when `find_first_fit`
returns -1. -/
theorem find_best_fit_below_max (l : List header) (size : Nat)
    (hmax : ∀ x ∈ l, x.size < UINT64_MAX) :
    (∀ b, is_first_smallest_fit l size b → find_best_fit l size = b.id) ∧
    ((∀ x ∈ l, ¬ fits size x) → find_best_fit l size = -1) ∧
    ((∀ x ∈ l, x.id ≠ -1) →
      ((find_best_fit l size = -1 ↔ ∀ x ∈ l, ¬ fits size x) ∧
       (find_best_fit l size = -1 ↔ find_first_fit l size = -1))) := by
  have h1 : ∀ b, is_first_smallest_fit l size b → find_best_fit l size = b.id := by
    intro b hb
    obtain ⟨pre, post, hl, _⟩ := id hb
    exact best_fit_loop_found size l (-1) UINT64_MAX b hb (hmax b (by rw [hl]; simp))
  have h2 : (∀ x ∈ l, ¬ fits size x) → find_best_fit l size = -1 :=
    fun h => best_fit_loop_keep size l (-1) UINT64_MAX (fun x hx hx1 => absurd hx1 (h x hx))
  refine ⟨h1, h2, fun hid => ?_⟩
  have h3 : find_best_fit l size = -1 ↔ ∀ x ∈ l, ¬ fits size x := by
    constructor
    · intro h x hx hx1
      obtain ⟨b, hb⟩ := exists_first_smallest_fit size l ⟨x, hx, hx1⟩
      obtain ⟨pre, post, hl, _⟩ := id hb
      rw [h1 b hb] at h
      exact hid b (by rw [hl]; simp) h
    · exact h2
  exact ⟨h3, by rw [h3, find_first_fit_eq_neg_one size l hid]⟩

/-- C16, at the failing input: on a free list whose only block has size
`UINT64_MAX` and id 1, the request 7 is met by that block, `find_first_fit`
returns its id, and `find_best_fit` returns -1; on the list of `main` the
request 7 gives best fit 4 and first fit 2. -/
theorem find_best_fit_misses_largest_block :
    fits 7 (⟨UINT64_MAX, 1⟩ : header) ∧
    find_first_fit [⟨UINT64_MAX, 1⟩] 7 = 1 ∧
    find_best_fit [⟨UINT64_MAX, 1⟩] 7 = -1 ∧
    find_best_fit main_free_list 7 = 4 ∧
    find_first_fit main_free_list 7 = 2 := by
  decide

/-! ## C17: `find_worst_fit` -/

theorem worst_fit_loop_keep (size : Nat) (l : List header) (id : Int) (ws : Nat)
    (h : ∀ x ∈ l, fits size x → x.size ≤ ws) : worst_fit_loop size l id ws = id := by
  induction l with
  | nil => rfl
  | cons c rest ih =>
    have hc : ¬ (c.size ≥ size ∧ c.size > ws) := by
      intro hh
      have := h c (by simp) hh.1
      omega
    simp only [worst_fit_loop, if_neg hc]
    exact ih (fun x hx => h x (by simp [hx]))

theorem worst_fit_loop_found (size : Nat) (l : List header) (id : Int) (ws : Nat) (b : header)
    (hb : is_first_largest_fit l size b) (hlt : ws < b.size) :
    worst_fit_loop size l id ws = b.id := by
  induction l generalizing id ws with
  | nil =>
    obtain ⟨pre, post, hl, _⟩ := hb
    simp at hl
  | cons c rest ih =>
    obtain ⟨pre, post, hl, hfit, hmax, hfirst⟩ := hb
    cases pre with
    | nil =>
      simp only [List.nil_append, List.cons.injEq] at hl
      obtain ⟨hcb, hrest⟩ := hl
      subst hcb
      have hc : c.size ≥ size ∧ c.size > ws := ⟨hfit, hlt⟩
      simp only [worst_fit_loop, if_pos hc]
      exact worst_fit_loop_keep size rest c.id c.size
        (fun x hx hx1 => hmax x (by simp [hx]) hx1)
    | cons p pre1 =>
      simp only [List.cons_append, List.cons.injEq] at hl
      obtain ⟨hcp, hrest⟩ := hl
      subst hcp
      have hb1 : is_first_largest_fit rest size b :=
        ⟨pre1, post, hrest, hfit, fun x hx hx1 => hmax x (by simp [hx]) hx1,
          fun x hx hx1 => hfirst x (by simp [hx]) hx1⟩
      by_cases hc : c.size ≥ size ∧ c.size > ws
      · simp only [worst_fit_loop, if_pos hc]
        exact ih c.id c.size hb1 (hfirst c (by simp) hc.1)
      · simp only [worst_fit_loop, if_neg hc]
        exact ih id ws hb1 hlt

theorem exists_first_largest_fit (size : Nat) (l : List header)
    (h : ∃ x ∈ l, fits size x) : ∃ b, is_first_largest_fit l size b := by
  induction l with
  | nil => simp at h
  | cons c rest ih =>
    by_cases hr : ∃ x ∈ rest, fits size x
    · obtain ⟨b, pre, post, hl, hfit, hmax, hfirst⟩ := ih hr
      by_cases hc : fits size c ∧ b.size ≤ c.size
      · refine ⟨c, [], rest, rfl, hc.1, ?_, by simp⟩
        intro x hx hx1
        rcases List.mem_cons.mp hx with e | e
        · rw [e]
        · exact Nat.le_trans (hmax x e hx1) hc.2
      · refine ⟨b, c :: pre, post, by rw [hl]; rfl, hfit, ?_, ?_⟩
        · intro x hx hx1
          rcases List.mem_cons.mp hx with e | e
          · rw [e] at hx1 ⊢
            have : ¬ b.size ≤ c.size := fun h1 => hc ⟨hx1, h1⟩
            omega
          · exact hmax x e hx1
        · intro x hx hx1
          rcases List.mem_cons.mp hx with e | e
          · rw [e] at hx1 ⊢
            have : ¬ b.size ≤ c.size := fun h1 => hc ⟨hx1, h1⟩
            omega
          · exact hfirst x e hx1
    · obtain ⟨x, hx, hx1⟩ := h
      rcases List.mem_cons.mp hx with e | e
      · subst e
        refine ⟨x, [], rest, rfl, hx1, ?_, by simp⟩
        intro y hy hy1
        rcases List.mem_cons.mp hy with e | e
        · rw [e]
        · exact absurd ⟨y, e, hy1⟩ hr
      · exact absurd ⟨x, e, hx1⟩ hr

/-- How far the claim C17 holds: when the request is at least 1,
`find_worst_fit` returns the id of the first block of maximum size among the
fitting blocks, and -1 when no block fits; when moreover no id is -1, it
returns -1 exactly when no block fits. -/
theorem find_worst_fit_positive_request (l : List header) (size : Nat) (hsize : 1 ≤ size) :
    (∀ b, is_first_largest_fit l size b → find_worst_fit l size = b.id) ∧
    ((∀ x ∈ l, ¬ fits size x) → find_worst_fit l size = -1) ∧
    ((∀ x ∈ l, x.id ≠ -1) → (find_worst_fit l size = -1 ↔ ∀ x ∈ l, ¬ fits size x)) := by
  have h1 : ∀ b, is_first_largest_fit l size b → find_worst_fit l size = b.id := by
    intro b hb
    obtain ⟨pre, post, hl, hfit, _⟩ := id hb
    exact worst_fit_loop_found size l (-1) 0 b hb (Nat.lt_of_lt_of_le hsize hfit)
  have h2 : (∀ x ∈ l, ¬ fits size x) → find_worst_fit l size = -1 :=
    fun h => worst_fit_loop_keep size l (-1) 0 (fun x hx hx1 => absurd hx1 (h x hx))
  refine ⟨h1, h2, fun hid => ⟨?_, h2⟩⟩
  intro h x hx hx1
  obtain ⟨b, hb⟩ := exists_first_largest_fit size l ⟨x, hx, hx1⟩
  obtain ⟨pre, post, hl, _⟩ := id hb
  rw [h1 b hb] at h
  exact hid b (by rw [hl]; simp) h

/-- C17, at the failing input: on a free list whose only block has size 0 and
id 1, the request 0 is met by that block, `find_first_fit` returns its id, and
`find_worst_fit` returns -1; on the list of `main` the request 7 gives worst
fit 3. -/
theorem find_worst_fit_misses_empty_block :
    fits 0 (⟨0, 1⟩ : header) ∧
    find_first_fit [⟨0, 1⟩] 0 = 1 ∧
    find_worst_fit [⟨0, 1⟩] 0 = -1 ∧
    find_worst_fit main_free_list 7 = 3 := by
  decide

end Lab5
